import Mathlib

/-!
# pool-dance: validator, upstream cache, block monitor, pool server, round log

A shallow embedding of `work-validator.c`, `upstream-service.c`,
`block-monitor.c`, `pool-server.c`, `file-logger.c`, `round-manager.c` and the
validation callback of `main.c`, and the properties of share validation, of
the upstream work cache, of block polling, of long polling and of the round
log proved on it.

Conventions of the embedding:

* a C string (`gchar *`) is a `List Char`, one `Char` per byte, without the
  terminating NUL; a pointer that may be `NULL` is an `Option`; strings are
  values, and the lifetime of heap blocks (`g_free`) is modelled only where
  two fields can point to one block: the block hashes of the validator;
* a `guint8` is a `Nat` stored modulo `256`, a `guint` a `Nat` modulo `2^32`;
* a `GHashTable` keyed by strings is an association list with unique keys;
* a field that the code reads without having initialised it (`g_slice_new`
  does not clear memory) is an input of the model;
* code whose behaviour the C standard leaves undefined (a write past the end
  of an array) or that aborts (a failed `g_assert`) returns `Except.error`
  with the fault;
* SHA-256 is a parameter: any function to 32-byte digests;
* a validation is one step: phase 2 runs in a worker thread, but it reads only
  the work result and the target, so it is composed with phase 1;
* asynchronous code (timers, JSON-RPC calls, stream operations) is a step
  function over events: a completion or an expiry is an event that is enabled
  only while the operation is outstanding or the source armed.
-/

namespace PoolDance

/-! ## C library routines used by the validator -/

/-- Hexadecimal strings and other `gchar *` data. -/
abbrev Hex := List Char

/-- The `isspace` test of the C locale. -/
def isspace (c : Char) : Bool :=
  c = ' ' || c = '\t' || c = '\n' || c = '\x0b' || c = '\x0c' || c = '\r'

/-- Value of a digit in base 16, when `c` is one. -/
def xdigit_value (c : Char) : Option Nat :=
  if '0' ≤ c ∧ c ≤ '9' then some (c.toNat - '0'.toNat)
  else if 'a' ≤ c ∧ c ≤ 'f' then some (c.toNat - 'a'.toNat + 10)
  else if 'A' ≤ c ∧ c ≤ 'F' then some (c.toNat - 'A'.toNat + 10)
  else none

/-- The digit loop of `strtoul`: accumulates base 16 digits from the front of
`s`, returns the value and the number of characters used. -/
def strtoul_digits : Hex → Nat → Nat → Nat × Nat
  | [], acc, used => (acc, used)
  | c :: s, acc, used =>
    match xdigit_value c with
    | some d => strtoul_digits s (acc * 16 + d) (used + 1)
    | none => (acc, used)

/-- Whether the string starts with a `0x` or `0X` prefix that is followed by a
hexadecimal digit (only then does `strtoul` skip the prefix). -/
def hex_prefixed : Hex → Bool
  | '0' :: x :: d :: _ => (x = 'x' || x = 'X') && (xdigit_value d).isSome
  | _ => false

/-- Model of `strtoul (s, &endptr, 16)` (and of `g_ascii_strtoull`, which
behaves like it in the C locale) on a 64-bit `unsigned long`: the converted
value and the offset `endptr - s`. Leading white space, one sign and a `0x`
prefix are accepted; when no digit is found the value is `0` and `endptr = s`. -/
def strtoul16 (s : Hex) : Nat × Nat :=
  let ws := (s.takeWhile isspace).length
  let s1 := s.dropWhile isspace
  let negative := s1.head? = some '-'
  let sign := if s1.head? = some '-' ∨ s1.head? = some '+' then 1 else 0
  let s2 := s1.drop sign
  let pre := if hex_prefixed s2 then 2 else 0
  let r := strtoul_digits (s2.drop pre) 0 0
  if r.2 = 0 then (0, 0)
  else if 2 ^ 64 ≤ r.1 then (2 ^ 64 - 1, ws + sign + pre + r.2)
  else ((if negative then (2 ^ 64 - r.1) % 2 ^ 64 else r.1), ws + sign + pre + r.2)

/-- SHA-256 as used through `GChecksum`: an uninterpreted function from byte
strings to 32-byte digests. -/
structure Sha256 where
  digest : List Nat → List Nat
  digest_length : ∀ m, (digest m).length = 32
  digest_byte : ∀ m x, x ∈ digest m → x < 256

/-! ## work-validator.c -/

def TRACK_NONCE_MAX : Nat := 16

/-- The error codes of `work-validator.h`. -/
inductive WorkValidatorError
  | SUCCESS
  | INVALID
  | STALE
  | DUPLICATED
  deriving DecidableEq, Repr

/-- A `GError` of the validator's domain. -/
structure GError where
  code : WorkValidatorError
  message : String
  deriving DecidableEq, Repr

/-- Behaviour the C code leaves undefined, or an abort. -/
inductive Fault
  /-- The write `tracked_work->nonces[index] = nonce` with `index` outside the array. -/
  | nonces_out_of_bounds (index : Nat)
  /-- The assertion `g_assert (strlen (data) == 256)` of `track_work_sent` failed. -/
  | assertion_failed
  /-- The copy loop of `on_block_hash` read past a result shorter than 64 characters. -/
  | block_hash_too_short
  /-- The call `g_free (self->block_hash_prev)` of
  `work_validator_notify_new_block` released the buffer `self->block_hash`
  points to, and the code goes on with that pointer. -/
  | block_hash_freed
  deriving DecidableEq, Repr

/-- The fields of `TrackedWork` the validator reads. `nonces` holds the slots
`nonces[0 .. nonce_count)` written so far, in order, so that `nonce_count` is
its length; the slots above are never read. -/
structure TrackedWork where
  user : Option Hex
  version : Hex
  timestamp : Hex
  nonces : List Nat
  possible_stale : Bool
  deriving DecidableEq, Repr

def TrackedWork.nonce_count (tw : TrackedWork) : Nat := tw.nonces.length

/-- A `GHashTable` from merkle root to `TrackedWork`. -/
abbrev Table := List (Hex × TrackedWork)

def g_hash_table_lookup : Table → Hex → Option TrackedWork
  | [], _ => none
  | (k, v) :: t, key => if k = key then some v else g_hash_table_lookup t key

/-- Insertion replaces the value of a key that is already present. -/
def g_hash_table_insert : Table → Hex → TrackedWork → Table
  | [], key, value => [(key, value)]
  | (k, v) :: t, key, value =>
    if k = key then (k, value) :: t else (k, v) :: g_hash_table_insert t key value

/-- The fields of `struct _WorkValidator` that hold state. The previous table
is `NULL` until the first new block. The two block hashes are pointers to
buffers: each is given by the string its buffer holds, and
`block_hash_shared` tells whether `block_hash_prev` points to the very buffer
`block_hash` points to. -/
structure WorkValidator where
  work_by_merkle_root : Table
  work_by_merkle_root_prev : Option Table
  block_num : Nat
  block_hash : Option Hex
  block_hash_prev : Option Hex
  target : List Nat
  block_hash_shared : Bool
  deriving DecidableEq, Repr

/-- A submission: the `data` member of the submitted work, the user of the
request's basic-auth credentials (`NULL` without them) and the `stale` field,
which `work_result_new` leaves as allocated. -/
structure WorkResult where
  data : Hex
  user : Option Hex
  stale : Bool
  deriving DecidableEq, Repr

/-- One exchange of two characters at `a` with the two at `b`, the three
`memcpy` calls in the loop of `swap_hex_bytes2`. -/
def swap_pair (hex : Hex) (a b : Nat) : Hex :=
  let t0 := hex.getD a '\x00'
  let t1 := hex.getD (a + 1) '\x00'
  let h1 := (hex.set a (hex.getD b '\x00')).set (a + 1) (hex.getD (b + 1) '\x00')
  (h1.set b t0).set (b + 1) t1

def swap_hex_bytes2_loop (head tail : Nat) : Nat → Hex → Hex
  | 0, hex => hex
  | n + 1, hex =>
    let h := swap_hex_bytes2_loop head tail n hex
    swap_pair h (head + n * 2) (tail - n * 2)

/-- Reverses the order of the `len` bytes (character pairs) from byte `from`. -/
def swap_hex_bytes2 (hex : Hex) (src : Nat) (len : Nat) : Hex :=
  swap_hex_bytes2_loop (src * 2) (src * 2 + len * 2 - 2) (len / 2) hex

/-- The loop of `hex_to_bin` from index `i`, `n` pairs left: stores each
converted byte, stops with `false` at the first pair `strtoul` does not use
up. -/
def hex_to_bin_loop (hex : Hex) : Nat → Nat → List Nat → Bool × List Nat
  | 0, _, bin => (true, bin)
  | n + 1, i, bin =>
    let r := strtoul16 ((hex.drop (i * 2)).take 2)
    let bin1 := bin.set i (r.1 % 256)
    if r.2 ≠ 2 then (false, bin1) else hex_to_bin_loop hex n (i + 1) bin1

def hex_to_bin (hex : Hex) (hex_size : Nat) (bin : List Nat) : Bool × List Nat :=
  hex_to_bin_loop hex (hex_size / 2) 0 bin

def work_data_get_merkle_root_hex (data : Hex) : Hex :=
  (data.drop 72).take 64

/-- The macro `GUINT32_SWAP_LE_BE`: the four bytes of a `guint32` in reverse order. -/
def GUINT32_SWAP_LE_BE (v : Nat) : Nat :=
  (v % 256) * 2 ^ 24 + (v / 2 ^ 8 % 256) * 2 ^ 16 + (v / 2 ^ 16 % 256) * 2 ^ 8 + v / 2 ^ 24 % 256

def work_data_get_nonce (data : Hex) : Nat :=
  GUINT32_SWAP_LE_BE ((strtoul16 ((data.drop 152).take 8)).1 % 2 ^ 32)

/-- Which of the two tables a `TrackedWork *` points into. -/
inductive TableRef
  | current
  | previous
  deriving DecidableEq, Repr

/-- A write through a `TrackedWork *` that a lookup of `key` returned: the
entry under `key` takes the new contents, nothing else changes. -/
def table_write : Table → Hex → TrackedWork → Table
  | [], _, _ => []
  | (k, v) :: t, key, value =>
    if k = key then (k, value) :: t else (k, v) :: table_write t key value

def store_tracked_work (self : WorkValidator) (ref : TableRef) (key : Hex)
    (tw : TrackedWork) : WorkValidator :=
  match ref with
  | .current =>
    { self with work_by_merkle_root := table_write self.work_by_merkle_root key tw }
  | .previous =>
    { self with
      work_by_merkle_root_prev :=
        self.work_by_merkle_root_prev.map (fun t => table_write t key tw) }

/-- Lookup in the current table, then in the previous one; an entry found only
in the previous table gets `possible_stale = TRUE`. `none` stands for the
`NULL` result, returned with the error "Work result for an unknown work
item". A lookup in a `NULL` previous table finds nothing. -/
def get_tracked_work_by_data (self : WorkValidator) (data : Hex) :
    WorkValidator × Option (TableRef × TrackedWork) :=
  let merkle_root := work_data_get_merkle_root_hex data
  match g_hash_table_lookup self.work_by_merkle_root merkle_root with
  | some tw => (self, some (.current, tw))
  | none =>
    match self.work_by_merkle_root_prev with
    | none => (self, none)
    | some prev =>
      match g_hash_table_lookup prev merkle_root with
      | none => (self, none)
      | some tw =>
        let tw1 := { tw with possible_stale := true }
        (store_tracked_work self .previous merkle_root tw1, some (.previous, tw1))

/-- The nonce is compared with the recorded ones and, when new, written to
slot `nonce_count`; the array has `TRACK_NONCE_MAX` slots and the code has no
bound check, so a write at a larger index is a fault. -/
def check_merkle_root_and_nonce_is_unique (data : Hex) (tw : TrackedWork) :
    Except Fault (TrackedWork × Option GError) :=
  let nonce := work_data_get_nonce data
  if nonce ∈ tw.nonces then
    .ok (tw, some ⟨.DUPLICATED, "Duplicate work result"⟩)
  else if tw.nonce_count < TRACK_NONCE_MAX then
    .ok ({ tw with nonces := tw.nonces ++ [nonce] }, none)
  else
    .error (.nonces_out_of_bounds tw.nonce_count)

def check_previous_block_hash_matches (data : Hex) (block_hash : Option Hex) :
    Option GError :=
  let prev_block_hash := (data.drop 8).take 64
  if some prev_block_hash ≠ block_hash then
    some ⟨.INVALID, "Previous block hash mismatch"⟩
  else none

/-- Phase 1. Returns the validator and the work result as the checks leave
them, and the error that was set, if any. -/
def prevalidate_work_result (self : WorkValidator) (wr : WorkResult) :
    Except Fault (WorkValidator × WorkResult × Option GError) :=
  let data := wr.data
  if data.length ≠ 256 then
    .ok (self, wr, some ⟨.INVALID, "Work data is invalid, incorrect length"⟩)
  else
    match get_tracked_work_by_data self data with
    | (self1, none) =>
      .ok (self1, wr, some ⟨.INVALID, "Work result for an unknown work item"⟩)
    | (self1, some (ref, tw)) =>
      let wr1 := if tw.possible_stale then { wr with stale := true } else wr
      if tw.version ≠ data.take 8 then
        .ok (self1, wr1, some ⟨.INVALID, "Version mismatch"⟩)
      else if tw.timestamp ≠ (data.drop 136).take 8 then
        .ok (self1, wr1, some ⟨.INVALID, "Timestamp mismatch"⟩)
      else
        match check_merkle_root_and_nonce_is_unique data tw with
        | .error f => .error f
        | .ok (_, some e) => .ok (self1, wr1, some e)
        | .ok (tw1, none) =>
          let self2 := store_tracked_work self1 ref (work_data_get_merkle_root_hex data) tw1
          if tw1.user ≠ wr1.user then
            .ok (self2, wr1, some ⟨.INVALID, "User mismatch"⟩)
          else
            .ok (self2, wr1,
              if tw1.possible_stale then
                check_previous_block_hash_matches data self2.block_hash_prev
              else
                check_previous_block_hash_matches data self2.block_hash)

/-- The loop `for (i=0; i<80; i+=4) swap_hex_bytes2 (data, i, 4)`, `n` rounds. -/
def swap_words_loop : Nat → Hex → Hex
  | 0, data => data
  | n + 1, data => swap_hex_bytes2 (swap_words_loop n data) (n * 4) 4

/-- The loop of `compare_inverted_hashes` with `n` bytes left: it looks at
index `n - 1` first. -/
def compare_inverted_hashes_loop (hash1 hash2 : List Nat) : Nat → Int
  | 0 => 0
  | n + 1 =>
    if hash1.getD n 0 < hash2.getD n 0 then -1
    else if hash1.getD n 0 > hash2.getD n 0 then 1
    else compare_inverted_hashes_loop hash1 hash2 n

def compare_inverted_hashes (hash1 hash2 : List Nat) : Int :=
  compare_inverted_hashes_loop hash1 hash2 32

/-- The header as phase 2 hashes it: `data` cut at 160 characters, each
4-byte word reversed. -/
def header_hex (data : Hex) : Hex :=
  swap_words_loop 20 (data.take 160)

/-- Phase 2, the part run in the thread pool. Returns the error set, if any. -/
def validate_work_result_in_thread (H : Sha256) (self : WorkValidator)
    (wr : WorkResult) : Option GError :=
  match hex_to_bin (header_hex wr.data) 160 (List.replicate 80 0) with
  | (false, _) => some ⟨.INVALID, "Invalid hex string"⟩
  | (true, data_bin) =>
    let hash1 := H.digest data_bin
    let hash2 := H.digest hash1
    if compare_inverted_hashes hash2 self.target > 0 then
      some ⟨.INVALID, "Block hash is not less than target"⟩
    else if wr.stale then
      some ⟨.STALE, "Block hash belongs to previous block. Stale!"⟩
    else none

/-- Both phases of a validation: the validator afterwards and the error the
asynchronous result carries (`none` when the work is accepted). -/
def work_validator_validate (H : Sha256) (self : WorkValidator) (wr : WorkResult) :
    Except Fault (WorkValidator × Option GError) :=
  match prevalidate_work_result self wr with
  | .error f => .error f
  | .ok (self1, _, some e) => .ok (self1, some e)
  | .ok (self1, wr1, none) => .ok (self1, validate_work_result_in_thread H self1 wr1)

/-- The code the orchestrator reports for a finished validation. -/
def outcome (e : Option GError) : WorkValidatorError :=
  match e with
  | none => .SUCCESS
  | some err => err.code

/-- State after `work_validator_new`. -/
def work_validator_new : WorkValidator :=
  { work_by_merkle_root := []
    work_by_merkle_root_prev := none
    block_num := 0
    block_hash := none
    block_hash_prev := none
    target := List.replicate 32 0
    block_hash_shared := false }

/-- The entry is allocated with `g_slice_new`, which does not clear it, and
`possible_stale` is not assigned: its first value, `possible_stale`, is an
input. -/
def work_validator_track_work_sent (self : WorkValidator) (user : Option Hex)
    (data : Hex) (possible_stale : Bool) : Except Fault WorkValidator :=
  if data.length ≠ 256 then .error .assertion_failed
  else
    .ok { self with
      work_by_merkle_root :=
        g_hash_table_insert self.work_by_merkle_root (work_data_get_merkle_root_hex data)
          { user := user
            version := data.take 8
            timestamp := (data.drop 136).take 8
            nonces := []
            possible_stale := possible_stale } }

/-- The first `n` groups written by the loop of `on_block_hash`:
`memcpy (self->block_hash + i, block_hash + 64 - 8 - i, 8)` for `i = 0, 8, ..`. -/
def block_hash_groups (block_hash : Hex) : Nat → Hex
  | 0 => []
  | n + 1 => block_hash_groups block_hash n ++ (block_hash.drop (64 - 8 - n * 8)).take 8

/-- Completion of `getblockhash`: `none` is a failed call (it is issued again,
the state stays), `some h` the string returned. The reordered hash goes into
a buffer allocated here (`g_new0`), so `block_hash` shares no buffer
afterwards; the buffer it pointed to before is not released. -/
def on_block_hash (self : WorkValidator) (result : Option Hex) :
    Except Fault WorkValidator :=
  match result with
  | none => .ok self
  | some block_hash =>
    if block_hash.length < 64 then .error .block_hash_too_short
    else
      .ok { self with
        block_hash := some (block_hash_groups block_hash 8)
        block_hash_shared := false }

/-- The statements `g_free (self->block_hash_prev); self->block_hash_prev =
self->block_hash;` make the two fields point to one buffer. When they already
do (no `getblockhash` result was stored since the last new block) and the
pointer is not `NULL`, the `g_free` releases the buffer `block_hash` points
to and the assignment that follows uses that pointer: from there on both
fields dangle, every comparison with them reads released memory and the next
call releases the buffer a second time. That is a fault; otherwise the buffer
released, if any, is one only `block_hash_prev` pointed to. -/
def work_validator_notify_new_block (self : WorkValidator) (block : Nat) :
    Except Fault WorkValidator :=
  if self.block_hash_shared ∧ self.block_hash_prev ≠ none then .error .block_hash_freed
  else
    .ok { self with
      block_num := block
      block_hash_prev := self.block_hash
      block_hash_shared := true
      work_by_merkle_root_prev := some self.work_by_merkle_root
      work_by_merkle_root := [] }

def work_validator_set_target (self : WorkValidator) (target : Hex) : WorkValidator :=
  { self with target := (hex_to_bin target 64 self.target).2 }

/-- The calls the validator receives. -/
inductive Event
  | set_target (target : Hex)
  | track_work_sent (user : Option Hex) (data : Hex) (possible_stale : Bool)
  | validate (wr : WorkResult)
  | notify_new_block (block : Nat)
  | on_block_hash (result : Option Hex)
  deriving DecidableEq, Repr

def step (H : Sha256) (self : WorkValidator) : Event → Except Fault WorkValidator
  | .set_target target => .ok (work_validator_set_target self target)
  | .track_work_sent user data ps => work_validator_track_work_sent self user data ps
  | .validate wr =>
    match work_validator_validate H self wr with
    | .error f => .error f
    | .ok (self1, _) => .ok self1
  | .notify_new_block block => work_validator_notify_new_block self block
  | .on_block_hash result => on_block_hash self result

/-- Runs the calls in order, stopping at the first fault. -/
def run (H : Sha256) : WorkValidator → List Event → Except Fault WorkValidator
  | self, [] => .ok self
  | self, ev :: evs =>
    match step H self ev with
    | .error f => .error f
    | .ok self1 => run H self1 evs

/-! ## Notions used in the statements -/

/-- The integer a byte string stands for when its last byte is the most
significant one (byte 31 of a 32-byte hash). -/
def hash_value : List Nat → Nat
  | [] => 0
  | b :: t => b + 256 * hash_value t

def lookup_previous (self : WorkValidator) (key : Hex) : Option TrackedWork :=
  match self.work_by_merkle_root_prev with
  | none => none
  | some t => g_hash_table_lookup t key

def lookup_ref (self : WorkValidator) (ref : TableRef) (key : Hex) : Option TrackedWork :=
  match ref with
  | .current => g_hash_table_lookup self.work_by_merkle_root key
  | .previous => lookup_previous self key

/-- What a validation may change in an entry: nonces are added and the stale
mark may be set; user, version and timestamp stay. -/
def Evolves (a b : TrackedWork) : Prop :=
  b.user = a.user ∧ b.version = a.version ∧ b.timestamp = a.timestamp ∧
    ∀ n ∈ a.nonces, n ∈ b.nonces

def OptEvolves : Option TrackedWork → Option TrackedWork → Prop
  | none, none => True
  | some a, some b => Evolves a b
  | _, _ => False

/-- The validator `s1` differs from `s` only inside entries of the tables. -/
def Evolved (s s1 : WorkValidator) : Prop :=
  s1.target = s.target ∧ s1.block_hash = s.block_hash ∧
    s1.block_hash_prev = s.block_hash_prev ∧ s1.block_num = s.block_num ∧
    ∀ ref key, OptEvolves (lookup_ref s ref key) (lookup_ref s1 ref key)

/-- The hash the previous-block field of a header is compared with. -/
def reference_block_hash (s : WorkValidator) (tw : TrackedWork) : Option Hex :=
  if tw.possible_stale then s.block_hash_prev else s.block_hash

/-- The work result as phase 1 hands it to phase 2. -/
def marked (wr : WorkResult) (tw : TrackedWork) : WorkResult :=
  if tw.possible_stale then { wr with stale := true } else wr

/-- The entry a lookup of `key` finds: the one of the current table, else the
one of the previous table. -/
def find_tracked (s : WorkValidator) (key : Hex) : Option TrackedWork :=
  match g_hash_table_lookup s.work_by_merkle_root key with
  | some tw => some tw
  | none => lookup_previous s key

/-- The target is a 32-byte array. -/
def TargetOk (s : WorkValidator) : Prop :=
  s.target.length = 32 ∧ ∀ x ∈ s.target, x < 256

/-- The call is not a registration of a template with merkle root `key`. -/
def NotTrackOf (key : Hex) (ev : Event) : Prop :=
  ∀ user data ps, ev = Event.track_work_sent user data ps →
    work_data_get_merkle_root_hex data ≠ key

/-- No call of `evs` registers a template with merkle root `key`. -/
def NoTrack (key : Hex) (evs : List Event) : Prop :=
  ∀ ev ∈ evs, NotTrackOf key ev

/-- Some call of `evs` registered a template with this merkle root, version
characters, timestamp characters and user. -/
def Registered (evs : List Event) (key : Hex) (version timestamp : Hex)
    (user : Option Hex) : Prop :=
  ∃ data ps, Event.track_work_sent user data ps ∈ evs ∧
    work_data_get_merkle_root_hex data = key ∧ data.take 8 = version ∧
    (data.drop 136).take 8 = timestamp

/-- Every entry of the two tables stems from a registration in `evs`. -/
def HistoryInv (evs : List Event) (s : WorkValidator) : Prop :=
  ∀ ref key tw, lookup_ref s ref key = some tw →
    Registered evs key tw.version tw.timestamp tw.user

/-- The tracked work the lookup of phase 1 returns for `data`, with the stale
mark as the lookup leaves it. -/
def looked_up (s : WorkValidator) (data : Hex) : Option TrackedWork :=
  (get_tracked_work_by_data s data).2.map (fun p => p.2)

/-- The result of decoding the header in phase 2: whether every character
pair converted, and the buffer. -/
def decoded_header (data : Hex) : Bool × List Nat :=
  hex_to_bin (header_hex data) 160 (List.replicate 80 0)

/-- Whether the header decodes and its double hash compares above the target
(without decoded bytes there is no hash to compare). -/
def hash_above_target (H : Sha256) (s : WorkValidator) (wr : WorkResult) : Bool :=
  (decoded_header wr.data).1 &&
    decide (compare_inverted_hashes (H.digest (H.digest (decoded_header wr.data).2)) s.target > 0)

/-- The code of the first check of a list that fails (each check is given
with the code it yields), SUCCESS when none fails. -/
def first_failing : List (Bool × WorkValidatorError) → WorkValidatorError
  | [] => .SUCCESS
  | (failed, code) :: rest => if failed then code else first_failing rest

/-- The checks of phase 1 on the tracked work found: version, timestamp,
nonce, user, previous block hash. -/
def phase1_checks (s : WorkValidator) (wr : WorkResult) (tw : TrackedWork) :
    List (Bool × WorkValidatorError) :=
  [ (decide (tw.version ≠ wr.data.take 8), .INVALID),
    (decide (tw.timestamp ≠ (wr.data.drop 136).take 8), .INVALID),
    (decide (work_data_get_nonce wr.data ∈ tw.nonces), .DUPLICATED),
    (decide (tw.user ≠ wr.user), .INVALID),
    ((check_previous_block_hash_matches wr.data (reference_block_hash s tw)).isSome,
      .INVALID) ]

/-- The nine checks in the order the specification lists them: length,
unknown merkle root, version, timestamp, nonce, user, previous block hash,
hash above target, stale mark. -/
def listed_checks (H : Sha256) (s : WorkValidator) (wr : WorkResult) :
    List (Bool × WorkValidatorError) :=
  (decide (wr.data.length ≠ 256), .INVALID) ::
    match looked_up s wr.data with
    | none => [(true, .INVALID)]
    | some tw =>
      (false, .INVALID) ::
        (phase1_checks s wr tw ++
          [ (hash_above_target H s wr, .INVALID),
            (wr.stale || tw.possible_stale, .STALE) ])

def DEFAULT_WORK_CACHE_SIZE : Nat := 10

/-- A work item as the upstream node returns it. -/
abbrev JsonNode := List Char

/-- The fields of `struct _UpstreamService` that hold state. `work_queue` is
`NULL` until the first new block; its head is the head of the list.
`work_queue_min` and `work_requests` are `guint`. -/
structure UpstreamService where
  work_queue : Option (List JsonNode)
  work_queue_min : Nat
  work_requests : Nat
  deriving DecidableEq, Repr

/-- The service together with the `getwork` calls it has issued through the
RPC client and that have not completed yet. -/
structure Upstream where
  self : UpstreamService
  calls : Nat
  deriving DecidableEq, Repr

/-- Model of `g_queue_get_length`; for a `NULL` queue the precondition check of GLib
returns `0`. -/
def g_queue_get_length (queue : Option (List JsonNode)) : Nat :=
  match queue with
  | none => 0
  | some q => q.length

/-- Model of `g_queue_push_head`; on a `NULL` queue the precondition check returns
without effect. -/
def g_queue_push_head (queue : Option (List JsonNode)) (data : JsonNode) :
    Option (List JsonNode) :=
  queue.map (fun q => data :: q)

/-- Model of `g_queue_pop_head`: the head, or `NULL` for an empty or `NULL` queue, and
the queue left. -/
def g_queue_pop_head (queue : Option (List JsonNode)) :
    Option JsonNode × Option (List JsonNode) :=
  match queue with
  | some (x :: q) => (some x, some q)
  | q => (none, q)

/-- State after `upstream_service_new` with the value read for
`work-cache-size` (`0` when the key is missing), stored in a `guint`. -/
def upstream_service_new (work_cache_size : Int) : Upstream :=
  { self :=
      { work_queue := none
        work_queue_min :=
          if (work_cache_size % 2 ^ 32).toNat = 0 then DEFAULT_WORK_CACHE_SIZE
          else (work_cache_size % 2 ^ 32).toNat
        work_requests := 0 }
    calls := 0 }

/-- The `while` loop of `fill_work_queue`, at most `fuel` rounds: each round
counts one more request and issues one `getwork` call. The sum is taken in
`guint` arithmetic. -/
def fill_work_queue_loop : Nat → Upstream → Upstream
  | 0, u => u
  | fuel + 1, u =>
    if (u.self.work_requests + g_queue_get_length u.self.work_queue) % 2 ^ 32
        < u.self.work_queue_min then
      fill_work_queue_loop fuel
        { self := { u.self with work_requests := (u.self.work_requests + 1) % 2 ^ 32 }
          calls := u.calls + 1 }
    else u

/-- The loop runs until its condition fails, which takes at most
`work_queue_min` rounds. -/
def fill_work_queue (u : Upstream) : Upstream :=
  fill_work_queue_loop u.self.work_queue_min u

/-- Completion of one `getwork` call: `none` is a failed call, `some r` the
result. The `has_work_cb` of `main.c` only schedules `serve_work` and leaves
the service as it is. -/
def rpc_on_getwork (u : Upstream) (result : Option JsonNode) : Upstream :=
  match result with
  | none => u
  | some json_result =>
    fill_work_queue
      { u with
        self :=
          { u.self with
            work_queue := g_queue_push_head u.self.work_queue json_result
            work_requests := (u.self.work_requests + (2 ^ 32 - 1)) % 2 ^ 32 } }

def upstream_service_notify_new_block (u : Upstream) (_block : Nat) : Upstream :=
  fill_work_queue { u with self := { u.self with work_queue := some [], work_requests := 0 } }

def upstream_service_get_work (u : Upstream) : Option JsonNode × Upstream :=
  let r := g_queue_pop_head u.self.work_queue
  (r.1, fill_work_queue { u with self := { u.self with work_queue := r.2 } })

/-- What happens to the service: the two calls of the orchestrator and the
completion of a call in flight. -/
inductive UpstreamEvent
  | notify_new_block (block : Nat)
  | get_work
  | getwork_done (result : Option JsonNode)
  deriving DecidableEq, Repr

/-- One event; a completion is possible only while a call is in flight, and
takes that call out of the calls in flight. -/
def upstream_step (u : Upstream) : UpstreamEvent → Option Upstream
  | .notify_new_block block => some (upstream_service_notify_new_block u block)
  | .get_work => some (upstream_service_get_work u).2
  | .getwork_done result =>
    if u.calls = 0 then none
    else some (rpc_on_getwork { u with calls := u.calls - 1 } result)

def upstream_run : Upstream → List UpstreamEvent → Option Upstream
  | u, [] => some u
  | u, ev :: evs =>
    match upstream_step u ev with
    | none => none
    | some u1 => upstream_run u1 evs

/-- Every new block of the run arrives while no `getwork` call is in flight. -/
def QuietAtNewBlock : Upstream → List UpstreamEvent → Prop
  | _, [] => True
  | u, ev :: evs =>
    (∀ block, ev = .notify_new_block block → u.calls = 0) ∧
      ∀ u1, upstream_step u ev = some u1 → QuietAtNewBlock u1 evs

/-- The bound the refill loop keeps while the request count is exact. -/
def CacheBounded (u : Upstream) : Prop :=
  u.self.work_queue_min < 2 ^ 32 ∧
    u.self.work_requests + g_queue_get_length u.self.work_queue ≤ u.self.work_queue_min ∧
    u.calls ≤ u.self.work_requests

/-! ## Sample data -/

/-- A digest function for examples: every digest is 32 zero bytes. -/
def zero_sha : Sha256 :=
  { digest := fun _ => List.replicate 32 0
    digest_length := fun _ => List.length_replicate 32 0
    digest_byte := fun _ x h => by rw [List.eq_of_mem_replicate h]; decide }

/-- The pool target of `main.c`. -/
def EASY_TARGET : Hex :=
  "ffffffffffffffffffffffffffffffffffffffffffffffffffffffff00000000".data

/-- The state the calls lead to (the start state if one of them faults). -/
def state_after (H : Sha256) (s : WorkValidator) (evs : List Event) : WorkValidator :=
  match run H s evs with
  | .ok s1 => s1
  | .error _ => s

def sample_block_hash : Hex :=
  "00000000000003a1b2c3d4e5f60718293a4b5c6d7e8f90a1b2c3d4e5f6071829".data

def sample_merkle_root : Hex :=
  "4a5e1e4baab89f3a32518a88c31bc87f618f76673e2cc77ab2127b7afdeda33b".data

/-- A 256-character `data` string for block `sample_block_hash` with the
given difficulty-bits and nonce fields. -/
def sample_data (bits nonce : Hex) : Hex :=
  "00000001".data ++ block_hash_groups sample_block_hash 8 ++ sample_merkle_root ++
    "4f000000".data ++ bits ++ nonce ++ List.replicate 96 '0'

def alice : Option Hex := some "alice".data

def bob : Option Hex := some "bob".data

/-- Start-up, block 100 with its hash resolved, one template handed to
`alice`. -/
def sample_events : List Event :=
  [ .set_target EASY_TARGET,
    .notify_new_block 100,
    .on_block_hash (some sample_block_hash),
    .track_work_sent alice (sample_data "1d00ffff".data "00000000".data) false ]

def sample_state : WorkValidator :=
  state_after zero_sha work_validator_new sample_events

/-- A submission of `user` for the sample template. -/
def sample_result (user : Option Hex) (bits nonce : String) : WorkResult :=
  { data := sample_data bits.data nonce.data, user := user, stale := false }

/-- Seventeen nonce fields, all different. -/
def seventeen_nonces : List String :=
  ["00000000", "00000001", "00000002", "00000003", "00000004", "00000005", "00000006",
   "00000007", "00000008", "00000009", "0000000a", "0000000b", "0000000c", "0000000d",
   "0000000e", "0000000f", "00000010"]

/-- The first sixteen of them, submitted by `alice` one after the other. -/
def sixteen_submissions : List Event :=
  (seventeen_nonces.take 16).map (fun n => Event.validate (sample_result alice "1d00ffff" n))

/-- The sample state after block 101 arrived: the template is in the previous
table. -/
def stale_state : WorkValidator :=
  state_after zero_sha sample_state [.notify_new_block 101]

/-- The hash of block 101 in the examples. -/
def next_block_hash : Hex :=
  "0000000000000b2c3d4e5f60718293a4b5c6d7e8f90a1b2c3d4e5f60718293a4".data

/-- The sample state after the sixteen submissions. -/
def full_state : WorkValidator :=
  state_after zero_sha sample_state sixteen_submissions

/-- The entry of the sample template as `sample_events` leave it. -/
def sample_tracked : TrackedWork :=
  { user := alice
    version := "00000001".data
    timestamp := "4f000000".data
    nonces := []
    possible_stale := false }

/-- The templates that arrived (results of successful `getwork` calls), in
the order of arrival. -/
def arrivals : List UpstreamEvent → List JsonNode
  | [] => []
  | .getwork_done (some r) :: evs => r :: arrivals evs
  | _ :: evs => arrivals evs

/-! ## block-monitor.c -/

def DEFAULT_LATENCY : Nat := 250

/-- The fields of `struct _BlockMonitor` that hold state. `src_id` is `0`
when no timeout source is remembered. -/
structure BlockMonitor where
  currentBlock : Nat
  started : Bool
  src_id : Nat
  latency : Nat
  deriving DecidableEq, Repr

/-- The monitor with what surrounds it: the timeout sources armed in the main
loop (by id), the `getblockcount` calls in flight, the id the next source
gets, and the block numbers passed to `block_change_cb` so far, oldest
first. -/
structure Monitor where
  self : BlockMonitor
  timers : List Nat
  calls : Nat
  next_source : Nat
  delivered : List Nat
  deriving DecidableEq, Repr

/-- State after `block_monitor_new` with the value read for `latency` (`0`
when the key is missing), stored in a `guint`. -/
def block_monitor_new (latency : Int) : Monitor :=
  { self :=
      { currentBlock := 0
        started := false
        src_id := 0
        latency :=
          if (latency % 2 ^ 32).toNat = 0 then DEFAULT_LATENCY else (latency % 2 ^ 32).toNat }
    timers := []
    calls := 0
    next_source := 1
    delivered := [] }

/-- Arms a timeout source for `checkBlock` and returns its id, which is not
`0` and not the id of another source. -/
def evd_timeout_add (m : Monitor) : Monitor × Nat :=
  ({ m with timers := m.timers ++ [m.next_source], next_source := m.next_source + 1 },
    m.next_source)

def g_source_remove (m : Monitor) (id : Nat) : Monitor :=
  { m with timers := m.timers.erase id }

/-- The value `json_node_get_int` returns (a `gint64`) as it is stored in the
`guint block`. -/
def block_of_count (count : Int) : Nat :=
  (count % 2 ^ 32).toNat

/-- Forgets the source and issues one `getblockcount` call. -/
def checkBlock (m : Monitor) : Monitor :=
  { m with self := { m.self with src_id := 0 }, calls := m.calls + 1 }

/-- Completion of a `getblockcount` call: `none` is a failed call, `some c`
the count returned. The callback is `block_monitor_on_block_change` of
`main.c`, which does not call into the monitor. -/
def on_block_count (m : Monitor) (result : Option Int) : Monitor :=
  let m1 :=
    match result with
    | none => m
    | some count =>
      if block_of_count count > m.self.currentBlock then
        let m0 := { m with self := { m.self with currentBlock := block_of_count count } }
        if m0.self.started then
          { m0 with delivered := m0.delivered ++ [m0.self.currentBlock] }
        else m0
      else m
  if m1.self.started then
    { (evd_timeout_add m1).1 with
      self := { (evd_timeout_add m1).1.self with src_id := (evd_timeout_add m1).2 } }
  else m1

def block_monitor_start (m : Monitor) : Monitor :=
  if m.self.started then m
  else
    let m1 := if m.self.src_id ≠ 0 then g_source_remove m m.self.src_id else m
    checkBlock { m1 with self := { m1.self with started := true } }

def block_monitor_stop (m : Monitor) : Monitor :=
  if ¬ m.self.started then m
  else
    let m1 := { m with self := { m.self with started := false } }
    if m1.self.src_id > 0 then
      { g_source_remove m1 m1.self.src_id with
        self := { (g_source_remove m1 m1.self.src_id).self with src_id := 0 } }
    else m1

/-- What happens to the monitor: the two calls of the orchestrator, the
completion of a call in flight, the expiry of an armed source. -/
inductive MonitorEvent
  | start
  | stop
  | response (result : Option Int)
  | timer (id : Nat)
  deriving DecidableEq, Repr

/-- One event. A completion needs a call in flight and takes it out of the
calls in flight; an expiry needs the source to be armed, and the source is
gone afterwards because `checkBlock` returns `FALSE`. -/
def monitor_step (m : Monitor) : MonitorEvent → Option Monitor
  | .start => some (block_monitor_start m)
  | .stop => some (block_monitor_stop m)
  | .response result =>
    if m.calls = 0 then none
    else some (on_block_count { m with calls := m.calls - 1 } result)
  | .timer id =>
    if id ∈ m.timers then some (checkBlock (g_source_remove m id)) else none

def monitor_run : Monitor → List MonitorEvent → Option Monitor
  | m, [] => some m
  | m, ev :: evs =>
    match monitor_step m ev with
    | none => none
    | some m1 => monitor_run m1 evs

/-- A start, and four polls answered with the counts 100, 100, 99 and 101. -/
def polling_events : List MonitorEvent :=
  [.start, .response (some 100), .timer 1, .response (some 100), .timer 2,
   .response (some 99), .timer 3, .response (some 101)]

/-- The monitor after `polling_events`. -/
def polling_monitor : Monitor :=
  { self := { currentBlock := 101, started := true, src_id := 4, latency := 250 }
    timers := [4]
    calls := 0
    next_source := 5
    delivered := [100, 101] }

/-- The monitor after a start and a stop: the first call is still in flight. -/
def stopped_monitor : Monitor :=
  { self := { currentBlock := 0, started := false, src_id := 0, latency := 250 }
    timers := []
    calls := 1
    next_source := 1
    delivered := [] }

/-! ## pool-server.c -/

/-- A connection, by identity. -/
abbrev EvdHttpConnection := Nat

/-- The fields of `struct _WorkRequest` that tell requests apart. -/
structure WorkRequest where
  conn : EvdHttpConnection
  invocation_id : Nat
  from_lp : Bool
  deriving DecidableEq, Repr

/-- The response headers, as name and value pairs in order. -/
abbrev SoupMessageHeaders := List (String × String)

/-- Model of `soup_message_headers_replace`: drops every header of that name
and appends the new one. -/
def soup_message_headers_replace (hdrs : SoupMessageHeaders) (name value : String) :
    SoupMessageHeaders :=
  hdrs.filter (fun p => p.1 ≠ name) ++ [(name, value)]

/-- Model of `soup_message_headers_get_one`: the value of the first header of
that name. -/
def soup_message_headers_get_one (hdrs : SoupMessageHeaders) (name : String) :
    Option String :=
  (hdrs.find? (fun p => p.1 = name)).map (fun p => p.2)

/-- The fields of `struct _PoolServer` that hold state. -/
structure PoolServer where
  headers : SoupMessageHeaders
  lp_conns : List EvdHttpConnection
  getwork_queue : List WorkRequest
  deriving DecidableEq, Repr

def LP_PATH : String := "/lp"

/-- The macro `SERVER_NAME`; `VERSION` comes from the build. -/
def SERVER_NAME (VERSION : String) : String := "pool-dance/" ++ VERSION

/-- State after `pool_server_new`; `hdrs` are the response headers the
JSON-RPC server object starts with. -/
def pool_server_new (VERSION : String) (hdrs : SoupMessageHeaders) : PoolServer :=
  { headers :=
      soup_message_headers_replace
        (soup_message_headers_replace hdrs "Server" (SERVER_NAME VERSION))
        "X-Long-Polling" LP_PATH
    lp_conns := []
    getwork_queue := [] }

/-- The handler of `request-headers`: a request for `LP_PATH` parks its
connection, any other is handed to the JSON-RPC server. -/
def on_request_headers (self : PoolServer) (conn : EvdHttpConnection) (path : String) :
    PoolServer :=
  if path ≠ LP_PATH then self
  else { self with lp_conns := self.lp_conns ++ [conn] }

/-- A JSON-RPC call: only `getwork` without parameters changes the server, it
queues a request; a `getwork` with parameters is a submission, handed to the
putwork callback, and any other method is answered with an error. -/
def rpc_on_method_call (self : PoolServer) (method_name : String) (params_length : Nat)
    (invocation_id : Nat) (conn : EvdHttpConnection) : PoolServer :=
  if method_name ≠ "getwork" then self
  else if params_length = 0 then
    { self with getwork_queue := self.getwork_queue ++ [⟨conn, invocation_id, false⟩] }
  else self

def getwork_connection_on_close (self : PoolServer) (data : WorkRequest) : PoolServer :=
  { self with getwork_queue := self.getwork_queue.erase data }

def lp_connection_on_close (self : PoolServer) (conn : EvdHttpConnection) : PoolServer :=
  { self with lp_conns := self.lp_conns.erase conn }

def long_polling_conn_to_getwork (conn : EvdHttpConnection) (self : PoolServer) :
    PoolServer :=
  { self with getwork_queue := self.getwork_queue ++ [⟨conn, 0, true⟩] }

/-- The call `g_list_foreach (list, long_polling_conn_to_getwork, self)`. -/
def g_list_foreach_to_getwork : List EvdHttpConnection → PoolServer → PoolServer
  | [], self => self
  | conn :: rest, self => g_list_foreach_to_getwork rest (long_polling_conn_to_getwork conn self)

def pool_server_notify_new_block (self : PoolServer) (block : Nat) : PoolServer :=
  let self1 :=
    { self with headers := soup_message_headers_replace self.headers "X-Blocknum" (toString block) }
  { g_list_foreach_to_getwork self1.lp_conns self1 with lp_conns := [] }

def pool_server_need_work (self : PoolServer) : Bool :=
  self.getwork_queue.length > 0

def pool_server_get_work_request (self : PoolServer) : Option WorkRequest × PoolServer :=
  match self.getwork_queue with
  | [] => (none, self)
  | r :: rest => (some r, { self with getwork_queue := rest })

/-- What happens to the pool server. -/
inductive PoolServerEvent
  | request_headers (conn : EvdHttpConnection) (path : String)
  | method_call (method_name : String) (params_length : Nat) (invocation_id : Nat)
      (conn : EvdHttpConnection)
  | getwork_closed (data : WorkRequest)
  | lp_closed (conn : EvdHttpConnection)
  | notify_new_block (block : Nat)
  | get_work_request
  deriving DecidableEq, Repr

def pool_server_step (self : PoolServer) : PoolServerEvent → PoolServer
  | .request_headers conn path => on_request_headers self conn path
  | .method_call m n i conn => rpc_on_method_call self m n i conn
  | .getwork_closed data => getwork_connection_on_close self data
  | .lp_closed conn => lp_connection_on_close self conn
  | .notify_new_block block => pool_server_notify_new_block self block
  | .get_work_request => (pool_server_get_work_request self).2

def pool_server_run : PoolServer → List PoolServerEvent → PoolServer
  | self, [] => self
  | self, ev :: evs => pool_server_run (pool_server_step self ev) evs

/-- The block of the last new-block notification among the events, if any. -/
def last_block : List PoolServerEvent → Option Nat
  | [] => none
  | ev :: evs =>
    match last_block evs with
    | some b => some b
    | none =>
      match ev with
      | .notify_new_block b => some b
      | _ => none

/-! ## main.c -/

/-- What the orchestrator does towards the outside when a validation has
finished. -/
inductive OrchestratorAction
  /-- The call `event_dispatcher_notify_work_validated`, with code and reason. -/
  | notify_work_validated (code : WorkValidatorError) (message : Option String)
  /-- The JSON-RPC response to the miner, a boolean. -/
  | jsonrpc_respond (result : Bool)
  /-- The call of `getwork` on the upstream node with the submitted work. -/
  | upstream_getwork (work : Hex)
  deriving DecidableEq, Repr

/-- The answer `pool_server_respond_putwork` sends: the boolean `accepted`;
the reason is not put into the response. -/
def pool_server_respond_putwork (_work_result : WorkResult) (accepted : Bool)
    (_reason : Option String) : OrchestratorAction :=
  .jsonrpc_respond accepted

/-- The callback of a finished validation; `error` is what
`work_validator_validate_finish` hands out (`none` when it returns `TRUE`). -/
def work_validator_on_validate (work_result : WorkResult) (error : Option GError) :
    List OrchestratorAction :=
  match error with
  | none =>
    [ .notify_work_validated .SUCCESS none,
      pool_server_respond_putwork work_result true none,
      .upstream_getwork work_result.data ]
  | some e =>
    [ .notify_work_validated e.code (some e.message),
      pool_server_respond_putwork work_result false (some e.message) ]

/-! ## file-logger.c -/

/-- Text written to files. -/
abbrev Bytes := List Char

/-- The function a finished copy-and-truncate is reported to: the one of the
round manager, or one that leaves the logger alone. -/
inductive TruncateCallback
  | on_copy_and_truncate
  | other
  deriving DecidableEq, Repr

/-- The fields of `TruncateData` besides the logger; `callback` is the one
held by `result`. -/
structure TruncateData where
  copy_file_name : Bytes
  timeout_before_truncate : Nat
  callback : TruncateCallback
  deriving DecidableEq, Repr

/-- The function a finished flush is reported to: the one
`file_logger_copy_and_truncate` passes, or one that leaves the logger alone. -/
inductive FlushCallback
  | copy_and_truncate_on_logger_flushed (data : TruncateData)
  | other
  deriving DecidableEq, Repr

/-- The fields of `struct _FileLogger` that hold state: whether `file` is set,
the queued entries (head first), and `async_result` by the callback it
carries. -/
structure FileLogger where
  file : Bool
  queue : List Bytes
  flushing : Bool
  async_result : Option FlushCallback
  frozen : Bool
  write_all_string : Bytes
  deriving DecidableEq, Repr

/-- The asynchronous operations of the output stream. -/
inductive StreamOp
  | write
  | flush
  deriving DecidableEq, Repr

/-- A result completed with `g_simple_async_result_complete_in_idle`, waiting
for the main loop: a refused flush or a refused copy-and-truncate. -/
inductive IdleCall
  | flush_error (callback : FlushCallback)
  | truncate_error (callback : TruncateCallback)
  deriving DecidableEq, Repr

/-- What callbacks outside the logger get to see. -/
inductive Report
  | flush_finished (ok : Bool)
  | copy_and_truncate_finished (ok : Bool)
  deriving DecidableEq, Repr

/-- The logger with what surrounds it: the operation outstanding on the
stream, the content of the log file, the files `g_file_copy` has written
(latest first), the armed `copy_and_truncate_on_timeout` sources, the idle
completions, the reports made, and the entries passed to `file_logger_log` so
far in call order. -/
structure LoggerWorld where
  self : FileLogger
  pending : Option StreamOp
  disk : Bytes
  copies : List (Bytes × Bytes)
  timeouts : List TruncateData
  idle : List IdleCall
  reports : List Report
  logged : List Bytes
  deriving DecidableEq, Repr

/-- The loop of `write_all`: pops the head of the queue and appends it to the
string until the queue is empty. -/
def write_all_loop : List Bytes → Bytes → Bytes
  | [], s => s
  | entry :: queue, s => write_all_loop queue (s ++ entry)

def write_all (w : LoggerWorld) : LoggerWorld :=
  if w.pending.isSome then w
  else
    let w1 :=
      if !w.self.frozen && !w.self.flushing && w.self.async_result.isNone then
        { w with
          self :=
            { w.self with
              write_all_string := write_all_loop w.self.queue w.self.write_all_string
              queue := [] } }
      else w
    if w1.self.write_all_string.length > 0 then { w1 with pending := some .write }
    else w1

def file_logger_log (w : LoggerWorld) (entry : Bytes) : LoggerWorld :=
  let w1 :=
    { w with
      self := { w.self with queue := w.self.queue ++ [entry ++ ['\n']] }
      logged := w.logged ++ [entry] }
  if !w1.self.frozen && !w1.self.flushing && w1.self.async_result.isNone then write_all w1
  else w1

def file_logger_freeze (w : LoggerWorld) : LoggerWorld :=
  { w with self := { w.self with frozen := true } }

def file_logger_thaw (w : LoggerWorld) : LoggerWorld :=
  let w1 := { w with self := { w.self with frozen := false } }
  if !w1.self.frozen && (w1.self.write_all_string.length > 0 || w1.self.queue.length > 0) then
    write_all w1
  else w1

def file_logger_flush (w : LoggerWorld) (callback : FlushCallback) : LoggerWorld :=
  if w.self.async_result.isSome then { w with idle := w.idle ++ [.flush_error callback] }
  else
    let w1 := { w with self := { w.self with async_result := some callback, flushing := true } }
    if w1.pending.isSome then w1
    else write_all { w1 with self := { w1.self with flushing := false } }

/-- The entry of `log_started`, with the value of `time (NULL)`. -/
def started_entry (now : Nat) : Bytes :=
  (toString now).data ++ "\tSTARTED".data

def log_started (w : LoggerWorld) (now : Nat) : LoggerWorld :=
  file_logger_log w (started_entry now)

/-- The call of the callback of a copy-and-truncate result; `ok` is what
`file_logger_copy_and_truncate_finish` returns. The round manager logs
STARTED on success and only warns otherwise. -/
def complete_truncate (w : LoggerWorld) (callback : TruncateCallback) (ok : Bool)
    (now : Nat) : LoggerWorld :=
  let w1 := { w with reports := w.reports ++ [.copy_and_truncate_finished ok] }
  match callback with
  | .other => w1
  | .on_copy_and_truncate => if ok then log_started w1 now else w1

/-- The flush of a copy-and-truncate has finished: on failure the result is
completed with the error, on success the timeout source is armed. -/
def copy_and_truncate_on_logger_flushed (w : LoggerWorld) (data : TruncateData) (ok : Bool)
    (now : Nat) : LoggerWorld :=
  if !ok then complete_truncate w data.callback false now
  else { w with timeouts := w.timeouts ++ [data] }

/-- The call of the callback of a flush result; `ok` is what
`file_logger_flush_finish` returns. -/
def complete_flush (w : LoggerWorld) (callback : FlushCallback) (ok : Bool) (now : Nat) :
    LoggerWorld :=
  match callback with
  | .other => { w with reports := w.reports ++ [.flush_finished ok] }
  | .copy_and_truncate_on_logger_flushed data =>
    copy_and_truncate_on_logger_flushed w data ok now

/-- Completion of `g_output_stream_flush_async`; a failure is only printed,
the flush result is completed without error either way. -/
def on_flush (w : LoggerWorld) (_flush_ok : Bool) (now : Nat) : LoggerWorld :=
  match w.self.async_result with
  | none => w
  | some callback =>
    complete_flush { w with self := { w.self with async_result := none } } callback true now

/-- Completion of `g_output_stream_write_async` with the value of
`g_output_stream_write_finish`: the bytes written, negative for an error. -/
def on_log_entry_written (w : LoggerWorld) (size : Int) : LoggerWorld :=
  let w1 :=
    if size < 0 then w
    else if size > 0 then
      { w with
        self := { w.self with write_all_string := w.self.write_all_string.drop size.toNat } }
    else w
  let w2 := if w1.self.flushing then { w1 with self := { w1.self with flushing := false } } else w1
  if w1.self.flushing && w2.self.write_all_string.length > 0 then write_all w2
  else if w2.self.async_result.isSome then { w2 with pending := some .flush }
  else write_all w2

/-- The timeout source of a copy-and-truncate fires: the file is copied, then
truncated (`copy_ok` and `truncate_ok` say whether the two calls succeed), the
result is completed and the logger thawed. -/
def copy_and_truncate_on_timeout (w : LoggerWorld) (data : TruncateData)
    (copy_ok truncate_ok : Bool) (now : Nat) : LoggerWorld :=
  let w1 := if copy_ok then { w with copies := (data.copy_file_name, w.disk) :: w.copies } else w
  let w2 := if copy_ok && truncate_ok then { w1 with disk := [] } else w1
  file_logger_thaw (complete_truncate w2 data.callback (copy_ok && truncate_ok) now)

def file_logger_copy_and_truncate (w : LoggerWorld) (copy_file_name : Bytes)
    (timeout_before_truncate : Nat) (callback : TruncateCallback) : LoggerWorld :=
  if !w.self.file then { w with idle := w.idle ++ [.truncate_error callback] }
  else
    file_logger_flush (file_logger_freeze w)
      (.copy_and_truncate_on_logger_flushed
        { copy_file_name := copy_file_name
          timeout_before_truncate := timeout_before_truncate
          callback := callback })

/-- A logger on a stream just opened; `file` tells whether the logger also
holds the `GFile` and `content` is what the file holds. -/
def new_logger (file : Bool) (content : Bytes) : LoggerWorld :=
  { self :=
      { file := file
        queue := []
        flushing := false
        async_result := none
        frozen := false
        write_all_string := [] }
    pending := none
    disk := content
    copies := []
    timeouts := []
    idle := []
    reports := []
    logged := [] }

/-- The logger of `file_logger_new_from_stream` on the stream of a file that
`g_file_create` has just created: `file` stays `NULL`. -/
def file_logger_new_from_stream : LoggerWorld :=
  new_logger false []

/-- The logger of `file_logger_new` on an existing file opened for appending:
`file` is set. -/
def file_logger_new (content : Bytes) : LoggerWorld :=
  new_logger true content

/-! ## round-manager.c -/

def resumed_entry (now : Nat) : Bytes :=
  (toString now).data ++ "\tRESUMED".data

def log_resume (w : LoggerWorld) (now : Nat) : LoggerWorld :=
  file_logger_log w (resumed_entry now)

/-- The successful runs of `init_log_file`: `existing` is `none` when the round
file did not exist and is created, and the content of the file when it
existed. -/
def init_log_file (existing : Option Bytes) (now : Nat) : LoggerWorld :=
  match existing with
  | none => log_started file_logger_new_from_stream now
  | some content => log_resume (file_logger_new content) now

/-- The entry format shared by SHARE and BLOCK records. -/
def record_entry (now : Nat) (kind : String) (number : Nat) (user passw : Bytes) : Bytes :=
  (toString now).data ++ ['\t'] ++ kind.data ++ ['\t'] ++ (toString number).data ++
    "\t\"".data ++ user ++ "\"\t\"".data ++ passw ++ "\"".data

def on_work_validated (w : LoggerWorld) (result_code : Nat) (user passw : Bytes)
    (now : Nat) : LoggerWorld :=
  file_logger_log w (record_entry now "SHARE" result_code user passw)

/-- The name of the copy made for a block. -/
def rotated_name (log_file_name : Bytes) (block : Nat) : Bytes :=
  log_file_name ++ ['.'] ++ (toString block).data

def on_block_found (w : LoggerWorld) (log_file_name : Bytes) (block : Nat)
    (user passw : Bytes) (now : Nat) : LoggerWorld :=
  file_logger_copy_and_truncate
    (file_logger_log w (record_entry now "BLOCK" block user passw))
    (rotated_name log_file_name block) 1000 .on_copy_and_truncate

/-- What happens to a logger: calls of its functions (with callbacks that
leave it alone), the two handlers of the round manager, completions of the
stream, the expiry of the first armed timeout and the dispatch of the first
idle completion. -/
inductive LoggerEvent
  | log (entry : Bytes)
  | freeze
  | thaw
  | flush
  | copy_and_truncate (copy_file_name : Bytes) (timeout_before_truncate : Nat)
  | work_validated (result_code : Nat) (user passw : Bytes) (now : Nat)
  | block_found (log_file_name : Bytes) (block : Nat) (user passw : Bytes) (now : Nat)
  | written (size : Int)
  | flushed (flush_ok : Bool) (now : Nat)
  | timeout (copy_ok truncate_ok : Bool) (now : Nat)
  | idle (now : Nat)
  deriving DecidableEq, Repr

/-- One event. A write completes only while one is pending, with at most the
bytes of the string; the bytes it reports are then in the file. The callback
runs with no operation pending on the stream. -/
def logger_step (w : LoggerWorld) : LoggerEvent → Option LoggerWorld
  | .log entry => some (file_logger_log w entry)
  | .freeze => some (file_logger_freeze w)
  | .thaw => some (file_logger_thaw w)
  | .flush => some (file_logger_flush w .other)
  | .copy_and_truncate name t => some (file_logger_copy_and_truncate w name t .other)
  | .work_validated code user passw now => some (on_work_validated w code user passw now)
  | .block_found name block user passw now => some (on_block_found w name block user passw now)
  | .written size =>
    if w.pending = some .write ∧ size ≤ w.self.write_all_string.length then
      some (on_log_entry_written
        { w with
          pending := none
          disk := w.disk ++ w.self.write_all_string.take size.toNat } size)
    else none
  | .flushed flush_ok now =>
    if w.pending = some .flush then some (on_flush { w with pending := none } flush_ok now)
    else none
  | .timeout copy_ok truncate_ok now =>
    match w.timeouts with
    | [] => none
    | data :: rest =>
      some (copy_and_truncate_on_timeout { w with timeouts := rest } data copy_ok truncate_ok now)
  | .idle now =>
    match w.idle with
    | [] => none
    | .flush_error callback :: rest => some (complete_flush { w with idle := rest } callback false now)
    | .truncate_error callback :: rest =>
      some (complete_truncate { w with idle := rest } callback false now)

def logger_run : LoggerWorld → List LoggerEvent → Option LoggerWorld
  | w, [] => some w
  | w, ev :: evs =>
    match logger_step w ev with
    | none => none
    | some w1 => logger_run w1 evs

/-- The bytes of entries, each followed by a newline. -/
def lines (entries : List Bytes) : Bytes :=
  (entries.map (fun e => e ++ ['\n'])).flatten

/-- The event is not a timeout whose copy and truncation both succeed. -/
def NotTruncating : LoggerEvent → Prop
  | .timeout copy_ok truncate_ok _ => ¬ (copy_ok = true ∧ truncate_ok = true)
  | _ => True

/-- The bytes a logger holds of its log, in order: the file, then the string
being written, then the queue. -/
def held (w : LoggerWorld) : Bytes :=
  w.disk ++ w.self.write_all_string ++ w.self.queue.flatten

/-- From `w` to `w1` the bytes held stay, in order, and the entries logged in
between are added at the end, each with its newline. -/
def Logs (w w1 : LoggerWorld) : Prop :=
  ∃ entries, held w1 = held w ++ lines entries ∧ w1.logged = w.logged ++ entries

instance (ev : LoggerEvent) : Decidable (NotTruncating ev) := by
  cases ev <;> unfold NotTruncating <;> infer_instance

/-- The event is a call of the logger with a callback that leaves it alone, a
completion of the stream or the dispatch of an idle completion: no handler of
the round manager, no copy-and-truncate. -/
def LoggerOnly : LoggerEvent → Prop
  | .log _ => True
  | .freeze => True
  | .thaw => True
  | .flush => True
  | .written _ => True
  | .flushed _ _ => True
  | .idle _ => True
  | _ => False

instance (ev : LoggerEvent) : Decidable (LoggerOnly ev) := by
  cases ev <;> unfold LoggerOnly <;> infer_instance

/-- The entries of the calls of `file_logger_log` among the events, in call
order. -/
def log_calls : List LoggerEvent → List Bytes
  | [] => []
  | .log entry :: evs => entry :: log_calls evs
  | _ :: evs => log_calls evs

/-- No callback held by the logger or waiting in the main loop touches the
logger. -/
def Plain (w : LoggerWorld) : Prop :=
  (w.self.async_result = none ∨ w.self.async_result = some .other) ∧
  ∀ c ∈ w.idle, c = IdleCall.flush_error .other

/-- From `w` to `w1` the flush result held, the idle completions and the
entries logged stay. -/
def Keeps (w w1 : LoggerWorld) : Prop :=
  w1.self.async_result = w.self.async_result ∧ w1.idle = w.idle ∧ w1.logged = w.logged

/-- Three entries logged around a flush, with a write that completes in two
parts. -/
def logging_events : List LoggerEvent :=
  [.log "first".data, .written 6, .log "second".data, .written 3, .flush, .log "third".data]

def logging_world : LoggerWorld :=
  { self :=
      { file := true
        queue := ["third\n".data]
        flushing := true
        async_result := some .other
        frozen := false
        write_all_string := "ond\n".data }
    pending := some .write
    disk := "first\nsec".data
    copies := []
    timeouts := []
    idle := []
    reports := []
    logged := ["first".data, "second".data, "third".data] }

/-- Two entries are logged, a flush is requested while the write of the first
is pending, the write completes in full and the flush of the stream
completes. -/
def flush_events : List LoggerEvent :=
  [.log "A".data, .log "B".data, .flush, .written 2, .flushed true 0]

/-- One entry is logged, a flush is requested while its write is pending, the
write completes in part twice and the flush of the stream completes. -/
def short_write_events : List LoggerEvent :=
  [.log "ABCD".data, .flush, .written 1, .written 1, .flushed true 0]

/-- The first record is written, block 100 is found, its record is written
and the main loop runs the idle completions and whatever else is due. -/
def created_round_events : List LoggerEvent :=
  [.written 10, .block_found "round".data 100 "u".data "p".data 2, .written 20, .idle 3]

/-- The first record is written, block 100 is found, its record is written,
the flush completes, the timeout fires with a copy and a truncation that
succeed, and the new first record is written. -/
def resumed_round_events : List LoggerEvent :=
  [.written 10, .block_found "round".data 100 "u".data "p".data 2, .written 20,
    .flushed true 2, .timeout true true 3, .written 10]

/-- A share is recorded and block 100 is found before the write of the share
has completed; then the write and the flush complete, the timeout fires with a
copy and a truncation that succeed, and the write issued afterwards completes
in full. -/
def busy_round_events : List LoggerEvent :=
  [.written 10, .work_validated 0 "u".data "p".data 2,
    .block_found "round".data 100 "u".data "p".data 3, .written 18, .flushed true 3,
    .timeout true true 4, .written 30]

/-- The characters `a..b` of a string as the specification counts them: those
at the positions `a`, `a + 1`, ..., `b - 1`. -/
def hex_chars (data : Hex) (a b : Nat) : Hex :=
  (List.range (b - a)).filterMap (fun i => data[a + i]?)

/-- The entries a table holds under a key. -/
def entries_for (t : Table) (key : Hex) : Table :=
  t.filter (fun p => p.1 = key)

/-- No two entries of the table have the same key. -/
def UniqueKeys (t : Table) : Prop :=
  (t.map Prod.fst).Nodup

/-- The call neither announces a block nor stores a block hash: it can occur
between `work_validator_notify_new_block` and the completion of `getblockhash`
that stores the hash (a failed `getblockhash` is such a call). -/
def InGap : Event → Prop
  | .notify_new_block _ => False
  | .on_block_hash (some _) => False
  | _ => True

instance (ev : Event) : Decidable (InGap ev) := by
  cases ev with
  | on_block_hash result => cases result <;> (unfold InGap; infer_instance)
  | _ => unfold InGap; infer_instance

def next_merkle_root : Hex :=
  "0e3e2357e806b6cdb1f70b54c3a3a17b6714ee1f0e68bebb44a74b1efd512098".data

/-- A 256-character `data` string for a block that follows block 101, whose
hash is `next_block_hash`. -/
def next_data (bits nonce : Hex) : Hex :=
  "00000001".data ++ block_hash_groups next_block_hash 8 ++ next_merkle_root ++
    "4f000258".data ++ bits ++ nonce ++ List.replicate 96 '0'

/-- A submission of `user` for the template built on block 101. -/
def next_result (user : Option Hex) (bits nonce : String) : WorkResult :=
  { data := next_data bits.data nonce.data, user := user, stale := false }

/-- After the sample events block 101 is announced and, before its hash is
stored, two templates are handed to `alice`: one built on block 100 and one
built on block 101. -/
def gap_events : List Event :=
  sample_events ++
    [ .notify_new_block 101,
      .track_work_sent alice (sample_data "1d00ffff".data "00000000".data) false,
      .track_work_sent alice (next_data "1d00ffff".data "00000000".data) false ]

def gap_state : WorkValidator :=
  state_after zero_sha work_validator_new gap_events

/-- A flush is registered and nothing is under way that could complete it: no
operation is outstanding on the stream, the string to write is empty and no
timeout is armed; the file holds `content` and no flush has been reported as
successful. -/
def Stuck (content : Bytes) (w : LoggerWorld) : Prop :=
  w.self.async_result = some .other ∧ w.pending = none ∧ w.self.write_all_string = [] ∧
    w.timeouts = [] ∧ w.disk = content ∧ Report.flush_finished true ∉ w.reports

/-- The logger after a flush on a new logger, a logged entry, a thaw, a second
flush and the dispatch of its refusal. -/
def idle_flush_world : LoggerWorld :=
  { self :=
      { file := true
        queue := ["A\n".data]
        flushing := false
        async_result := some .other
        frozen := false
        write_all_string := [] }
    pending := none
    disk := []
    copies := []
    timeouts := []
    idle := []
    reports := [.flush_finished false]
    logged := ["A".data] }

/-- The monitor is started, stopped and started again while the first
`getblockcount` call is in flight. -/
def restart_events : List MonitorEvent :=
  [.start, .stop, .start]

/-- An entry is being written and a flush is registered when a
copy-and-truncate is requested; its refusal is dispatched, the write and the
flush complete, and another entry is logged. -/
def refused_truncate_events : List LoggerEvent :=
  [.log "A".data, .flush, .copy_and_truncate "copy".data 1000, .idle 1, .written 2,
    .flushed true 2, .log "B".data]

/-- A copy-and-truncate on a logger with one entry being written, whose copy
fails when the timeout fires; then another entry is logged. -/
def failed_copy_events : List LoggerEvent :=
  [.log "A".data, .copy_and_truncate "copy".data 1000, .written 2, .flushed true 1,
    .timeout false false 2, .log "B".data]

/-! ## Lemmas and theorems -/

set_option maxRecDepth 100000

theorem hash_value_snoc (l : List Nat) (x : Nat) :
    hash_value (l ++ [x]) = hash_value l + 256 ^ l.length * x := by
  induction l with
  | nil => simp [hash_value]
  | cons a t ih =>
    show a + 256 * hash_value (t ++ [x]) = a + 256 * hash_value t + 256 ^ (t.length + 1) * x
    rw [ih]
    ring

theorem hash_value_lt (l : List Nat) (h : ∀ x ∈ l, x < 256) :
    hash_value l < 256 ^ l.length := by
  induction l with
  | nil => simp [hash_value]
  | cons a t ih =>
    have ha : a < 256 := h a (List.mem_cons_self _ _)
    have ht := ih (fun x hx => h x (List.mem_cons_of_mem _ hx))
    simp only [hash_value, List.length_cons, pow_succ]
    omega

theorem take_succ_getD (l : List Nat) (n : Nat) (h : n < l.length) :
    l.take (n + 1) = l.take n ++ [l.getD n 0] := by
  rw [List.take_succ]
  simp [List.getD, List.getElem?_eq_getElem h]

theorem compare_loop_le (a b : List Nat) (ha : ∀ x ∈ a, x < 256) (hb : ∀ x ∈ b, x < 256)
    (n : Nat) (hna : n ≤ a.length) (hnb : n ≤ b.length) :
    compare_inverted_hashes_loop a b n ≤ 0 ↔
      hash_value (a.take n) ≤ hash_value (b.take n) := by
  induction n with
  | zero => simp [compare_inverted_hashes_loop, hash_value]
  | succ n ih =>
    have iha := ih (by omega) (by omega)
    have la : hash_value (a.take n) < 256 ^ n := by
      have := hash_value_lt (a.take n) (fun x hx => ha x (List.mem_of_mem_take hx))
      simpa [List.length_take, Nat.min_eq_left (by omega : n ≤ a.length)] using this
    have lb : hash_value (b.take n) < 256 ^ n := by
      have := hash_value_lt (b.take n) (fun x hx => hb x (List.mem_of_mem_take hx))
      simpa [List.length_take, Nat.min_eq_left (by omega : n ≤ b.length)] using this
    rw [take_succ_getD a n (by omega), take_succ_getD b n (by omega),
      hash_value_snoc, hash_value_snoc]
    simp only [List.length_take, Nat.min_eq_left (by omega : n ≤ a.length),
      Nat.min_eq_left (by omega : n ≤ b.length)]
    unfold compare_inverted_hashes_loop
    generalize a.getD n 0 = x
    generalize b.getD n 0 = y
    have hp : 0 < 256 ^ n := by positivity
    by_cases hxy : x < y
    · simp only [hxy, if_true]
      constructor
      · intro _
        have : 256 ^ n * (x + 1) ≤ 256 ^ n * y := Nat.mul_le_mul_left _ hxy
        rw [Nat.mul_add] at this
        omega
      · intro _; decide
    · by_cases hyx : x > y
      · simp only [hxy, hyx, if_true, if_false]
        constructor
        · intro h; exact absurd h (by decide)
        · intro h
          have : 256 ^ n * (y + 1) ≤ 256 ^ n * x := Nat.mul_le_mul_left _ hyx
          rw [Nat.mul_add] at this
          omega
      · have hxy' : x = y := by omega
        subst hxy'
        simp only [hxy, if_false, iha]
        omega

theorem hex_to_bin_loop_length (hex : Hex) (n i : Nat) (bin : List Nat) :
    (hex_to_bin_loop hex n i bin).2.length = bin.length := by
  induction n generalizing i bin with
  | zero => simp [hex_to_bin_loop]
  | succ n ih =>
    unfold hex_to_bin_loop
    simp only
    split
    · simp
    · rw [ih]; simp

theorem hex_to_bin_loop_bytes (hex : Hex) (n i : Nat) (bin : List Nat)
    (h : ∀ x ∈ bin, x < 256) : ∀ x ∈ (hex_to_bin_loop hex n i bin).2, x < 256 := by
  induction n generalizing i bin with
  | zero => simpa [hex_to_bin_loop] using h
  | succ n ih =>
    have hset : ∀ v, ∀ x ∈ bin.set i (v % 256), x < 256 := by
      intro v x hx
      rcases List.mem_or_eq_of_mem_set hx with hx | hx
      · exact h x hx
      · subst hx; exact Nat.mod_lt _ (by decide)
    unfold hex_to_bin_loop
    simp only
    split
    · exact hset _
    · exact ih _ _ (hset _)

theorem lookup_insert (t : Table) (k : Hex) (v : TrackedWork) (k' : Hex) :
    g_hash_table_lookup (g_hash_table_insert t k v) k' =
      if k = k' then some v else g_hash_table_lookup t k' := by
  induction t with
  | nil => simp [g_hash_table_insert, g_hash_table_lookup]
  | cons p t ih =>
    obtain ⟨k0, v0⟩ := p
    by_cases h0 : k0 = k
    · subst h0
      by_cases h1 : k0 = k' <;> simp [g_hash_table_insert, g_hash_table_lookup, h1]
    · by_cases h1 : k0 = k'
      · subst h1
        have : ¬ k = k0 := fun h => h0 h.symm
        simp [g_hash_table_insert, g_hash_table_lookup, h0, this]
      · simp [g_hash_table_insert, g_hash_table_lookup, h0, h1, ih]

theorem lookup_write (t : Table) (k : Hex) (v : TrackedWork) (k' : Hex) :
    g_hash_table_lookup (table_write t k v) k' =
      if k = k' then (g_hash_table_lookup t k).map (fun _ => v)
      else g_hash_table_lookup t k' := by
  induction t with
  | nil => simp [table_write, g_hash_table_lookup]
  | cons p t ih =>
    obtain ⟨k0, v0⟩ := p
    by_cases h0 : k0 = k
    · subst h0
      by_cases h1 : k0 = k' <;> simp [table_write, g_hash_table_lookup, h1]
    · by_cases h1 : k0 = k'
      · subst h1
        have : ¬ k = k0 := fun h => h0 h.symm
        simp [table_write, g_hash_table_lookup, h0, this]
      · simp [table_write, g_hash_table_lookup, h0, h1, ih]

theorem lookup_ref_store (s : WorkValidator) (ref : TableRef) (k : Hex) (v : TrackedWork)
    (ref' : TableRef) (k' : Hex) :
    lookup_ref (store_tracked_work s ref k v) ref' k' =
      if ref = ref' ∧ k = k' then (lookup_ref s ref k).map (fun _ => v)
      else lookup_ref s ref' k' := by
  cases ref <;> cases ref'
  · simp [lookup_ref, store_tracked_work, lookup_write]
  · simp [lookup_ref, store_tracked_work, lookup_previous]
  · simp [lookup_ref, store_tracked_work, lookup_previous]
  · cases hp : s.work_by_merkle_root_prev with
    | none => simp [lookup_ref, store_tracked_work, lookup_previous, hp]
    | some t => simp [lookup_ref, store_tracked_work, lookup_previous, hp, lookup_write]

theorem evolves_refl (a : TrackedWork) : Evolves a a :=
  ⟨rfl, rfl, rfl, fun _ h => h⟩

theorem optEvolves_refl (a : Option TrackedWork) : OptEvolves a a := by
  cases a with
  | none => trivial
  | some a => exact evolves_refl a

theorem optEvolves_trans {a b c : Option TrackedWork} (h1 : OptEvolves a b)
    (h2 : OptEvolves b c) : OptEvolves a c := by
  cases a <;> cases b <;> cases c <;> simp only [OptEvolves] at h1 h2 ⊢
  obtain ⟨u1, v1, t1, n1⟩ := h1
  obtain ⟨u2, v2, t2, n2⟩ := h2
  exact ⟨u2.trans u1, v2.trans v1, t2.trans t1, fun n hn => n2 n (n1 n hn)⟩

theorem evolved_refl (s : WorkValidator) : Evolved s s :=
  ⟨rfl, rfl, rfl, rfl, fun _ _ => optEvolves_refl _⟩

theorem evolved_trans {a b c : WorkValidator} (h1 : Evolved a b) (h2 : Evolved b c) :
    Evolved a c :=
  ⟨h2.1.trans h1.1, h2.2.1.trans h1.2.1, h2.2.2.1.trans h1.2.2.1,
    h2.2.2.2.1.trans h1.2.2.2.1, fun r k => optEvolves_trans (h1.2.2.2.2 r k) (h2.2.2.2.2 r k)⟩

theorem evolved_store (s : WorkValidator) (ref : TableRef) (k : Hex) (a v : TrackedWork)
    (hl : lookup_ref s ref k = some a) (hv : Evolves a v) :
    Evolved s (store_tracked_work s ref k v) := by
  refine ⟨?_, ?_, ?_, ?_, ?_⟩
  · cases ref <;> rfl
  · cases ref <;> rfl
  · cases ref <;> rfl
  · cases ref <;> rfl
  · intro ref' k'
    rw [lookup_ref_store]
    by_cases h : ref = ref' ∧ k = k'
    · obtain ⟨rfl, rfl⟩ := h
      simp only [true_and, if_true, hl, Option.map_some']
      exact hv
    · simp only [h, if_false]
      exact optEvolves_refl _

/-- The three results of `get_tracked_work_by_data`. -/
theorem get_tracked_cases (s : WorkValidator) (data : Hex) :
    (g_hash_table_lookup s.work_by_merkle_root (work_data_get_merkle_root_hex data) = none ∧
      lookup_previous s (work_data_get_merkle_root_hex data) = none ∧
      get_tracked_work_by_data s data = (s, none)) ∨
    (∃ tw, g_hash_table_lookup s.work_by_merkle_root (work_data_get_merkle_root_hex data) = some tw ∧
      get_tracked_work_by_data s data = (s, some (.current, tw))) ∨
    (∃ tw, g_hash_table_lookup s.work_by_merkle_root (work_data_get_merkle_root_hex data) = none ∧
      lookup_previous s (work_data_get_merkle_root_hex data) = some tw ∧
      get_tracked_work_by_data s data =
        (store_tracked_work s .previous (work_data_get_merkle_root_hex data)
          { tw with possible_stale := true },
         some (.previous, { tw with possible_stale := true }))) := by
  cases hc : g_hash_table_lookup s.work_by_merkle_root (work_data_get_merkle_root_hex data) with
  | some tw =>
    right; left
    exact ⟨tw, rfl, by simp only [get_tracked_work_by_data, hc]⟩
  | none =>
    cases hp : s.work_by_merkle_root_prev with
    | none =>
      left
      exact ⟨rfl, by simp only [lookup_previous, hp],
        by simp only [get_tracked_work_by_data, hc, hp]⟩
    | some t =>
      cases hl : g_hash_table_lookup t (work_data_get_merkle_root_hex data) with
      | none =>
        left
        exact ⟨rfl, by simp only [lookup_previous, hp, hl],
          by simp only [get_tracked_work_by_data, hc, hp, hl]⟩
      | some tw =>
        right; right
        exact ⟨tw, rfl, by simp only [lookup_previous, hp, hl],
          by simp only [get_tracked_work_by_data, hc, hp, hl]⟩

theorem validate_bad_length (H : Sha256) (s : WorkValidator) (wr : WorkResult)
    (hlen : wr.data.length ≠ 256) :
    work_validator_validate H s wr =
      .ok (s, some ⟨.INVALID, "Work data is invalid, incorrect length"⟩) := by
  simp only [work_validator_validate, prevalidate_work_result, hlen, ne_eq, not_false_eq_true,
    if_true]

theorem validate_unknown (H : Sha256) (s s0 : WorkValidator) (wr : WorkResult)
    (hlen : wr.data.length = 256) (hg : get_tracked_work_by_data s wr.data = (s0, none)) :
    work_validator_validate H s wr =
      .ok (s0, some ⟨.INVALID, "Work result for an unknown work item"⟩) := by
  simp only [work_validator_validate, prevalidate_work_result, hlen, hg, ne_eq,
    not_true_eq_false, if_false]

/-- The course of a validation once the tracked work is found. -/
theorem validate_found (H : Sha256) (s s0 : WorkValidator) (wr : WorkResult)
    (ref : TableRef) (tw : TrackedWork)
    (hlen : wr.data.length = 256)
    (hg : get_tracked_work_by_data s wr.data = (s0, some (ref, tw))) :
    work_validator_validate H s wr =
      if tw.version ≠ wr.data.take 8 then
        .ok (s0, some ⟨.INVALID, "Version mismatch"⟩)
      else if tw.timestamp ≠ (wr.data.drop 136).take 8 then
        .ok (s0, some ⟨.INVALID, "Timestamp mismatch"⟩)
      else if work_data_get_nonce wr.data ∈ tw.nonces then
        .ok (s0, some ⟨.DUPLICATED, "Duplicate work result"⟩)
      else if tw.nonce_count < TRACK_NONCE_MAX then
        if tw.user ≠ wr.user then
          .ok (store_tracked_work s0 ref (work_data_get_merkle_root_hex wr.data)
            { tw with nonces := tw.nonces ++ [work_data_get_nonce wr.data] },
            some ⟨.INVALID, "User mismatch"⟩)
        else
          match check_previous_block_hash_matches wr.data (reference_block_hash s0 tw) with
          | some e =>
            .ok (store_tracked_work s0 ref (work_data_get_merkle_root_hex wr.data)
              { tw with nonces := tw.nonces ++ [work_data_get_nonce wr.data] }, some e)
          | none =>
            .ok (store_tracked_work s0 ref (work_data_get_merkle_root_hex wr.data)
              { tw with nonces := tw.nonces ++ [work_data_get_nonce wr.data] },
              validate_work_result_in_thread H
                (store_tracked_work s0 ref (work_data_get_merkle_root_hex wr.data)
                  { tw with nonces := tw.nonces ++ [work_data_get_nonce wr.data] })
                (marked wr tw))
      else .error (.nonces_out_of_bounds tw.nonce_count) := by
  have hbh : ∀ v, (store_tracked_work s0 ref (work_data_get_merkle_root_hex wr.data) v).block_hash
      = s0.block_hash := by intro v; cases ref <;> rfl
  have hbp : ∀ v,
      (store_tracked_work s0 ref (work_data_get_merkle_root_hex wr.data) v).block_hash_prev
      = s0.block_hash_prev := by intro v; cases ref <;> rfl
  simp only [work_validator_validate, prevalidate_work_result, hlen, hg, ne_eq,
    not_true_eq_false, if_false, check_merkle_root_and_nonce_is_unique, marked, hbh, hbp,
    reference_block_hash]
  by_cases hv : tw.version = wr.data.take 8
  · by_cases ht : tw.timestamp = (wr.data.drop 136).take 8
    · by_cases hn : work_data_get_nonce wr.data ∈ tw.nonces
      · simp [hv, ht, hn]
      · by_cases hc : tw.nonce_count < TRACK_NONCE_MAX
        · by_cases hu : tw.user = wr.user
          · by_cases hs : tw.possible_stale = true
            · simp only [hv, ht, hn, hc, hu, hs, not_true_eq_false, if_false, if_true]
              cases hcp : check_previous_block_hash_matches wr.data s0.block_hash_prev <;>
                simp [hu, hcp]
            · simp only [hv, ht, hn, hc, hu, hs, not_true_eq_false, if_false, if_true]
              cases hcp : check_previous_block_hash_matches wr.data s0.block_hash <;>
                simp [hu, hcp]
          · by_cases hs : tw.possible_stale = true <;> simp [hv, ht, hn, hc, hu, hs]
        · simp [hv, ht, hn, hc]
    · simp [hv, ht]
  · simp [hv]

theorem get_tracked_evolved (s s0 : WorkValidator) (data : Hex)
    (r : Option (TableRef × TrackedWork)) (hg : get_tracked_work_by_data s data = (s0, r)) :
    Evolved s s0 ∧ ∀ ref tw, r = some (ref, tw) →
      lookup_ref s0 ref (work_data_get_merkle_root_hex data) = some tw := by
  rcases get_tracked_cases s data with ⟨_, _, h⟩ | ⟨tw, hc, h⟩ | ⟨tw, hc, hp, h⟩
  · rw [h] at hg
    cases hg
    exact ⟨evolved_refl s, fun _ _ h => by cases h⟩
  · rw [h] at hg
    cases hg
    refine ⟨evolved_refl s, fun ref tw' h => ?_⟩
    cases h
    exact hc
  · rw [h] at hg
    cases hg
    refine ⟨evolved_store s .previous _ tw _ hp ⟨rfl, rfl, rfl, fun _ h => h⟩,
      fun ref tw' h => ?_⟩
    cases h
    rw [lookup_ref_store]
    simp only [and_self, if_true]
    show Option.map _ (lookup_previous s _) = _
    rw [hp]
    rfl

theorem check_previous_code (data : Hex) (bh : Option Hex) (e : GError)
    (h : check_previous_block_hash_matches data bh = some e) : e.code = .INVALID := by
  unfold check_previous_block_hash_matches at h
  simp only at h
  split at h
  · cases h; rfl
  · cases h

theorem in_thread_none (H : Sha256) (s : WorkValidator) (wr : WorkResult)
    (h : outcome (validate_work_result_in_thread H s wr) = .SUCCESS) :
    wr.stale = false ∧ ∃ b, hex_to_bin (header_hex wr.data) 160 (List.replicate 80 0) = (true, b) ∧
      compare_inverted_hashes (H.digest (H.digest b)) s.target ≤ 0 := by
  unfold validate_work_result_in_thread at h
  split at h
  · cases h
  · rename_i b hb
    simp only at h
    split at h
    · cases h
    · split at h
      · cases h
      · rename_i hc hs
        refine ⟨by simpa using hs, b, hb, ?_⟩
        omega

/-- What an accepted submission has passed. -/
theorem validate_success (H : Sha256) (s s1 : WorkValidator) (wr : WorkResult)
    (e : Option GError) (hv : work_validator_validate H s wr = .ok (s1, e))
    (ho : outcome e = .SUCCESS) :
    wr.data.length = 256 ∧ ∃ s0 ref tw,
      get_tracked_work_by_data s wr.data = (s0, some (ref, tw)) ∧
      tw.version = wr.data.take 8 ∧ tw.timestamp = (wr.data.drop 136).take 8 ∧
      work_data_get_nonce wr.data ∉ tw.nonces ∧ tw.user = wr.user ∧
      tw.possible_stale = false ∧ wr.stale = false ∧
      check_previous_block_hash_matches wr.data s0.block_hash = none ∧
      ∃ b, hex_to_bin (header_hex wr.data) 160 (List.replicate 80 0) = (true, b) ∧
        compare_inverted_hashes (H.digest (H.digest b)) s.target ≤ 0 := by
  by_cases hlen : wr.data.length = 256
  swap
  · rw [validate_bad_length H s wr hlen] at hv
    cases hv; cases ho
  refine ⟨hlen, ?_⟩
  cases hg : get_tracked_work_by_data s wr.data with
  | mk s0 r =>
    cases r with
    | none =>
      rw [validate_unknown H s s0 wr hlen hg] at hv
      cases hv; cases ho
    | some p =>
      obtain ⟨ref, tw⟩ := p
      have hev := (get_tracked_evolved s s0 wr.data _ hg).1
      rw [validate_found H s s0 wr ref tw hlen hg] at hv
      split_ifs at hv with h1 h2 h3 h4 h5
      · cases hv; cases ho
      · cases hv; cases ho
      · cases hv; cases ho
      · cases hv; cases ho
      · generalize hcp : check_previous_block_hash_matches wr.data
            (reference_block_hash s0 tw) = r at hv
        cases r with
        | some e0 =>
          cases hv
          have := check_previous_code _ _ _ hcp
          simp only [outcome, this] at ho
          cases ho
        | none =>
          simp only at hv
          cases hv
          obtain ⟨hst, b, hb, hcmp⟩ := in_thread_none H _ _ ho
          have hps : tw.possible_stale = false := by
            cases hps : tw.possible_stale with
            | false => rfl
            | true => simp [marked, hps] at hst
          have hws : wr.stale = false := by simpa [marked, hps] using hst
          have hwd : (marked wr tw).data = wr.data := by simp [marked, hps]
          simp only [reference_block_hash, hps] at hcp
          rw [hwd] at hb
          have htg : (store_tracked_work s0 ref (work_data_get_merkle_root_hex wr.data)
              { tw with nonces := tw.nonces ++ [work_data_get_nonce wr.data] }).target
              = s.target := by
            rw [← hev.1]; cases ref <;> rfl
          rw [htg] at hcmp
          exact ⟨s0, ref, tw, rfl, by simpa using h1, by simpa using h2, h3, by simpa using h5,
            hps, hws, by simpa using hcp, b, hb, hcmp⟩

theorem validate_evolved (H : Sha256) (s s1 : WorkValidator) (wr : WorkResult)
    (e : Option GError) (hv : work_validator_validate H s wr = .ok (s1, e)) :
    Evolved s s1 := by
  by_cases hlen : wr.data.length = 256
  swap
  · rw [validate_bad_length H s wr hlen] at hv
    cases hv; exact evolved_refl s
  cases hg : get_tracked_work_by_data s wr.data with
  | mk s0 r =>
    obtain ⟨hev, hl⟩ := get_tracked_evolved s s0 wr.data r hg
    cases r with
    | none =>
      rw [validate_unknown H s s0 wr hlen hg] at hv
      cases hv; exact hev
    | some p =>
      obtain ⟨ref, tw⟩ := p
      have hst := evolved_store s0 ref (work_data_get_merkle_root_hex wr.data) tw
        { tw with nonces := tw.nonces ++ [work_data_get_nonce wr.data] } (hl ref tw rfl)
        ⟨rfl, rfl, rfl, fun n hn => List.mem_append_left _ hn⟩
      rw [validate_found H s s0 wr ref tw hlen hg] at hv
      split_ifs at hv
      · cases hv; exact hev
      · cases hv; exact hev
      · cases hv; exact hev
      · cases hv; exact evolved_trans hev hst
      · generalize check_previous_block_hash_matches wr.data
            (reference_block_hash s0 tw) = r at hv
        cases r with
        | some e0 => cases hv; exact evolved_trans hev hst
        | none => simp only at hv; cases hv; exact evolved_trans hev hst

theorem run_induction (H : Sha256) (P : WorkValidator → Prop) (Q : Event → Prop)
    (hstep : ∀ s ev s1, P s → Q ev → step H s ev = .ok s1 → P s1) :
    ∀ evs s s1, P s → (∀ ev ∈ evs, Q ev) → run H s evs = .ok s1 → P s1 := by
  intro evs
  induction evs with
  | nil =>
    intro s s1 hp _ hr
    simp only [run] at hr
    cases hr; exact hp
  | cons ev evs ih =>
    intro s s1 hp hq hr
    simp only [run] at hr
    cases hs : step H s ev with
    | error f => rw [hs] at hr; cases hr
    | ok sm =>
      rw [hs] at hr
      exact ih sm s1 (hstep s ev sm hp (hq ev (List.mem_cons_self _ _)) hs)
        (fun ev' h => hq ev' (List.mem_cons_of_mem _ h)) hr

/-- The state a new-block notification returns when it returns one. -/
theorem notify_new_block_ok (s s1 : WorkValidator) (n : Nat)
    (h : work_validator_notify_new_block s n = .ok s1) :
    s1 =
      { s with
        block_num := n
        block_hash_prev := s.block_hash
        block_hash_shared := true
        work_by_merkle_root_prev := some s.work_by_merkle_root
        work_by_merkle_root := [] } := by
  unfold work_validator_notify_new_block at h
  split at h
  · cases h
  · cases h; rfl

/-- How each call changes what the lookups find. -/
theorem step_lookup (H : Sha256) (s s1 : WorkValidator) (ev : Event)
    (hs : step H s ev = .ok s1) :
    (∃ user data ps, ev = .track_work_sent user data ps ∧ data.length = 256 ∧
      s1.target = s.target ∧
      (∀ k, lookup_ref s1 .previous k = lookup_ref s .previous k) ∧
      ∀ k, lookup_ref s1 .current k =
        if work_data_get_merkle_root_hex data = k then
          some ⟨user, data.take 8, (data.drop 136).take 8, [], ps⟩
        else lookup_ref s .current k) ∨
    (∃ n, ev = .notify_new_block n ∧ s1.target = s.target ∧
      (∀ k, lookup_ref s1 .current k = none) ∧
      ∀ k, lookup_ref s1 .previous k = lookup_ref s .current k) ∨
    ((∀ user data ps, ev ≠ .track_work_sent user data ps) ∧ (∀ n, ev ≠ .notify_new_block n) ∧
      (TargetOk s → TargetOk s1) ∧
      ∀ ref k, OptEvolves (lookup_ref s ref k) (lookup_ref s1 ref k)) := by
  cases ev with
  | set_target target =>
    right; right
    simp only [step] at hs
    cases hs
    refine ⟨(fun _ _ _ h => nomatch h), (fun _ h => nomatch h), ?_, fun _ _ => optEvolves_refl _⟩
    intro ht
    exact ⟨by simp only [work_validator_set_target, hex_to_bin, hex_to_bin_loop_length, ht.1],
      hex_to_bin_loop_bytes _ _ _ _ ht.2⟩
  | track_work_sent user data ps =>
    left
    simp only [step, work_validator_track_work_sent] at hs
    split at hs
    · cases hs
    · rename_i hlen
      cases hs
      refine ⟨user, data, ps, rfl, by simpa using hlen, rfl, fun k => rfl, fun k => ?_⟩
      simp only [lookup_ref, lookup_insert]
  | validate wr =>
    right; right
    simp only [step] at hs
    cases hv : work_validator_validate H s wr with
    | error f => rw [hv] at hs; cases hs
    | ok p =>
      obtain ⟨s', e⟩ := p
      rw [hv] at hs
      cases hs
      have hev := validate_evolved H s s1 wr e hv
      refine ⟨(fun _ _ _ h => nomatch h), (fun _ h => nomatch h), ?_, hev.2.2.2.2⟩
      intro ht
      exact ⟨by rw [hev.1]; exact ht.1, by rw [hev.1]; exact ht.2⟩
  | notify_new_block n =>
    right; left
    simp only [step, work_validator_notify_new_block] at hs
    split at hs
    · cases hs
    · cases hs
      exact ⟨n, rfl, rfl, fun k => rfl, fun k => rfl⟩
  | on_block_hash result =>
    right; right
    simp only [step, on_block_hash] at hs
    refine ⟨(fun _ _ _ h => nomatch h), (fun _ h => nomatch h), ?_⟩
    cases result with
    | none => cases hs; exact ⟨id, fun _ _ => optEvolves_refl _⟩
    | some bh =>
      simp only at hs
      split at hs
      · cases hs
      · cases hs; exact ⟨id, fun _ _ => optEvolves_refl _⟩

theorem run_targetOk (H : Sha256) (evs : List Event) (s s1 : WorkValidator)
    (ht : TargetOk s) (hr : run H s evs = .ok s1) : TargetOk s1 := by
  refine run_induction H TargetOk (fun _ => True) ?_ evs s s1 ht (fun _ _ => trivial) hr
  intro s ev s1 hp _ hs
  rcases step_lookup H s s1 ev hs with ⟨_, _, _, _, _, ht, _⟩ | ⟨_, _, ht, _⟩ | ⟨_, _, ht, _⟩
  · exact ⟨by rw [ht]; exact hp.1, by rw [ht]; exact hp.2⟩
  · exact ⟨by rw [ht]; exact hp.1, by rw [ht]; exact hp.2⟩
  · exact ht hp

theorem targetOk_new : TargetOk work_validator_new :=
  ⟨by simp [work_validator_new], by simp [work_validator_new]⟩

/-- C1. In a validator reached from `work_validator_new`, when a submission's
outcome is SUCCESS, the header (first 160 characters, each 4-byte word
byte-swapped) decodes to 80 bytes `b`, and `SHA256 (SHA256 b)`, read as an
integer with byte 31 most significant, is at most the target read the same
way. -/
theorem success_hash_le_target (H : Sha256) (evs : List Event) (s s1 : WorkValidator)
    (wr : WorkResult) (e : Option GError)
    (hr : run H work_validator_new evs = .ok s)
    (hv : work_validator_validate H s wr = .ok (s1, e))
    (ho : outcome e = .SUCCESS) :
    ∃ b, hex_to_bin (header_hex wr.data) 160 (List.replicate 80 0) = (true, b) ∧
      b.length = 80 ∧
      hash_value (H.digest (H.digest b)) ≤ hash_value s.target := by
  obtain ⟨_, _, _, _, _, _, _, _, _, _, _, _, b, hb, hcmp⟩ := validate_success H s s1 wr e hv ho
  have ht := run_targetOk H evs _ s targetOk_new hr
  refine ⟨b, hb, ?_, ?_⟩
  · have := hex_to_bin_loop_length (header_hex wr.data) (160 / 2) 0 (List.replicate 80 0)
    unfold hex_to_bin at hb
    rw [hb] at this
    simpa using this
  · have h := (compare_loop_le (H.digest (H.digest b)) s.target (H.digest_byte _) ht.2 32
      (by rw [H.digest_length]) (by rw [ht.1])).mp hcmp
    rwa [List.take_of_length_le (by rw [H.digest_length]),
      List.take_of_length_le (by rw [ht.1])] at h

/-- The sample submission is accepted, and its double hash is at most the target. -/
theorem success_hash_le_target_witness :
    run zero_sha work_validator_new sample_events = .ok sample_state ∧
    work_validator_validate zero_sha sample_state (sample_result alice "1d00ffff" "deadbeef") =
      .ok (state_after zero_sha sample_state
        [.validate (sample_result alice "1d00ffff" "deadbeef")], none) ∧
    ∃ b, hex_to_bin (header_hex (sample_result alice "1d00ffff" "deadbeef").data) 160
        (List.replicate 80 0) = (true, b) ∧
      b.length = 80 ∧
      hash_value (zero_sha.digest (zero_sha.digest b)) ≤ hash_value sample_state.target :=
  ⟨rfl, rfl, success_hash_le_target zero_sha sample_events sample_state _
    (sample_result alice "1d00ffff" "deadbeef") none rfl rfl rfl⟩

theorem registered_mono (evs more : List Event) (key v t : Hex) (u : Option Hex)
    (h : Registered evs key v t u) : Registered (evs ++ more) key v t u := by
  obtain ⟨data, ps, hm, h1, h2, h3⟩ := h
  exact ⟨data, ps, List.mem_append_left _ hm, h1, h2, h3⟩

theorem optEvolves_some_right {a : Option TrackedWork} {b : TrackedWork}
    (h : OptEvolves a (some b)) : ∃ a0, a = some a0 ∧ Evolves a0 b := by
  cases a with
  | none => exact absurd h (by simp [OptEvolves])
  | some a0 => exact ⟨a0, rfl, h⟩

theorem optEvolves_none_left {b : Option TrackedWork} (h : OptEvolves none b) : b = none := by
  cases b with
  | none => rfl
  | some b0 => exact absurd h (by simp [OptEvolves])

theorem step_history (H : Sha256) (evs : List Event) (s s1 : WorkValidator) (ev : Event)
    (hi : HistoryInv evs s) (hs : step H s ev = .ok s1) : HistoryInv (evs ++ [ev]) s1 := by
  intro ref key tw hl
  rcases step_lookup H s s1 ev hs with
    ⟨user, data, ps, rfl, _, _, hprev, hcur⟩ | ⟨n, rfl, _, hcur, hprev⟩ | ⟨_, _, _, hevo⟩
  · cases ref with
    | current =>
      rw [hcur] at hl
      split at hl
      · rename_i hk
        cases hl
        exact ⟨data, ps, by simp, hk, rfl, rfl⟩
      · exact registered_mono _ _ _ _ _ _ (hi _ _ _ hl)
    | previous =>
      rw [hprev] at hl
      exact registered_mono _ _ _ _ _ _ (hi _ _ _ hl)
  · cases ref with
    | current => rw [hcur] at hl; cases hl
    | previous =>
      rw [hprev] at hl
      exact registered_mono _ _ _ _ _ _ (hi _ _ _ hl)
  · have h := hevo ref key
    rw [hl] at h
    obtain ⟨a0, ha, hu, hv, ht, _⟩ := optEvolves_some_right h
    rw [hu, hv, ht]
    exact registered_mono _ _ _ _ _ _ (hi _ _ _ ha)

theorem run_history (H : Sha256) (evs pre : List Event) (s s1 : WorkValidator)
    (hi : HistoryInv pre s) (hr : run H s evs = .ok s1) : HistoryInv (pre ++ evs) s1 := by
  induction evs generalizing pre s with
  | nil =>
    simp only [run] at hr
    cases hr
    simpa using hi
  | cons ev evs ih =>
    simp only [run] at hr
    cases hs : step H s ev with
    | error f => rw [hs] at hr; cases hr
    | ok sm =>
      rw [hs] at hr
      have := ih (pre ++ [ev]) sm (step_history H pre s sm ev hi hs) hr
      simpa using this

/-- C2. In every validator state reached by the calls `evs`, a submission
whose outcome is SUCCESS was preceded by a `track_work_sent` call in `evs`
whose template has the same merkle root, version characters, timestamp
characters and user. -/
theorem accepted_share_was_tracked (H : Sha256) (evs : List Event) (s s1 : WorkValidator)
    (wr : WorkResult) (e : Option GError)
    (hr : run H work_validator_new evs = .ok s)
    (hv : work_validator_validate H s wr = .ok (s1, e))
    (ho : outcome e = .SUCCESS) :
    ∃ data ps, Event.track_work_sent wr.user data ps ∈ evs ∧
      work_data_get_merkle_root_hex data = work_data_get_merkle_root_hex wr.data ∧
      data.take 8 = wr.data.take 8 ∧
      (data.drop 136).take 8 = (wr.data.drop 136).take 8 := by
  obtain ⟨_, s0, ref, tw, hg, hver, hts, _, hu, _⟩ := validate_success H s s1 wr e hv ho
  obtain ⟨hev, hl⟩ := get_tracked_evolved s s0 wr.data _ hg
  have h := hev.2.2.2.2 ref (work_data_get_merkle_root_hex wr.data)
  rw [hl ref tw rfl] at h
  obtain ⟨a0, ha, hu0, hv0, ht0, _⟩ := optEvolves_some_right h
  have hinv : HistoryInv ([] ++ evs) s :=
    run_history H evs [] work_validator_new s (fun ref key tw h => by
      cases ref <;> simp [lookup_ref, lookup_previous, work_validator_new,
        g_hash_table_lookup] at h) hr
  have hreg := hinv ref _ a0 ha
  rw [← hu0, ← hv0, ← ht0, hu, hver, hts] at hreg
  simpa [Registered] using hreg

/-- The accepted sample submission goes back to the registration in `sample_events`. -/
theorem accepted_share_was_tracked_witness :
    run zero_sha work_validator_new sample_events = .ok sample_state ∧
    work_validator_validate zero_sha sample_state (sample_result alice "1d00ffff" "deadbeef") =
      .ok (state_after zero_sha sample_state
        [.validate (sample_result alice "1d00ffff" "deadbeef")], none) ∧
    ∃ data ps, Event.track_work_sent (sample_result alice "1d00ffff" "deadbeef").user data ps
        ∈ sample_events ∧
      work_data_get_merkle_root_hex data =
        work_data_get_merkle_root_hex (sample_result alice "1d00ffff" "deadbeef").data ∧
      data.take 8 = (sample_result alice "1d00ffff" "deadbeef").data.take 8 ∧
      (data.drop 136).take 8 =
        ((sample_result alice "1d00ffff" "deadbeef").data.drop 136).take 8 :=
  ⟨rfl, rfl, accepted_share_was_tracked zero_sha sample_events sample_state _
    (sample_result alice "1d00ffff" "deadbeef") none rfl rfl rfl⟩

theorem find_tracked_eq (s : WorkValidator) (key : Hex) :
    find_tracked s key =
      match lookup_ref s .current key with
      | some tw => some tw
      | none => lookup_ref s .previous key := rfl

/-- A property of the entry found under `key` that table writes keep. -/
theorem find_tracked_step (H : Sha256) (key : Hex) (R : TrackedWork → Prop)
    (hR : ∀ a b, Evolves a b → R a → R b) (s s1 : WorkValidator) (ev : Event)
    (hp : ∀ tw, find_tracked s key = some tw → R tw)
    (hq : NotTrackOf key ev) (hs : step H s ev = .ok s1) :
    ∀ tw, find_tracked s1 key = some tw → R tw := by
  intro tw hf
  rw [find_tracked_eq] at hf
  rcases step_lookup H s s1 ev hs with
    ⟨user, data, ps, rfl, _, _, hprev, hcur⟩ | ⟨n, rfl, _, hcur, hprev⟩ | ⟨_, _, _, hevo⟩
  · have hk := hq user data ps rfl
    rw [hcur, hprev, if_neg hk] at hf
    exact hp tw (by rw [find_tracked_eq]; exact hf)
  · rw [hcur, hprev] at hf
    simp only at hf
    exact hp tw (by rw [find_tracked_eq, hf])
  · have hc := hevo .current key
    have hpv := hevo .previous key
    cases hc1 : lookup_ref s1 .current key with
    | some b =>
      rw [hc1] at hf hc
      simp only at hf
      cases hf
      obtain ⟨a0, ha, hab⟩ := optEvolves_some_right hc
      exact hR a0 _ hab (hp a0 (by rw [find_tracked_eq, ha]))
    | none =>
      rw [hc1] at hf hc
      simp only at hf
      rw [hf] at hpv
      obtain ⟨a0, ha, hab⟩ := optEvolves_some_right hpv
      have hcn : lookup_ref s .current key = none := by
        cases hx : lookup_ref s .current key with
        | none => rfl
        | some x => rw [hx] at hc; exact absurd hc (by simp [OptEvolves])
      exact hR a0 _ hab (hp a0 (by rw [find_tracked_eq, hcn]; exact ha))

theorem store_frame (s : WorkValidator) (ref : TableRef) (k : Hex) (v : TrackedWork) :
    (store_tracked_work s ref k v).target = s.target ∧
    (store_tracked_work s ref k v).block_hash = s.block_hash ∧
    (store_tracked_work s ref k v).block_hash_prev = s.block_hash_prev := by
  cases ref <;> exact ⟨rfl, rfl, rfl⟩

/-- A submission that reaches the nonce check with room in the nonce array
leaves its nonce in the entry it was checked against. -/
theorem validate_ref_lookup (H : Sha256) (s s0 : WorkValidator) (wr : WorkResult)
    (ref : TableRef) (tw : TrackedWork)
    (hlen : wr.data.length = 256)
    (hg : get_tracked_work_by_data s wr.data = (s0, some (ref, tw)))
    (hver : tw.version = wr.data.take 8) (hts : tw.timestamp = (wr.data.drop 136).take 8)
    (hcount : tw.nonce_count < TRACK_NONCE_MAX) :
    ∃ s1 e v, work_validator_validate H s wr = .ok (s1, e) ∧
      lookup_ref s1 ref (work_data_get_merkle_root_hex wr.data) = some v ∧
      work_data_get_nonce wr.data ∈ v.nonces := by
  have hl := (get_tracked_evolved s s0 wr.data _ hg).2 ref tw rfl
  have hst : lookup_ref (store_tracked_work s0 ref (work_data_get_merkle_root_hex wr.data)
      { tw with nonces := tw.nonces ++ [work_data_get_nonce wr.data] }) ref
      (work_data_get_merkle_root_hex wr.data) =
      some { tw with nonces := tw.nonces ++ [work_data_get_nonce wr.data] } := by
    rw [lookup_ref_store, hl]; simp
  have h1 : ¬ tw.version ≠ wr.data.take 8 := not_not.mpr hver
  have h2 : ¬ tw.timestamp ≠ (wr.data.drop 136).take 8 := not_not.mpr hts
  rw [validate_found H s s0 wr ref tw hlen hg, if_neg h1, if_neg h2]
  by_cases hn : work_data_get_nonce wr.data ∈ tw.nonces
  · rw [if_pos hn]
    exact ⟨_, _, tw, rfl, hl, hn⟩
  · rw [if_neg hn, if_pos hcount]
    by_cases hu : tw.user ≠ wr.user
    · rw [if_pos hu]
      exact ⟨_, _, _, rfl, hst, by simp⟩
    · rw [if_neg hu]
      generalize check_previous_block_hash_matches wr.data (reference_block_hash s0 tw) = r
      cases r with
      | some e0 => exact ⟨_, _, _, rfl, hst, by simp⟩
      | none => exact ⟨_, _, _, rfl, hst, by simp⟩

theorem validate_records (H : Sha256) (s : WorkValidator) (wr : WorkResult) (tw : TrackedWork)
    (hlen : wr.data.length = 256)
    (hf : find_tracked s (work_data_get_merkle_root_hex wr.data) = some tw)
    (hcount : tw.nonce_count < TRACK_NONCE_MAX)
    (hver : tw.version = wr.data.take 8) (hts : tw.timestamp = (wr.data.drop 136).take 8) :
    ∃ s1 e, work_validator_validate H s wr = .ok (s1, e) ∧
      ∀ tw1, find_tracked s1 (work_data_get_merkle_root_hex wr.data) = some tw1 →
        tw1.version = wr.data.take 8 ∧ tw1.timestamp = (wr.data.drop 136).take 8 ∧
        work_data_get_nonce wr.data ∈ tw1.nonces := by
  rcases get_tracked_cases s wr.data with ⟨hc, hp, _⟩ | ⟨tw0, hc, h⟩ | ⟨tw0, hc, hp, h⟩
  · simp [find_tracked, hc, hp] at hf
  · have : tw0 = tw := by simpa [find_tracked, hc] using hf
    subst this
    obtain ⟨s1, e, v, hv, hl, hn⟩ := validate_ref_lookup H s s wr .current tw0 hlen h hver hts hcount
    refine ⟨s1, e, hv, fun tw1 h1 => ?_⟩
    rw [find_tracked_eq, hl] at h1
    cases h1
    have hev := (validate_evolved H s s1 wr e hv).2.2.2.2 .current
      (work_data_get_merkle_root_hex wr.data)
    rw [hl] at hev
    obtain ⟨a0, ha, hab⟩ := optEvolves_some_right hev
    have : a0 = tw0 := by
      have : lookup_ref s .current (work_data_get_merkle_root_hex wr.data) = some tw0 := hc
      rw [this] at ha; cases ha; rfl
    subst this
    exact ⟨hab.2.1.trans hver, hab.2.2.1.trans hts, hn⟩
  · have : tw0 = tw := by simpa [find_tracked, hc, hp] using hf
    subst this
    obtain ⟨s1, e, v, hv, hl, hn⟩ := validate_ref_lookup H s _ wr .previous
      { tw0 with possible_stale := true } hlen h hver hts hcount
    refine ⟨s1, e, hv, fun tw1 h1 => ?_⟩
    have hev := (validate_evolved H s s1 wr e hv).2.2.2.2
    have hcn : lookup_ref s1 .current (work_data_get_merkle_root_hex wr.data) = none := by
      have := hev .current (work_data_get_merkle_root_hex wr.data)
      have hc' : lookup_ref s .current (work_data_get_merkle_root_hex wr.data) = none := hc
      rw [hc'] at this
      exact optEvolves_none_left this
    rw [find_tracked_eq, hcn] at h1
    simp only at h1
    rw [hl] at h1
    cases h1
    have hev2 := hev .previous (work_data_get_merkle_root_hex wr.data)
    rw [hl] at hev2
    obtain ⟨a0, ha, hab⟩ := optEvolves_some_right hev2
    have : a0 = tw0 := by
      have : lookup_ref s .previous (work_data_get_merkle_root_hex wr.data) = some tw0 := hp
      rw [this] at ha; cases ha; rfl
    subst this
    exact ⟨hab.2.1.trans hver, hab.2.2.1.trans hts, hn⟩

theorem validate_duplicate (H : Sha256) (s : WorkValidator) (wr : WorkResult) (tw : TrackedWork)
    (hlen : wr.data.length = 256)
    (hf : find_tracked s (work_data_get_merkle_root_hex wr.data) = some tw)
    (hver : tw.version = wr.data.take 8) (hts : tw.timestamp = (wr.data.drop 136).take 8)
    (hn : work_data_get_nonce wr.data ∈ tw.nonces) :
    ∃ s1, work_validator_validate H s wr =
      .ok (s1, some ⟨.DUPLICATED, "Duplicate work result"⟩) := by
  rcases get_tracked_cases s wr.data with ⟨hc, hp, _⟩ | ⟨tw0, hc, h⟩ | ⟨tw0, hc, hp, h⟩
  · simp [find_tracked, hc, hp] at hf
  · have : tw0 = tw := by simpa [find_tracked, hc] using hf
    subst this
    rw [validate_found H s s wr .current tw0 hlen h, if_neg (not_not.mpr hver),
      if_neg (not_not.mpr hts), if_pos hn]
    exact ⟨_, rfl⟩
  · have : tw0 = tw := by simpa [find_tracked, hc, hp] using hf
    subst this
    rw [validate_found H s _ wr .previous _ hlen h, if_neg (not_not.mpr hver),
      if_neg (not_not.mpr hts), if_pos hn]
    exact ⟨_, rfl⟩

/-- C3. A submission for a tracked template with fewer than 16 recorded nonces
that passes the length, lookup, version and timestamp checks is validated, and
any later submission with the same data, made after calls that do not register
the merkle root again and while a lookup still finds the entry, yields
DUPLICATED with the reason "Duplicate work result". -/
theorem resubmission_is_duplicate (H : Sha256) (s : WorkValidator) (wr : WorkResult)
    (tw : TrackedWork)
    (hlen : wr.data.length = 256)
    (hf : find_tracked s (work_data_get_merkle_root_hex wr.data) = some tw)
    (hcount : tw.nonce_count < TRACK_NONCE_MAX)
    (hver : tw.version = wr.data.take 8)
    (hts : tw.timestamp = (wr.data.drop 136).take 8) :
    ∃ s1 e, work_validator_validate H s wr = .ok (s1, e) ∧
      ∀ evs s2 wr2, run H s1 evs = .ok s2 →
        NoTrack (work_data_get_merkle_root_hex wr.data) evs →
        find_tracked s2 (work_data_get_merkle_root_hex wr.data) ≠ none →
        wr2.data = wr.data →
        ∃ s3, work_validator_validate H s2 wr2 =
          .ok (s3, some ⟨.DUPLICATED, "Duplicate work result"⟩) := by
  obtain ⟨s1, e, hv, hrec⟩ := validate_records H s wr tw hlen hf hcount hver hts
  refine ⟨s1, e, hv, fun evs s2 wr2 hr hnt hfound hd => ?_⟩
  have hP := run_induction H
    (fun st => ∀ tw1, find_tracked st (work_data_get_merkle_root_hex wr.data) = some tw1 →
      tw1.version = wr.data.take 8 ∧ tw1.timestamp = (wr.data.drop 136).take 8 ∧
      work_data_get_nonce wr.data ∈ tw1.nonces)
    (NotTrackOf (work_data_get_merkle_root_hex wr.data))
    (fun st ev st1 hp hq hs =>
      find_tracked_step H _ _
        (fun a b hab ha => ⟨hab.2.1.trans ha.1, hab.2.2.1.trans ha.2.1, hab.2.2.2 _ ha.2.2⟩)
        st st1 ev hp hq hs)
    evs s1 s2 hrec hnt hr
  cases hf2 : find_tracked s2 (work_data_get_merkle_root_hex wr.data) with
  | none => exact absurd hf2 hfound
  | some tw2 =>
    obtain ⟨h1, h2, h3⟩ := hP tw2 hf2
    rw [← hd] at hf2 h1 h2 h3
    exact validate_duplicate H s2 wr2 tw2 (by rw [hd]; exact hlen) hf2 h1 h2 h3

/-- The sample submission, once validated, is a duplicate from then on. -/
theorem resubmission_is_duplicate_witness :
    find_tracked sample_state
      (work_data_get_merkle_root_hex (sample_result alice "1d00ffff" "deadbeef").data) =
      some sample_tracked ∧
    ∃ s1 e, work_validator_validate zero_sha sample_state
        (sample_result alice "1d00ffff" "deadbeef") = .ok (s1, e) ∧
      ∀ evs s2 wr2, run zero_sha s1 evs = .ok s2 →
        NoTrack (work_data_get_merkle_root_hex (sample_result alice "1d00ffff" "deadbeef").data)
          evs →
        find_tracked s2
          (work_data_get_merkle_root_hex (sample_result alice "1d00ffff" "deadbeef").data)
          ≠ none →
        wr2.data = (sample_result alice "1d00ffff" "deadbeef").data →
        ∃ s3, work_validator_validate zero_sha s2 wr2 =
          .ok (s3, some ⟨.DUPLICATED, "Duplicate work result"⟩) :=
  ⟨rfl, resubmission_is_duplicate zero_sha sample_state
    (sample_result alice "1d00ffff" "deadbeef") sample_tracked rfl rfl (by decide) rfl rfl⟩

theorem absent_current_step (H : Sha256) (key : Hex) (s s1 : WorkValidator) (ev : Event)
    (hp : lookup_ref s .current key = none) (hq : NotTrackOf key ev)
    (hs : step H s ev = .ok s1) : lookup_ref s1 .current key = none := by
  rcases step_lookup H s s1 ev hs with
    ⟨user, data, ps, rfl, _, _, _, hcur⟩ | ⟨n, rfl, _, hcur, _⟩ | ⟨_, _, _, hevo⟩
  · rw [hcur, if_neg (hq user data ps rfl)]; exact hp
  · exact hcur key
  · have := hevo .current key
    rw [hp] at this
    exact optEvolves_none_left this

/-- C4. After `notify_new_block`, and after any further calls that do not
register the merkle root again, a submission with that merkle root never
yields SUCCESS (a later new block only makes the work unknown); and when the
entry is still in the previous table and the submission passes every other
check of both phases (length, version, timestamp, a new nonce that fits the
nonce array, user, previous block hash, decodable header, hash not above the
target), its outcome is STALE. -/
theorem stale_after_new_block (H : Sha256) (s0 s1 : WorkValidator) (n : Nat)
    (evs : List Event) (s2 : WorkValidator) (wr : WorkResult)
    (hnb : work_validator_notify_new_block s0 n = .ok s1)
    (hr : run H s1 evs = .ok s2)
    (hnt : NoTrack (work_data_get_merkle_root_hex wr.data) evs) :
    (∀ s3 e, work_validator_validate H s2 wr = .ok (s3, e) → outcome e ≠ .SUCCESS) ∧
    (∀ tw b, wr.data.length = 256 →
      lookup_previous s2 (work_data_get_merkle_root_hex wr.data) = some tw →
      tw.version = wr.data.take 8 →
      tw.timestamp = (wr.data.drop 136).take 8 →
      work_data_get_nonce wr.data ∉ tw.nonces →
      tw.nonce_count < TRACK_NONCE_MAX →
      tw.user = wr.user →
      check_previous_block_hash_matches wr.data s2.block_hash_prev = none →
      hex_to_bin (header_hex wr.data) 160 (List.replicate 80 0) = (true, b) →
      compare_inverted_hashes (H.digest (H.digest b)) s2.target ≤ 0 →
      ∃ s3, work_validator_validate H s2 wr =
        .ok (s3, some ⟨.STALE, "Block hash belongs to previous block. Stale!"⟩)) := by
  have hcur : lookup_ref s2 .current (work_data_get_merkle_root_hex wr.data) = none :=
    run_induction H
      (fun st => lookup_ref st .current (work_data_get_merkle_root_hex wr.data) = none)
      (NotTrackOf (work_data_get_merkle_root_hex wr.data))
      (fun st ev st1 hp hq hs => absent_current_step H _ st st1 ev hp hq hs)
      evs s1 s2 (by rw [notify_new_block_ok s0 s1 n hnb]; rfl) hnt hr
  have hcur' : g_hash_table_lookup s2.work_by_merkle_root
      (work_data_get_merkle_root_hex wr.data) = none := hcur
  constructor
  · intro s3 e hv ho
    obtain ⟨_, sa, ref, tw, hg, _, _, _, _, hps, _⟩ := validate_success H s2 s3 wr e hv ho
    rcases get_tracked_cases s2 wr.data with ⟨_, _, h⟩ | ⟨tw0, hc, _⟩ | ⟨tw0, _, _, h⟩
    · rw [h] at hg; cases hg
    · rw [hcur'] at hc; cases hc
    · rw [h] at hg
      cases hg
      cases hps
  · intro tw b hlen hp hver hts hn hcount hu hprev hb hcmp
    rcases get_tracked_cases s2 wr.data with ⟨_, hp0, _⟩ | ⟨tw0, hc, _⟩ | ⟨tw0, _, hp0, h⟩
    · rw [hp] at hp0; cases hp0
    · rw [hcur'] at hc; cases hc
    · rw [hp] at hp0
      cases hp0
      have hfr := store_frame s2 .previous (work_data_get_merkle_root_hex wr.data)
        { tw with possible_stale := true }
      have hfr2 := store_frame
        (store_tracked_work s2 .previous (work_data_get_merkle_root_hex wr.data)
          { tw with possible_stale := true })
        .previous (work_data_get_merkle_root_hex wr.data)
        { tw with possible_stale := true,
                  nonces := tw.nonces ++ [work_data_get_nonce wr.data] }
      have hcheck : check_previous_block_hash_matches wr.data
          (reference_block_hash
            (store_tracked_work s2 .previous (work_data_get_merkle_root_hex wr.data)
              { tw with possible_stale := true })
            { tw with possible_stale := true }) = none := by
        simp only [reference_block_hash, if_true, hfr.2.2, hprev]
      have hcount' : ({ tw with possible_stale := true } : TrackedWork).nonce_count
          < TRACK_NONCE_MAX := hcount
      rw [validate_found H s2 _ wr .previous _ hlen h, if_neg (not_not.mpr hver),
        if_neg (not_not.mpr hts), if_neg hn, if_pos hcount', if_neg (not_not.mpr hu), hcheck]
      have hthread : validate_work_result_in_thread H
          (store_tracked_work
            (store_tracked_work s2 .previous (work_data_get_merkle_root_hex wr.data)
              { tw with possible_stale := true })
            .previous (work_data_get_merkle_root_hex wr.data)
            { tw with possible_stale := true,
                      nonces := tw.nonces ++ [work_data_get_nonce wr.data] })
          (marked wr { tw with possible_stale := true }) =
          some ⟨.STALE, "Block hash belongs to previous block. Stale!"⟩ := by
        have hm : marked wr { tw with possible_stale := true } = { wr with stale := true } :=
          rfl
        rw [hm]
        unfold validate_work_result_in_thread
        rw [hb]
        show (if compare_inverted_hashes (H.digest (H.digest b)) _ > 0 then _ else _) = _
        rw [hfr2.1, hfr.1, if_neg (not_lt.mpr hcmp)]
        rfl
      simp only [hthread]
      exact ⟨_, rfl⟩

/-- After block 101 the sample submission is not accepted any more: it is STALE. -/
theorem stale_after_new_block_witness :
    work_validator_notify_new_block sample_state 101 = .ok stale_state ∧
    run zero_sha stale_state [.on_block_hash none] = .ok stale_state ∧
    (∀ s3 e, work_validator_validate zero_sha stale_state
        (sample_result alice "1d00ffff" "deadbeef") = .ok (s3, e) → outcome e ≠ .SUCCESS) ∧
    ∃ s3, work_validator_validate zero_sha stale_state
        (sample_result alice "1d00ffff" "deadbeef") =
      .ok (s3, some ⟨.STALE, "Block hash belongs to previous block. Stale!"⟩) :=
  have h := stale_after_new_block zero_sha sample_state stale_state 101 [.on_block_hash none]
    stale_state (sample_result alice "1d00ffff" "deadbeef") rfl rfl
    (fun ev hev user data ps heq => by subst heq; simp at hev)
  ⟨rfl, rfl, h.1, h.2 sample_tracked
    (decoded_header (sample_result alice "1d00ffff" "deadbeef").data).2
    rfl rfl rfl rfl (by decide) (by decide) rfl rfl rfl (by decide)⟩

/-- C6. A submission of 256 characters whose merkle root is in neither table
yields INVALID with the unknown-work reason, and the validator afterwards is
the validator before: both tables, every nonce set and every stale mark are
unchanged. -/
theorem unknown_work_is_invalid (H : Sha256) (s : WorkValidator) (wr : WorkResult)
    (hlen : wr.data.length = 256)
    (hc : g_hash_table_lookup s.work_by_merkle_root
      (work_data_get_merkle_root_hex wr.data) = none)
    (hp : lookup_previous s (work_data_get_merkle_root_hex wr.data) = none) :
    work_validator_validate H s wr =
      .ok (s, some ⟨.INVALID, "Work result for an unknown work item"⟩) := by
  rcases get_tracked_cases s wr.data with ⟨_, _, h⟩ | ⟨tw0, hc0, _⟩ | ⟨tw0, _, hp0, _⟩
  · exact validate_unknown H s s wr hlen h
  · rw [hc] at hc0; cases hc0
  · rw [hp] at hp0; cases hp0

/-- A submission of 256 zeros is for unknown work in the sample state. -/
theorem unknown_work_is_invalid_witness :
    g_hash_table_lookup sample_state.work_by_merkle_root
      (work_data_get_merkle_root_hex (List.replicate 256 '0')) = none ∧
    work_validator_validate zero_sha sample_state
        { data := List.replicate 256 '0', user := alice, stale := false } =
      .ok (sample_state, some ⟨.INVALID, "Work result for an unknown work item"⟩) :=
  ⟨rfl, unknown_work_is_invalid zero_sha sample_state
    { data := List.replicate 256 '0', user := alice, stale := false } rfl rfl rfl⟩

/-- C7 (the code fails it). Whatever the digest function, after sixteen
submissions with different nonces for one template the entry holds 16 nonces,
and the seventeenth submission passes the comparison with them and writes its
nonce at index 16, outside the 16-slot array. -/
theorem seventeenth_nonce_out_of_bounds (H : Sha256) :
    run H work_validator_new (sample_events ++ sixteen_submissions) = .ok full_state ∧
    (find_tracked full_state sample_merkle_root).map TrackedWork.nonce_count = some 16 ∧
    work_validator_validate H full_state (sample_result alice "1d00ffff" "00000010") =
      .error (.nonces_out_of_bounds 16) ∧
    ¬ 16 < TRACK_NONCE_MAX :=
  ⟨rfl, rfl, rfl, by decide⟩

/-- Whatever the digest function, a submission for the sample template after
a new block whose difficulty-bits field is not hexadecimal passes phase 1 and
is answered INVALID, "Invalid hex string", while the first failing check of
the listed ones is the stale mark. -/
theorem undecodable_header_is_invalid (H : Sha256) :
    first_failing (listed_checks H stale_state
      (sample_result alice "zzzzzzzz" "deadbeef")) = .STALE ∧
    work_validator_validate H stale_state (sample_result alice "zzzzzzzz" "deadbeef") =
      .ok (state_after zero_sha stale_state
        [.validate (sample_result alice "zzzzzzzz" "deadbeef")],
        some ⟨.INVALID, "Invalid hex string"⟩) :=
  ⟨rfl, rfl⟩

theorem fill_work_queue_loop_done (fuel : Nat) (u : Upstream)
    (hmin : u.self.work_queue_min < 2 ^ 32)
    (hf : u.self.work_queue_min ≤
      fuel + (u.self.work_requests + g_queue_get_length u.self.work_queue) % 2 ^ 32) :
    ¬ ((fill_work_queue_loop fuel u).self.work_requests +
        g_queue_get_length (fill_work_queue_loop fuel u).self.work_queue) % 2 ^ 32
      < (fill_work_queue_loop fuel u).self.work_queue_min := by
  induction fuel generalizing u with
  | zero =>
    simp only [fill_work_queue_loop]
    omega
  | succ fuel ih =>
    unfold fill_work_queue_loop
    split
    · rename_i hlt
      apply ih
      · exact hmin
      · simp only [Nat.reducePow] at hmin hf hlt ⊢
        omega
    · assumption

/-- The fuel of `fill_work_queue` is enough: when it returns, the condition of
the `while` loop is false. -/
theorem fill_work_queue_done (u : Upstream) (hmin : u.self.work_queue_min < 2 ^ 32) :
    ¬ ((fill_work_queue u).self.work_requests +
        g_queue_get_length (fill_work_queue u).self.work_queue) % 2 ^ 32
      < (fill_work_queue u).self.work_queue_min :=
  fill_work_queue_loop_done _ u hmin (Nat.le_add_right _ _)

theorem fill_work_queue_loop_bounded (fuel : Nat) (u : Upstream) (h : CacheBounded u) :
    CacheBounded (fill_work_queue_loop fuel u) := by
  induction fuel generalizing u with
  | zero => exact h
  | succ fuel ih =>
    unfold fill_work_queue_loop
    split
    · rename_i hlt
      apply ih
      obtain ⟨h1, h2, h3⟩ := h
      simp only [CacheBounded, Nat.reducePow] at h1 h2 h3 hlt ⊢
      refine ⟨h1, ?_, ?_⟩ <;> omega
    · exact h

theorem upstream_step_bounded (u u1 : Upstream) (ev : UpstreamEvent) (h : CacheBounded u)
    (hq : ∀ block, ev = .notify_new_block block → u.calls = 0)
    (hs : upstream_step u ev = some u1) : CacheBounded u1 := by
  obtain ⟨h1, h2, h3⟩ := h
  cases ev with
  | notify_new_block block =>
    simp only [upstream_step, Option.some.injEq] at hs
    subst hs
    apply fill_work_queue_loop_bounded
    have := hq block rfl
    simp only [CacheBounded, g_queue_get_length, List.length_nil] at h1 ⊢
    omega
  | get_work =>
    simp only [upstream_step, Option.some.injEq] at hs
    subst hs
    apply fill_work_queue_loop_bounded
    have hlen : g_queue_get_length (g_queue_pop_head u.self.work_queue).2 ≤
        g_queue_get_length u.self.work_queue := by
      cases hq0 : u.self.work_queue with
      | none => simp [g_queue_pop_head, g_queue_get_length]
      | some q => cases q <;> simp [g_queue_pop_head, g_queue_get_length]
    simp only [CacheBounded] at h1 ⊢
    exact ⟨h1, by omega, h3⟩
  | getwork_done result =>
    simp only [upstream_step] at hs
    split at hs
    · cases hs
    · rename_i hc
      simp only [Option.some.injEq] at hs
      subst hs
      cases result with
      | none =>
        simp only [rpc_on_getwork, CacheBounded] at h1 ⊢
        exact ⟨h1, h2, by omega⟩
      | some r =>
        apply fill_work_queue_loop_bounded
        have hlen : g_queue_get_length (g_queue_push_head u.self.work_queue r) ≤
            g_queue_get_length u.self.work_queue + 1 := by
          cases hq0 : u.self.work_queue <;> simp [g_queue_push_head, g_queue_get_length]
        simp only [CacheBounded, Nat.reducePow] at h1 h2 ⊢
        refine ⟨h1, ?_, ?_⟩ <;> omega

/-- While no call straddles a new block, cached templates plus counted
requests stay within the cache size, and every call in flight is counted. -/
theorem cache_bounded_when_quiet (evs : List UpstreamEvent) (u u1 : Upstream)
    (h : CacheBounded u) (hq : QuietAtNewBlock u evs) (hr : upstream_run u evs = some u1) :
    CacheBounded u1 := by
  induction evs generalizing u with
  | nil =>
    simp only [upstream_run, Option.some.injEq] at hr
    subst hr; exact h
  | cons ev evs ih =>
    simp only [upstream_run] at hr
    cases hs : upstream_step u ev with
    | none => rw [hs] at hr; cases hr
    | some um =>
      rw [hs] at hr
      exact ih um (upstream_step_bounded u um ev h hq.1 hs) (hq.2 um hs) hr

theorem cacheBounded_new (work_cache_size : Int) :
    CacheBounded (upstream_service_new work_cache_size) := by
  have hm : (work_cache_size % 2 ^ 32).toNat < 2 ^ 32 := by
    have h1 := Int.emod_lt_of_pos work_cache_size (show (0 : Int) < 2 ^ 32 by norm_num)
    have h0 := Int.emod_nonneg work_cache_size (show (2 : Int) ^ 32 ≠ 0 by norm_num)
    omega
  simp only [CacheBounded, upstream_service_new, g_queue_get_length, DEFAULT_WORK_CACHE_SIZE]
  refine ⟨?_, ?_, ?_⟩
  · split
    · norm_num
    · exact hm
  · omega
  · omega

/-- C9 (the code fails it). With a cache size of 1, two new blocks in a row
leave two calls in flight while the request count is reset to 1; when both
complete, the cache holds 2 templates and the request count has wrapped around
to 4294967295, so cached plus in-flight count exceeds the cache size. -/
theorem cache_exceeds_cache_size :
    ∃ u, upstream_run (upstream_service_new 1)
        [ .notify_new_block 100, .notify_new_block 101,
          .getwork_done (some "first".data), .getwork_done (some "second".data) ] = some u ∧
      u.self.work_queue = some ["second".data, "first".data] ∧
      u.self.work_queue_min = 1 ∧
      u.self.work_requests = 4294967295 ∧
      u.calls = 0 ∧
      ¬ (g_queue_get_length u.self.work_queue + u.self.work_requests ≤ u.self.work_queue_min) ∧
      ¬ (g_queue_get_length u.self.work_queue ≤ u.self.work_queue_min) :=
  ⟨_, rfl, by decide⟩

/-- C10 (the code fails it). With a cache size of 1, after the only call in
flight fails, the next `get_work` issues no new call: the failed request is
still counted in `work_requests`, and calls in flight (0) plus cached
templates (0) stay below the cache size. -/
theorem failed_request_stays_counted :
    ∃ u, upstream_run (upstream_service_new 1)
        [.notify_new_block 100, .getwork_done none, .get_work] = some u ∧
      u.self.work_queue = some [] ∧
      u.self.work_queue_min = 1 ∧
      u.self.work_requests = 1 ∧
      u.calls = 0 ∧
      ¬ (u.self.work_queue_min ≤ u.calls + g_queue_get_length u.self.work_queue) :=
  ⟨_, rfl, by decide⟩

theorem fill_work_queue_loop_queue (fuel : Nat) (u : Upstream) :
    (fill_work_queue_loop fuel u).self.work_queue = u.self.work_queue := by
  induction fuel generalizing u with
  | zero => rfl
  | succ fuel ih =>
    unfold fill_work_queue_loop
    split
    · rw [ih]
    · rfl

theorem arrivals_append (a b : List UpstreamEvent) :
    arrivals (a ++ b) = arrivals a ++ arrivals b := by
  induction a with
  | nil => rfl
  | cons ev a ih =>
    cases ev with
    | notify_new_block n => simpa [arrivals] using ih
    | get_work => simpa [arrivals] using ih
    | getwork_done r =>
      cases r with
      | none => simpa [arrivals] using ih
      | some x => simp [arrivals, ih]

/-- The cache lists the templates it holds from the latest arrival to the
earliest. -/
theorem upstream_step_order (pre : List UpstreamEvent) (u u1 : Upstream) (ev : UpstreamEvent)
    (h : ∀ q, u.self.work_queue = some q → q.Sublist (arrivals pre).reverse)
    (hs : upstream_step u ev = some u1) :
    ∀ q, u1.self.work_queue = some q → q.Sublist (arrivals (pre ++ [ev])).reverse := by
  intro q hq
  rw [arrivals_append, List.reverse_append]
  cases ev with
  | notify_new_block n =>
    simp only [upstream_step, Option.some.injEq] at hs
    subst hs
    simp only [upstream_service_notify_new_block, fill_work_queue, fill_work_queue_loop_queue,
      Option.some.injEq] at hq
    subst hq
    exact List.nil_sublist _
  | get_work =>
    simp only [upstream_step, Option.some.injEq] at hs
    subst hs
    simp only [upstream_service_get_work, fill_work_queue, fill_work_queue_loop_queue] at hq
    simp only [arrivals, List.reverse_nil, List.nil_append]
    cases hq0 : u.self.work_queue with
    | none => rw [hq0] at hq; simp [g_queue_pop_head] at hq
    | some q0 =>
      rw [hq0] at hq
      cases q0 with
      | nil =>
        simp only [g_queue_pop_head, Option.some.injEq] at hq
        subst hq
        exact List.nil_sublist _
      | cons x rest =>
        simp only [g_queue_pop_head, Option.some.injEq] at hq
        subst hq
        exact (List.sublist_cons_self x _).trans (h _ hq0)
  | getwork_done result =>
    simp only [upstream_step] at hs
    split at hs
    · cases hs
    · simp only [Option.some.injEq] at hs
      subst hs
      cases result with
      | none =>
        simp only [rpc_on_getwork] at hq
        simp only [arrivals, List.reverse_nil, List.nil_append]
        exact h q hq
      | some r =>
        simp only [rpc_on_getwork, fill_work_queue, fill_work_queue_loop_queue] at hq
        simp only [arrivals, List.reverse_cons, List.reverse_nil, List.nil_append,
          List.singleton_append]
        cases hq0 : u.self.work_queue with
        | none => rw [hq0] at hq; simp [g_queue_push_head] at hq
        | some q0 =>
          rw [hq0] at hq
          simp only [g_queue_push_head, Option.map_some', Option.some.injEq] at hq
          subst hq
          exact (h q0 hq0).cons₂ r

theorem upstream_run_order (evs pre : List UpstreamEvent) (u u1 : Upstream)
    (h : ∀ q, u.self.work_queue = some q → q.Sublist (arrivals pre).reverse)
    (hr : upstream_run u evs = some u1) :
    ∀ q, u1.self.work_queue = some q → q.Sublist (arrivals (pre ++ evs)).reverse := by
  induction evs generalizing pre u with
  | nil =>
    simp only [upstream_run, Option.some.injEq] at hr
    subst hr
    simpa using h
  | cons ev evs ih =>
    simp only [upstream_run] at hr
    cases hs : upstream_step u ev with
    | none => rw [hs] at hr; cases hr
    | some um =>
      rw [hs] at hr
      have := ih (pre ++ [ev]) um (upstream_step_order pre u um ev h hs) hr
      simpa using this

/-- C11. In every state the service reaches, when the cache is not empty
`upstream_service_get_work` returns its head and removes exactly that
template; the cache lists its templates from the latest arrival to the
earliest, so the head is the one that arrived most recently among those still
cached. -/
theorem get_work_returns_latest (work_cache_size : Int) (evs : List UpstreamEvent)
    (u : Upstream) (x : JsonNode) (rest : List JsonNode)
    (hr : upstream_run (upstream_service_new work_cache_size) evs = some u)
    (hq : u.self.work_queue = some (x :: rest)) :
    (upstream_service_get_work u).1 = some x ∧
    (upstream_service_get_work u).2.self.work_queue = some rest ∧
    (x :: rest).Sublist (arrivals evs).reverse := by
  refine ⟨?_, ?_, ?_⟩
  · simp [upstream_service_get_work, hq, g_queue_pop_head]
  · simp [upstream_service_get_work, fill_work_queue, fill_work_queue_loop_queue, hq,
      g_queue_pop_head]
  · have := upstream_run_order evs [] (upstream_service_new work_cache_size) u
      (fun q h => by simp [upstream_service_new] at h) hr _ hq
    simpa using this

/-- Two templates arrive after a new block; the second is served first. -/
theorem get_work_returns_latest_witness :
    upstream_run (upstream_service_new 2)
        [.notify_new_block 100, .getwork_done (some "first".data),
         .getwork_done (some "second".data)] =
      some { self := { work_queue := some ["second".data, "first".data]
                       work_queue_min := 2
                       work_requests := 0 }
             calls := 0 } ∧
    (upstream_service_get_work
        { self := { work_queue := some ["second".data, "first".data]
                    work_queue_min := 2
                    work_requests := 0 }
          calls := 0 }).1 = some "second".data ∧
    (upstream_service_get_work
        { self := { work_queue := some ["second".data, "first".data]
                    work_queue_min := 2
                    work_requests := 0 }
          calls := 0 }).2.self.work_queue = some ["first".data] ∧
    ["second".data, "first".data].Sublist
      (arrivals [.notify_new_block 100, .getwork_done (some "first".data),
         .getwork_done (some "second".data)]).reverse :=
  ⟨by decide, get_work_returns_latest 2 _ _ "second".data ["first".data] (by decide) rfl⟩

/-- The callback fires only in the completion of a call, only for a count
above the current block, and with that count, which becomes the current
block. -/
theorem monitor_step_delivered (m m1 : Monitor) (ev : MonitorEvent)
    (hs : monitor_step m ev = some m1) :
    (m1.delivered = m.delivered ∧ m.self.currentBlock ≤ m1.self.currentBlock) ∨
    ∃ count, ev = .response (some count) ∧ m.self.started = true ∧
      m.self.currentBlock < block_of_count count ∧
      m1.self.currentBlock = block_of_count count ∧
      m1.delivered = m.delivered ++ [block_of_count count] := by
  cases ev with
  | start =>
    left
    simp only [monitor_step, Option.some.injEq] at hs
    subst hs
    unfold block_monitor_start
    split
    · exact ⟨rfl, le_refl _⟩
    · by_cases h0 : m.self.src_id = 0 <;> simp [checkBlock, g_source_remove, h0]
  | stop =>
    left
    simp only [monitor_step, Option.some.injEq] at hs
    subst hs
    unfold block_monitor_stop
    split
    · exact ⟨rfl, le_refl _⟩
    · by_cases h0 : m.self.src_id > 0 <;> simp [g_source_remove, h0]
  | timer id =>
    left
    simp only [monitor_step] at hs
    split at hs
    · simp only [Option.some.injEq] at hs
      subst hs
      exact ⟨rfl, le_refl _⟩
    · cases hs
  | response result =>
    simp only [monitor_step] at hs
    split at hs
    · cases hs
    · simp only [Option.some.injEq] at hs
      subst hs
      cases result with
      | none =>
        left
        by_cases hst : m.self.started = true <;> simp [on_block_count, evd_timeout_add, hst]
      | some count =>
        by_cases hgt : block_of_count count > m.self.currentBlock
        · by_cases hst : m.self.started = true
          · right
            refine ⟨count, rfl, hst, hgt, ?_, ?_⟩ <;>
              simp [on_block_count, evd_timeout_add, hgt, hst]
          · left
            have hst' : m.self.started = false := by simpa using hst
            refine ⟨?_, ?_⟩
            · simp [on_block_count, evd_timeout_add, hgt, hst']
            · simp only [on_block_count, evd_timeout_add, hgt, hst', if_true, if_false,
                Bool.false_eq_true]
              exact le_of_lt hgt
        · left
          by_cases hst : m.self.started = true <;>
            simp [on_block_count, evd_timeout_add, hgt, hst]

theorem monitor_run_increasing (evs : List MonitorEvent) (m m1 : Monitor)
    (h : m.delivered.Pairwise (· < ·) ∧ ∀ b ∈ m.delivered, b ≤ m.self.currentBlock)
    (hr : monitor_run m evs = some m1) :
    m1.delivered.Pairwise (· < ·) ∧ ∀ b ∈ m1.delivered, b ≤ m1.self.currentBlock := by
  induction evs generalizing m with
  | nil =>
    simp only [monitor_run, Option.some.injEq] at hr
    subst hr; exact h
  | cons ev evs ih =>
    simp only [monitor_run] at hr
    cases hs : monitor_step m ev with
    | none => rw [hs] at hr; cases hr
    | some mm =>
      rw [hs] at hr
      apply ih mm _ hr
      rcases monitor_step_delivered m mm ev hs with ⟨hd, hc⟩ | ⟨count, _, _, hlt, hc, hd⟩
      · rw [hd]
        exact ⟨h.1, fun b hb => le_trans (h.2 b hb) hc⟩
      · rw [hd, hc]
        refine ⟨?_, ?_⟩
        · rw [List.pairwise_append]
          refine ⟨h.1, List.pairwise_singleton _ _, ?_⟩
          intro a ha b hb
          simp only [List.mem_singleton] at hb
          subst hb
          exact lt_of_le_of_lt (h.2 a ha) hlt
        · intro b hb
          simp only [List.mem_append, List.mem_singleton] at hb
          rcases hb with hb | hb
          · exact le_of_lt (lt_of_le_of_lt (h.2 b hb) hlt)
          · exact le_of_eq hb

/-- C12 (as stated, fails). After the count 100, a response with the count
-1 fires the callback, with 4294967295; and a response with the count
4294967397 fires it with 101: the returned count is stored in a `guint`. -/
theorem out_of_range_count_fires_callback :
    (monitor_run (block_monitor_new 250)
        [.start, .response (some 100), .timer 1, .response (some (-1))]).map
        (fun m => (m.delivered, m.self.currentBlock)) =
      some ([100, 4294967295], 4294967295) ∧
    (monitor_run (block_monitor_new 250)
        [.start, .response (some 100), .timer 1, .response (some 4294967397)]).map
        (fun m => (m.delivered, m.self.currentBlock)) =
      some ([100, 101], 101) := by
  decide

/-- C12 (as amended). For every sequence of start, stop, timer expiry and
`getblockcount` completion, the block-change callback fires only in the
completion of a call whose count, as stored in the `guint` (the count modulo
2^32, which is the count itself from 0 up to 2^32 - 1), exceeds the current
block, and with that stored number; the block numbers passed to the callback
are strictly increasing. -/
theorem block_change_strictly_increasing (latency : Int) (evs : List MonitorEvent)
    (m : Monitor) (hr : monitor_run (block_monitor_new latency) evs = some m) :
    m.delivered.Pairwise (· < ·) ∧
    (∀ ev m1, monitor_step m ev = some m1 →
      m1.delivered = m.delivered ∨
      ∃ count, ev = .response (some count) ∧ m.self.started = true ∧
        m.self.currentBlock < block_of_count count ∧
        m1.delivered = m.delivered ++ [block_of_count count]) ∧
    ∀ count : Int, 0 ≤ count → count < 2 ^ 32 → (block_of_count count : Int) = count := by
  refine ⟨(monitor_run_increasing evs _ m ⟨List.Pairwise.nil, fun b hb => ?_⟩ hr).1, ?_, ?_⟩
  · simp [block_monitor_new] at hb
  · intro ev m1 hs
    rcases monitor_step_delivered m m1 ev hs with ⟨hd, _⟩ | ⟨count, h1, h2, h3, _, h5⟩
    · exact Or.inl hd
    · exact Or.inr ⟨count, h1, h2, h3, h5⟩
  · intro count h0 h1
    unfold block_of_count
    rw [Int.emod_eq_of_lt h0 h1, Int.toNat_of_nonneg h0]

/-- Counts 100, 100, 99, 101 arrive while started: the callback gets 100 and
101. -/
theorem block_change_strictly_increasing_witness :
    monitor_run (block_monitor_new 250) polling_events = some polling_monitor ∧
    polling_monitor.delivered = [100, 101] ∧
    polling_monitor.delivered.Pairwise (· < ·) :=
  ⟨by decide, rfl,
    (block_change_strictly_increasing 250 polling_events polling_monitor (by decide)).1⟩

/-- C13. While the monitor is stopped, the completion of a `getblockcount`
call, failed or with any count, does not fire the block-change callback and
does not arm a timeout source. -/
theorem stopped_response_is_silent (m m1 : Monitor) (result : Option Int)
    (hstopped : m.self.started = false)
    (hs : monitor_step m (.response result) = some m1) :
    m1.delivered = m.delivered ∧ m1.timers = m.timers ∧
    m1.next_source = m.next_source ∧ m1.self.src_id = m.self.src_id ∧
    m1.self.started = false := by
  simp only [monitor_step] at hs
  split at hs
  · cases hs
  · simp only [Option.some.injEq] at hs
    subst hs
    cases result with
    | none => simp [on_block_count, hstopped]
    | some count =>
      by_cases hgt : block_of_count count > m.self.currentBlock <;>
        simp [on_block_count, hstopped, hgt]

/-- A count of 100 arrives after a stop: nothing is delivered, nothing is
armed. -/
theorem stopped_response_is_silent_witness :
    monitor_run (block_monitor_new 250) [.start, .stop] = some stopped_monitor ∧
    stopped_monitor.self.started = false ∧
    ∃ m1, monitor_step stopped_monitor (.response (some 100)) = some m1 ∧
      m1.delivered = stopped_monitor.delivered ∧ m1.timers = stopped_monitor.timers ∧
      m1.next_source = stopped_monitor.next_source ∧
      m1.self.src_id = stopped_monitor.self.src_id ∧ m1.self.started = false :=
  ⟨by decide, rfl, _, rfl,
    stopped_response_is_silent stopped_monitor _ (some 100) rfl rfl⟩

theorem g_list_foreach_to_getwork_eq (conns : List EvdHttpConnection) (self : PoolServer) :
    g_list_foreach_to_getwork conns self =
      { self with
        getwork_queue := self.getwork_queue ++ conns.map (fun c => ⟨c, 0, true⟩) } := by
  induction conns generalizing self with
  | nil => simp [g_list_foreach_to_getwork]
  | cons c rest ih =>
    simp [g_list_foreach_to_getwork, ih, long_polling_conn_to_getwork]

/-- C14. For every pool-server state, `pool_server_notify_new_block` empties
the long-poll list and leaves the getwork queue equal to its previous content
followed by one request with `from_lp` set (and invocation id 0) per parked
connection, in the order the connections were parked. -/
theorem notify_new_block_moves_long_polls (self : PoolServer) (block : Nat) :
    (pool_server_notify_new_block self block).lp_conns = [] ∧
    (pool_server_notify_new_block self block).getwork_queue =
      self.getwork_queue ++ self.lp_conns.map (fun c => ⟨c, 0, true⟩) := by
  simp [pool_server_notify_new_block, g_list_foreach_to_getwork_eq]

theorem get_one_replace (hdrs : SoupMessageHeaders) (name value name1 : String) :
    soup_message_headers_get_one (soup_message_headers_replace hdrs name value) name1 =
      if name = name1 then some value else soup_message_headers_get_one hdrs name1 := by
  unfold soup_message_headers_get_one soup_message_headers_replace
  by_cases h : name = name1
  · subst h
    have : (hdrs.filter (fun p => decide (p.1 ≠ name))).find? (fun p => decide (p.1 = name))
        = none := by
      rw [List.find?_eq_none]
      intro x hx
      simp only [List.mem_filter, decide_eq_true_eq] at hx
      simpa using hx.2
    simp [List.find?_append, this]
  · simp only [h, if_false]
    have hf : (hdrs.filter (fun p => decide (p.1 ≠ name))).find? (fun p => decide (p.1 = name1))
        = hdrs.find? (fun p => decide (p.1 = name1)) := by
      induction hdrs with
      | nil => rfl
      | cons p t ih =>
        by_cases hp : p.1 = name
        · have hp1 : ¬ p.1 = name1 := fun h1 => h (hp.symm.trans h1)
          have e1 : List.filter (fun p => decide (p.1 ≠ name)) (p :: t) =
              List.filter (fun p => decide (p.1 ≠ name)) t :=
            List.filter_cons_of_neg (by simpa using hp)
          have e2 : List.find? (fun p => decide (p.1 = name1)) (p :: t) =
              List.find? (fun p => decide (p.1 = name1)) t :=
            List.find?_cons_of_neg _ (by simpa using hp1)
          rw [e1, e2, ih]
        · have e1 : List.filter (fun p => decide (p.1 ≠ name)) (p :: t) =
              p :: List.filter (fun p => decide (p.1 ≠ name)) t :=
            List.filter_cons_of_pos (by simpa using hp)
          rw [e1]
          by_cases hp1 : p.1 = name1
          · rw [List.find?_cons_of_pos _ (by simpa using hp1),
              List.find?_cons_of_pos _ (by simpa using hp1)]
          · rw [List.find?_cons_of_neg _ (by simpa using hp1),
              List.find?_cons_of_neg _ (by simpa using hp1), ih]
    rw [List.find?_append, hf]
    cases hdrs.find? (fun p => decide (p.1 = name1)) with
    | some x => rfl
    | none => simp [List.find?, h]

/-- What each event does to the response headers. -/
theorem pool_server_step_headers (self : PoolServer) (ev : PoolServerEvent) :
    (pool_server_step self ev).headers =
      match ev with
      | .notify_new_block block =>
        soup_message_headers_replace self.headers "X-Blocknum" (toString block)
      | _ => self.headers := by
  cases ev with
  | request_headers conn path =>
    simp only [pool_server_step, on_request_headers]; split <;> rfl
  | method_call m n i conn =>
    simp only [pool_server_step, rpc_on_method_call]
    split
    · rfl
    · split <;> rfl
  | getwork_closed data => rfl
  | lp_closed conn => rfl
  | notify_new_block block =>
    simp [pool_server_step, pool_server_notify_new_block, g_list_foreach_to_getwork_eq]
  | get_work_request =>
    simp only [pool_server_step, pool_server_get_work_request]
    split <;> rfl

theorem pool_server_run_headers (evs : List PoolServerEvent) (self : PoolServer)
    (server lp : String)
    (h1 : soup_message_headers_get_one self.headers "Server" = some server)
    (h2 : soup_message_headers_get_one self.headers "X-Long-Polling" = some lp) :
    soup_message_headers_get_one (pool_server_run self evs).headers "Server" = some server ∧
    soup_message_headers_get_one (pool_server_run self evs).headers "X-Long-Polling"
      = some lp ∧
    soup_message_headers_get_one (pool_server_run self evs).headers "X-Blocknum" =
      match last_block evs with
      | some b => some (toString b)
      | none => soup_message_headers_get_one self.headers "X-Blocknum" := by
  induction evs generalizing self with
  | nil => exact ⟨h1, h2, rfl⟩
  | cons ev evs ih =>
    have hh := pool_server_step_headers self ev
    have hs1 : soup_message_headers_get_one (pool_server_step self ev).headers "Server"
        = some server := by
      rw [hh]; cases ev <;> simp [get_one_replace, h1]
    have hs2 : soup_message_headers_get_one (pool_server_step self ev).headers
        "X-Long-Polling" = some lp := by
      rw [hh]; cases ev <;> simp [get_one_replace, h2]
    obtain ⟨i1, i2, i3⟩ := ih (pool_server_step self ev) hs1 hs2
    refine ⟨i1, i2, ?_⟩
    simp only [pool_server_run]
    rw [i3]
    simp only [last_block]
    cases hl : last_block evs with
    | some b => rfl
    | none =>
      simp only
      rw [hh]
      cases ev <;> simp [get_one_replace]

/-- C15 (as stated, fails). Right after construction the response headers
hold no `X-Blocknum` header. -/
theorem no_blocknum_after_construction :
    soup_message_headers_get_one (pool_server_new "0.1" []).headers "X-Blocknum" = none ∧
    (pool_server_new "0.1" []).headers =
      [("Server", "pool-dance/0.1"), ("X-Long-Polling", "/lp")] := by
  decide

/-- C15 (as amended). In every state of the pool server from construction
onwards the response headers contain `Server: pool-dance/<version>` and
`X-Long-Polling: /lp`; once a new block has been notified they contain an
`X-Blocknum` header whose value is the decimal number of the block notified
last; before the first notification the pool server has set no `X-Blocknum`
header: the headers hold one only if the headers the JSON-RPC server started
with held it, and then with that value. -/
theorem response_headers (VERSION : String) (hdrs : SoupMessageHeaders)
    (evs : List PoolServerEvent) :
    soup_message_headers_get_one (pool_server_run (pool_server_new VERSION hdrs) evs).headers
      "Server" = some ("pool-dance/" ++ VERSION) ∧
    soup_message_headers_get_one (pool_server_run (pool_server_new VERSION hdrs) evs).headers
      "X-Long-Polling" = some "/lp" ∧
    (∀ b, last_block evs = some b →
      soup_message_headers_get_one
        (pool_server_run (pool_server_new VERSION hdrs) evs).headers "X-Blocknum"
        = some (toString b)) ∧
    (last_block evs = none →
      soup_message_headers_get_one
        (pool_server_run (pool_server_new VERSION hdrs) evs).headers "X-Blocknum"
        = soup_message_headers_get_one hdrs "X-Blocknum") ∧
    (last_block evs = none → soup_message_headers_get_one hdrs "X-Blocknum" = none →
      soup_message_headers_get_one
        (pool_server_run (pool_server_new VERSION hdrs) evs).headers "X-Blocknum" = none) := by
  obtain ⟨h1, h2, h3⟩ := pool_server_run_headers evs (pool_server_new VERSION hdrs)
    ("pool-dance/" ++ VERSION) "/lp"
    (by simp [pool_server_new, get_one_replace, SERVER_NAME])
    (by simp [pool_server_new, get_one_replace, LP_PATH])
  have h0 : soup_message_headers_get_one (pool_server_new VERSION hdrs).headers "X-Blocknum" =
      soup_message_headers_get_one hdrs "X-Blocknum" := by
    simp [pool_server_new, get_one_replace]
  refine ⟨h1, h2, fun b hb => ?_, fun hn => ?_, fun hn h => ?_⟩
  · rw [h3, hb]
  · rw [h3, hn, h0]
  · rw [h3, hn, h0, h]

/-- Two connections are parked and block 101 is notified: the header reads
101; before the notification there is none. -/
theorem response_headers_witness :
    last_block [.request_headers 7 "/lp", .request_headers 8 "/lp", .notify_new_block 101]
      = some 101 ∧
    soup_message_headers_get_one
      (pool_server_run (pool_server_new "0.1" [])
        [.request_headers 7 "/lp", .request_headers 8 "/lp", .notify_new_block 101]).headers
      "X-Blocknum" = some "101" ∧
    soup_message_headers_get_one
      (pool_server_run (pool_server_new "0.1" [])
        [.request_headers 7 "/lp", .request_headers 8 "/lp"]).headers
      "X-Blocknum" = none :=
  ⟨rfl,
    (response_headers "0.1" []
      [.request_headers 7 "/lp", .request_headers 8 "/lp", .notify_new_block 101]).2.2.1 101 rfl,
    (response_headers "0.1" []
      [.request_headers 7 "/lp", .request_headers 8 "/lp"]).2.2.2.2 rfl rfl⟩

theorem in_thread_error_code (H : Sha256) (s : WorkValidator) (wr : WorkResult) (err : GError)
    (h : validate_work_result_in_thread H s wr = some err) : err.code ≠ .SUCCESS := by
  unfold validate_work_result_in_thread at h
  split at h
  · cases h; decide
  · simp only at h
    split at h
    · cases h; decide
    · split at h
      · cases h; decide
      · cases h

/-- An error of a validation never carries the code SUCCESS. -/
theorem validate_error_code (H : Sha256) (s s1 : WorkValidator) (wr : WorkResult)
    (err : GError) (hv : work_validator_validate H s wr = .ok (s1, some err)) :
    err.code ≠ .SUCCESS := by
  by_cases hlen : wr.data.length = 256
  swap
  · rw [validate_bad_length H s wr hlen] at hv
    cases hv; decide
  cases hg : get_tracked_work_by_data s wr.data with
  | mk s0 r =>
    cases r with
    | none =>
      rw [validate_unknown H s s0 wr hlen hg] at hv
      cases hv; decide
    | some p =>
      obtain ⟨ref, tw⟩ := p
      rw [validate_found H s s0 wr ref tw hlen hg] at hv
      split_ifs at hv
      · cases hv; decide
      · cases hv; decide
      · cases hv; decide
      · cases hv; decide
      · generalize hcp : check_previous_block_hash_matches wr.data
            (reference_block_hash s0 tw) = r at hv
        cases r with
        | some e0 =>
          cases hv
          rw [check_previous_code _ _ _ hcp]; decide
        | none =>
          simp only at hv
          exact in_thread_error_code H _ _ err (Prod.mk.inj (Except.ok.inj hv)).2

/-- C16. For every finished validation, the orchestrator answers the miner
with the boolean true and calls `getwork` upstream with the submitted work
exactly when the outcome is SUCCESS; for every other outcome it answers false
and makes no upstream call. -/
theorem only_success_goes_upstream (H : Sha256) (s s1 : WorkValidator) (wr : WorkResult)
    (e : Option GError) (hv : work_validator_validate H s wr = .ok (s1, e)) :
    (outcome e = .SUCCESS ↔
      OrchestratorAction.jsonrpc_respond true ∈ work_validator_on_validate wr e) ∧
    (outcome e = .SUCCESS ↔
      OrchestratorAction.upstream_getwork wr.data ∈ work_validator_on_validate wr e) ∧
    (outcome e ≠ .SUCCESS ↔
      OrchestratorAction.jsonrpc_respond false ∈ work_validator_on_validate wr e) ∧
    (outcome e ≠ .SUCCESS →
      ∀ work, OrchestratorAction.upstream_getwork work ∉ work_validator_on_validate wr e) := by
  cases e with
  | none =>
    simp [outcome, work_validator_on_validate, pool_server_respond_putwork]
  | some err =>
    have hc := validate_error_code H s s1 wr err hv
    simp [outcome, work_validator_on_validate, pool_server_respond_putwork, hc]

/-- The accepted sample submission is answered with true and sent upstream. -/
theorem only_success_goes_upstream_witness :
    work_validator_validate zero_sha sample_state (sample_result alice "1d00ffff" "deadbeef") =
      .ok (state_after zero_sha sample_state
        [.validate (sample_result alice "1d00ffff" "deadbeef")], none) ∧
    OrchestratorAction.jsonrpc_respond true ∈
      work_validator_on_validate (sample_result alice "1d00ffff" "deadbeef") none ∧
    OrchestratorAction.upstream_getwork (sample_result alice "1d00ffff" "deadbeef").data ∈
      work_validator_on_validate (sample_result alice "1d00ffff" "deadbeef") none :=
  have hv : work_validator_validate zero_sha sample_state
      (sample_result alice "1d00ffff" "deadbeef") =
      .ok (state_after zero_sha sample_state
        [.validate (sample_result alice "1d00ffff" "deadbeef")], none) := rfl
  have h := only_success_goes_upstream zero_sha sample_state
    (state_after zero_sha sample_state [.validate (sample_result alice "1d00ffff" "deadbeef")])
    (sample_result alice "1d00ffff" "deadbeef") none hv
  ⟨hv, h.1.mp rfl, h.2.1.mp rfl⟩

/-- Everything the logger holds of the log, in order: the file, then the
string being written, then the queue. -/
theorem write_all_loop_eq (queue : List Bytes) (s : Bytes) :
    write_all_loop queue s = s ++ queue.flatten := by
  induction queue generalizing s with
  | nil => simp [write_all_loop]
  | cons e q ih => simp [write_all_loop, ih]

theorem lines_append (a b : List Bytes) : lines (a ++ b) = lines a ++ lines b := by
  simp [lines]

theorem logs_refl (w : LoggerWorld) : Logs w w :=
  ⟨[], by simp [lines], by simp⟩

theorem logs_trans {a b c : LoggerWorld} (h1 : Logs a b) (h2 : Logs b c) : Logs a c := by
  obtain ⟨e1, t1, l1⟩ := h1
  obtain ⟨e2, t2, l2⟩ := h2
  exact ⟨e1 ++ e2, by rw [t2, t1, lines_append, List.append_assoc],
    by rw [l2, l1, List.append_assoc]⟩

theorem logs_of_eq {w w1 : LoggerWorld} (ht : held w1 = held w) (hl : w1.logged = w.logged) :
    Logs w w1 :=
  ⟨[], by simp [lines, ht], by simp [hl]⟩

theorem write_all_logs (w : LoggerWorld) : Logs w (write_all w) := by
  apply logs_of_eq
  · unfold write_all
    split
    · rfl
    · by_cases hc : (!w.self.frozen && !w.self.flushing && w.self.async_result.isNone) = true
      · simp only [hc, if_true]
        split <;> simp [held, write_all_loop_eq]
      · simp only [hc, if_false, Bool.false_eq_true]
        split <;> rfl
  · unfold write_all
    split
    · rfl
    · by_cases hc : (!w.self.frozen && !w.self.flushing && w.self.async_result.isNone) = true
      · simp only [hc, if_true]
        split <;> rfl
      · simp only [hc, if_false, Bool.false_eq_true]
        split <;> rfl

theorem file_logger_log_logs (w : LoggerWorld) (entry : Bytes) :
    Logs w (file_logger_log w entry) := by
  have h0 : Logs w
      { w with
        self := { w.self with queue := w.self.queue ++ [entry ++ ['\n']] }
        logged := w.logged ++ [entry] } :=
    ⟨[entry], by simp [held, lines], rfl⟩
  unfold file_logger_log
  simp only
  split
  · exact logs_trans h0 (write_all_logs _)
  · exact h0

theorem file_logger_thaw_logs (w : LoggerWorld) : Logs w (file_logger_thaw w) := by
  have h0 : Logs w { w with self := { w.self with frozen := false } } := logs_of_eq rfl rfl
  unfold file_logger_thaw
  simp only
  split
  · exact logs_trans h0 (write_all_logs _)
  · exact h0

theorem file_logger_flush_logs (w : LoggerWorld) (callback : FlushCallback) :
    Logs w (file_logger_flush w callback) := by
  unfold file_logger_flush
  split
  · exact logs_of_eq rfl rfl
  · simp only
    split
    · exact logs_of_eq rfl rfl
    · exact logs_trans (logs_of_eq rfl rfl) (write_all_logs _)

theorem complete_truncate_logs (w : LoggerWorld) (callback : TruncateCallback) (ok : Bool)
    (now : Nat) : Logs w (complete_truncate w callback ok now) := by
  have h0 : Logs w { w with reports := w.reports ++ [.copy_and_truncate_finished ok] } :=
    logs_of_eq rfl rfl
  unfold complete_truncate
  cases callback with
  | other => exact h0
  | on_copy_and_truncate =>
    simp only
    split
    · exact logs_trans h0 (file_logger_log_logs _ _)
    · exact h0

theorem complete_flush_logs (w : LoggerWorld) (callback : FlushCallback) (ok : Bool)
    (now : Nat) : Logs w (complete_flush w callback ok now) := by
  unfold complete_flush
  cases callback with
  | other => exact logs_of_eq rfl rfl
  | copy_and_truncate_on_logger_flushed data =>
    simp only [copy_and_truncate_on_logger_flushed]
    split
    · exact complete_truncate_logs _ _ _ _
    · exact logs_of_eq rfl rfl

theorem file_logger_copy_and_truncate_logs (w : LoggerWorld) (name : Bytes) (t : Nat)
    (callback : TruncateCallback) : Logs w (file_logger_copy_and_truncate w name t callback) := by
  unfold file_logger_copy_and_truncate
  split
  · exact logs_of_eq rfl rfl
  · exact logs_trans (logs_of_eq rfl rfl : Logs w (file_logger_freeze w))
      (file_logger_flush_logs _ _)

theorem on_log_entry_written_logs (w : LoggerWorld) (size : Int) :
    Logs { w with self := { w.self with
        write_all_string := w.self.write_all_string.drop size.toNat } }
      (on_log_entry_written w size) := by
  have key : ∀ w1 : LoggerWorld,
      Logs w1
        (if (w1.self.flushing &&
            decide ((if w1.self.flushing then
              { w1 with self := { w1.self with flushing := false } } else w1).self.write_all_string.length
                > 0)) = true then
          write_all (if w1.self.flushing then
            { w1 with self := { w1.self with flushing := false } } else w1)
        else if (if w1.self.flushing then
            { w1 with self := { w1.self with flushing := false } }
              else w1).self.async_result.isSome = true then
          { (if w1.self.flushing then
              { w1 with self := { w1.self with flushing := false } } else w1) with
            pending := some .flush }
        else write_all (if w1.self.flushing then
            { w1 with self := { w1.self with flushing := false } } else w1)) := by
    intro w1
    by_cases hf : w1.self.flushing = true
    · simp only [hf, if_true, Bool.true_and]
      split
      · exact logs_trans (logs_of_eq rfl rfl) (write_all_logs _)
      · split
        · exact logs_of_eq rfl rfl
        · exact logs_trans (logs_of_eq rfl rfl) (write_all_logs _)
    · simp only [hf, if_false, Bool.false_and, Bool.false_eq_true]
      split
      · exact logs_of_eq rfl rfl
      · exact write_all_logs _
  refine logs_trans ?_ (key _)
  apply logs_of_eq
  · by_cases h1 : size < 0
    · have h0 : size.toNat = 0 := by omega
      simp [h1, held, h0]
    · by_cases h2 : size > 0
      · simp only [h1, h2, if_true, if_false, held]
      · have h0 : size.toNat = 0 := by omega
        simp [h1, h2, held, h0]
  · split
    · rfl
    · split <;> rfl

/-- Every event except a successful truncation keeps the bytes held, in
order, and adds the entries it logs at the end. -/
theorem logger_step_logs (w w1 : LoggerWorld) (ev : LoggerEvent) (hq : NotTruncating ev)
    (hs : logger_step w ev = some w1) : Logs w w1 := by
  cases ev with
  | log entry =>
    cases hs; exact file_logger_log_logs w entry
  | freeze => cases hs; exact logs_of_eq rfl rfl
  | thaw => cases hs; exact file_logger_thaw_logs w
  | flush => cases hs; exact file_logger_flush_logs w _
  | copy_and_truncate name t => cases hs; exact file_logger_copy_and_truncate_logs w _ _ _
  | work_validated code user passw now => cases hs; exact file_logger_log_logs w _
  | block_found name block user passw now =>
    cases hs
    exact logs_trans (file_logger_log_logs w _) (file_logger_copy_and_truncate_logs _ _ _ _)
  | written size =>
    simp only [logger_step] at hs
    split at hs
    · cases hs
      have hw := on_log_entry_written_logs
        { w with
          pending := none
          disk := w.disk ++ w.self.write_all_string.take size.toNat } size
      refine logs_trans ?_ hw
      apply logs_of_eq
      · simp only [held]
        rw [List.append_assoc w.disk, List.take_append_drop]
      · rfl
    · cases hs
  | flushed flush_ok now =>
    simp only [logger_step] at hs
    split at hs
    · cases hs
      unfold on_flush
      simp only
      split
      · exact logs_of_eq rfl rfl
      · exact logs_trans (logs_of_eq rfl rfl) (complete_flush_logs _ _ _ _)
    · cases hs
  | timeout copy_ok truncate_ok now =>
    simp only [logger_step] at hs
    split at hs
    · cases hs
    · cases hs
      have hno : (copy_ok && truncate_ok) = false := by
        simp only [NotTruncating] at hq
        cases copy_ok <;> cases truncate_ok <;> simp_all
      unfold copy_and_truncate_on_timeout
      simp only [hno, Bool.false_eq_true, if_false]
      refine logs_trans ?_ (file_logger_thaw_logs _)
      refine logs_trans ?_ (complete_truncate_logs _ _ _ _)
      split <;> exact logs_of_eq rfl rfl
  | idle now =>
    simp only [logger_step] at hs
    split at hs
    · cases hs
    · cases hs
      exact logs_trans (logs_of_eq rfl rfl) (complete_flush_logs _ _ _ _)
    · cases hs
      exact logs_trans (logs_of_eq rfl rfl) (complete_truncate_logs _ _ _ _)

theorem keeps_trans {a b c : LoggerWorld} (h1 : Keeps a b) (h2 : Keeps b c) : Keeps a c :=
  ⟨h2.1.trans h1.1, h2.2.1.trans h1.2.1, h2.2.2.trans h1.2.2⟩

theorem write_all_keeps (w : LoggerWorld) : Keeps w (write_all w) := by
  unfold write_all
  split
  · exact ⟨rfl, rfl, rfl⟩
  · by_cases hc : (!w.self.frozen && !w.self.flushing && w.self.async_result.isNone) = true
    · simp only [hc, if_true]
      split <;> exact ⟨rfl, rfl, rfl⟩
    · simp only [hc, if_false, Bool.false_eq_true]
      split <;> exact ⟨rfl, rfl, rfl⟩

theorem file_logger_log_plain (w : LoggerWorld) (entry : Bytes) :
    (file_logger_log w entry).self.async_result = w.self.async_result ∧
    (file_logger_log w entry).idle = w.idle ∧
    (file_logger_log w entry).logged = w.logged ++ [entry] := by
  unfold file_logger_log
  simp only
  split
  · have h := write_all_keeps
      { w with
        self := { w.self with queue := w.self.queue ++ [entry ++ ['\n']] }
        logged := w.logged ++ [entry] }
    exact ⟨h.1, h.2.1, h.2.2⟩
  · exact ⟨rfl, rfl, rfl⟩

theorem file_logger_thaw_keeps (w : LoggerWorld) : Keeps w (file_logger_thaw w) := by
  unfold file_logger_thaw
  simp only
  split
  · have h := write_all_keeps { w with self := { w.self with frozen := false } }
    exact ⟨h.1, h.2.1, h.2.2⟩
  · exact ⟨rfl, rfl, rfl⟩

theorem file_logger_flush_plain (w : LoggerWorld) (hp : Plain w) :
    Plain (file_logger_flush w .other) ∧ (file_logger_flush w .other).logged = w.logged := by
  unfold file_logger_flush
  split
  · refine ⟨⟨hp.1, ?_⟩, rfl⟩
    intro c hc
    rcases List.mem_append.mp hc with h | h
    · exact hp.2 c h
    · simpa using h
  · simp only
    split
    · exact ⟨⟨Or.inr rfl, hp.2⟩, rfl⟩
    · have h := write_all_keeps
        { w with self := { w.self with async_result := some .other, flushing := false } }
      refine ⟨⟨Or.inr h.1, ?_⟩, h.2.2⟩
      intro c hc
      rw [h.2.1] at hc
      exact hp.2 c hc

theorem on_log_entry_written_keeps (w : LoggerWorld) (size : Int) :
    Keeps w (on_log_entry_written w size) := by
  have key : ∀ w1 : LoggerWorld,
      Keeps w1
        (if (w1.self.flushing &&
            decide ((if w1.self.flushing then
              { w1 with self := { w1.self with flushing := false } } else w1).self.write_all_string.length
                > 0)) = true then
          write_all (if w1.self.flushing then
            { w1 with self := { w1.self with flushing := false } } else w1)
        else if (if w1.self.flushing then
            { w1 with self := { w1.self with flushing := false } }
              else w1).self.async_result.isSome = true then
          { (if w1.self.flushing then
              { w1 with self := { w1.self with flushing := false } } else w1) with
            pending := some .flush }
        else write_all (if w1.self.flushing then
            { w1 with self := { w1.self with flushing := false } } else w1)) := by
    intro w1
    by_cases hf : w1.self.flushing = true
    · simp only [hf, if_true, Bool.true_and]
      split
      · exact keeps_trans ⟨rfl, rfl, rfl⟩ (write_all_keeps _)
      · split
        · exact ⟨rfl, rfl, rfl⟩
        · exact keeps_trans ⟨rfl, rfl, rfl⟩ (write_all_keeps _)
    · simp only [hf, if_false, Bool.false_and, Bool.false_eq_true]
      split
      · exact ⟨rfl, rfl, rfl⟩
      · exact write_all_keeps _
  refine keeps_trans ?_ (key _)
  split
  · exact ⟨rfl, rfl, rfl⟩
  · split <;> exact ⟨rfl, rfl, rfl⟩

theorem plain_of_keeps {w w1 : LoggerWorld} (hp : Plain w) (hk : Keeps w w1) : Plain w1 := by
  refine ⟨?_, ?_⟩
  · rw [hk.1]; exact hp.1
  · rw [hk.2.1]; exact hp.2

/-- Calls of the logger and completions keep the callbacks plain and add to
the entries logged exactly the entry of a call of `file_logger_log`. -/
theorem logger_step_plain (w w1 : LoggerWorld) (ev : LoggerEvent) (hp : Plain w)
    (ho : LoggerOnly ev) (hs : logger_step w ev = some w1) :
    Plain w1 ∧ w1.logged = w.logged ++ log_calls [ev] := by
  cases ev with
  | log entry =>
    cases hs
    have h := file_logger_log_plain w entry
    refine ⟨⟨?_, ?_⟩, h.2.2⟩
    · rw [h.1]; exact hp.1
    · rw [h.2.1]; exact hp.2
  | freeze => cases hs; exact ⟨⟨hp.1, hp.2⟩, by simp [log_calls, file_logger_freeze]⟩
  | thaw =>
    cases hs
    have h := file_logger_thaw_keeps w
    exact ⟨plain_of_keeps hp h, by simp [log_calls, h.2.2]⟩
  | flush =>
    cases hs
    have h := file_logger_flush_plain w hp
    exact ⟨h.1, by simp [log_calls, h.2]⟩
  | copy_and_truncate name t => exact absurd ho (by simp [LoggerOnly])
  | work_validated code user passw now => exact absurd ho (by simp [LoggerOnly])
  | block_found name block user passw now => exact absurd ho (by simp [LoggerOnly])
  | timeout copy_ok truncate_ok now => exact absurd ho (by simp [LoggerOnly])
  | written size =>
    simp only [logger_step] at hs
    split at hs
    · cases hs
      have h := on_log_entry_written_keeps
        { w with
          pending := none
          disk := w.disk ++ w.self.write_all_string.take size.toNat } size
      exact ⟨plain_of_keeps hp ⟨h.1, h.2.1, h.2.2⟩, by simp [log_calls, h.2.2]⟩
    · cases hs
  | flushed flush_ok now =>
    simp only [logger_step] at hs
    split at hs
    · cases hs
      unfold on_flush
      rcases hp.1 with h | h
      · simp only [h]
        exact ⟨hp, by simp [log_calls]⟩
      · simp only [h, complete_flush]
        exact ⟨⟨Or.inl rfl, hp.2⟩, by simp [log_calls]⟩
    · cases hs
  | idle now =>
    simp only [logger_step] at hs
    split at hs
    · cases hs
    · rename_i callback rest hi
      cases hs
      have hc := hp.2 (.flush_error callback) (by rw [hi]; exact List.mem_cons_self _ _)
      cases hc
      simp only [complete_flush]
      refine ⟨⟨hp.1, ?_⟩, by simp [log_calls]⟩
      intro c hc
      exact hp.2 c (by rw [hi]; exact List.mem_cons_of_mem _ hc)
    · rename_i callback rest hi
      have hc := hp.2 (.truncate_error callback) (by rw [hi]; exact List.mem_cons_self _ _)
      cases hc

theorem log_calls_append (a b : List LoggerEvent) :
    log_calls (a ++ b) = log_calls a ++ log_calls b := by
  induction a with
  | nil => rfl
  | cons ev a ih => cases ev <;> simp [log_calls, ih]

theorem logger_run_logs (w0 : LoggerWorld) (evs : List LoggerEvent) (w : LoggerWorld)
    (hq : ∀ ev ∈ evs, NotTruncating ev) (hr : logger_run w0 evs = some w) : Logs w0 w := by
  induction evs generalizing w0 with
  | nil => cases hr; exact logs_refl _
  | cons ev evs ih =>
    simp only [logger_run] at hr
    cases hs : logger_step w0 ev with
    | none => simp [hs] at hr
    | some w1 =>
      simp only [hs] at hr
      exact logs_trans (logger_step_logs w0 w1 ev (hq ev (List.mem_cons_self _ _)) hs)
        (ih w1 (fun e he => hq e (List.mem_cons_of_mem _ he)) hr)

theorem logger_run_plain (w0 : LoggerWorld) (evs : List LoggerEvent) (w : LoggerWorld)
    (hp : Plain w0) (ho : ∀ ev ∈ evs, LoggerOnly ev) (hr : logger_run w0 evs = some w) :
    w.logged = w0.logged ++ log_calls evs := by
  induction evs generalizing w0 with
  | nil => cases hr; simp [log_calls]
  | cons ev evs ih =>
    simp only [logger_run] at hr
    cases hs : logger_step w0 ev with
    | none => simp [hs] at hr
    | some w1 =>
      simp only [hs] at hr
      have h1 := logger_step_plain w0 w1 ev hp (ho ev (List.mem_cons_self _ _)) hs
      have h2 := ih w1 h1.1 (fun e he => ho e (List.mem_cons_of_mem _ he)) hr
      rw [h2, h1.2, List.append_assoc, ← log_calls_append]
      rfl

/-- C17. Starting from a logger on a file holding `content`, after any run of
events in which no truncation takes place (calls of log, freeze, thaw, flush,
the handlers of the round manager, completions of writes with the bytes
written, of flushes, failed copy-and-truncates), the bytes in the file followed
by the string being written followed by the queued entries are `content`
followed by every logged entry with its newline, in call order; so the file
holds a prefix of that. When the events are only calls of the logger and
completions, the logged entries are those of the log calls in order. -/
theorem disk_is_prefix_of_log (file : Bool) (content : Bytes) (evs : List LoggerEvent)
    (w : LoggerWorld) (hq : ∀ ev ∈ evs, NotTruncating ev)
    (hr : logger_run (new_logger file content) evs = some w) :
    w.disk ++ w.self.write_all_string ++ w.self.queue.flatten = content ++ lines w.logged ∧
    w.disk <+: content ++ lines w.logged ∧
    ((∀ ev ∈ evs, LoggerOnly ev) → w.logged = log_calls evs) := by
  obtain ⟨entries, ht, hl⟩ := logger_run_logs _ evs w hq hr
  have hl1 : w.logged = entries := by simpa [new_logger] using hl
  have hh : w.disk ++ w.self.write_all_string ++ w.self.queue.flatten
      = content ++ lines w.logged := by
    rw [hl1]
    simpa [held, new_logger] using ht
  refine ⟨hh, ?_, ?_⟩
  · rw [← hh, List.append_assoc]
    exact List.prefix_append _ _
  · intro ho
    have h := logger_run_plain _ evs w
      (⟨Or.inl rfl, by simp [new_logger]⟩ : Plain (new_logger file content)) ho hr
    simpa [new_logger] using h

theorem disk_is_prefix_of_log_witness :
    (∀ ev ∈ logging_events, NotTruncating ev) ∧
    logger_run (new_logger true []) logging_events = some logging_world ∧
    logging_world.disk = "first\nsec".data ∧
    logging_world.self.write_all_string = "ond\n".data ∧
    logging_world.self.queue = ["third\n".data] ∧
    logging_world.logged = ["first".data, "second".data, "third".data] ∧
    (logging_world.disk ++ logging_world.self.write_all_string ++
        logging_world.self.queue.flatten = [] ++ lines logging_world.logged ∧
      logging_world.disk <+: [] ++ lines logging_world.logged ∧
      ((∀ ev ∈ logging_events, LoggerOnly ev) → logging_world.logged = log_calls logging_events)) :=
  ⟨by decide, by decide, by decide, by decide, by decide, by decide,
    disk_is_prefix_of_log true [] logging_events logging_world (by decide) (by decide)⟩

/-- C18. A flush requested while a write is pending completes successfully
with the entry logged before it still in the queue and not in the file; and
after two short writes it completes with bytes left in the string being
written. -/
theorem flush_completes_with_entries_unwritten :
    (logger_run (new_logger true []) flush_events).map
        (fun w => (w.reports, w.self.queue, w.self.write_all_string, w.disk, w.logged)) =
      some ([.flush_finished true], ["B\n".data], [], "A\n".data, ["A".data, "B".data]) ∧
    (logger_run (new_logger true []) short_write_events).map
        (fun w => (w.reports, w.self.queue, w.self.write_all_string, w.disk, w.logged)) =
      some ([.flush_finished true], [], "CD\n".data, "AB".data, ["ABCD".data]) :=
  ⟨rfl, rfl⟩

/-- C19. When the round file did not exist and was created, a block-found
event ends with the copy-and-truncate refused: no copy is made, no timeout is
armed, the round file keeps its records and gets no STARTED record. With the
same events on a round file that existed the rotation takes place. -/
theorem rotation_refused_after_create :
    (logger_run (init_log_file none 1) created_round_events).map
        (fun w => (w.reports, w.copies, w.timeouts, w.disk, w.self.queue, w.pending)) =
      some ([.copy_and_truncate_finished false], [], [],
        "1\tSTARTED\n2\tBLOCK\t100\t\"u\"\t\"p\"\n".data, [], none) ∧
    (logger_run (init_log_file none 1) resumed_round_events) = none ∧
    (logger_run (init_log_file (some []) 1) resumed_round_events).map
        (fun w => (w.reports, w.copies, w.timeouts, w.disk, w.self.queue, w.pending)) =
      some ([.copy_and_truncate_finished true],
        [("round.100".data, "1\tRESUMED\n2\tBLOCK\t100\t\"u\"\t\"p\"\n".data)], [],
        "3\tSTARTED\n".data, [], none) :=
  ⟨rfl, rfl, rfl⟩

/-- C20. A block found while the write of an earlier record is pending: the
copy is made without the BLOCK record, and the round file afterwards holds
two records, BLOCK and then STARTED. -/
theorem rotated_copy_misses_block_record :
    (logger_run (init_log_file (some []) 1) busy_round_events).map
        (fun w => (w.reports, w.copies, w.disk, w.self.queue, w.pending, w.logged)) =
      some ([.copy_and_truncate_finished true],
        [("round.100".data, "1\tRESUMED\n2\tSHARE\t0\t\"u\"\t\"p\"\n".data)],
        "3\tBLOCK\t100\t\"u\"\t\"p\"\n4\tSTARTED\n".data, [], none,
        ["1\tRESUMED".data, "2\tSHARE\t0\t\"u\"\t\"p\"".data,
          "3\tBLOCK\t100\t\"u\"\t\"p\"".data, "4\tSTARTED".data]) :=
  rfl

theorem range_filterMap_getElem (data : Hex) (a n : Nat) :
    (List.range n).filterMap (fun i => data[a + i]?) = (data.drop a).take n := by
  induction n with
  | zero => simp
  | succ n ih =>
    rw [List.range_succ, List.filterMap_append, ih, List.take_succ, List.getElem?_drop]
    cases h : data[a + n]? <;> simp [h]

theorem hex_chars_eq (data : Hex) (a b : Nat) :
    hex_chars data a b = (data.drop a).take (b - a) :=
  range_filterMap_getElem data a (b - a)

/-- C21 (as stated, fails). The sample submission is 256 characters long, its
characters 144..208 are not the key of any entry, and the lookup of phase 1
finds the entry registered for it: the key is not characters 144..208. -/
theorem merkle_root_is_not_chars_144_208 :
    (sample_result alice "1d00ffff" "deadbeef").data.length = 256 ∧
    work_data_get_merkle_root_hex (sample_result alice "1d00ffff" "deadbeef").data ≠
      hex_chars (sample_result alice "1d00ffff" "deadbeef").data 144 208 ∧
    find_tracked sample_state
      (hex_chars (sample_result alice "1d00ffff" "deadbeef").data 144 208) = none ∧
    looked_up sample_state (sample_result alice "1d00ffff" "deadbeef").data =
      some sample_tracked := by
  decide

/-- C21 (as amended). For every 256-character data string, the merkle root
that phase 1 uses as the key is the substring of characters 72..136 of data:
it has 64 characters, the lookup returns the entry of the current table under
that key, else the entry of the previous table under that key marked
possibly stale, and a registration stores its entry under that key. -/
theorem merkle_root_is_chars_72_136 (s : WorkValidator) (data : Hex)
    (hlen : data.length = 256) :
    work_data_get_merkle_root_hex data = hex_chars data 72 136 ∧
    (hex_chars data 72 136).length = 64 ∧
    looked_up s data =
      (match g_hash_table_lookup s.work_by_merkle_root (hex_chars data 72 136) with
        | some tw => some tw
        | none =>
          (lookup_previous s (hex_chars data 72 136)).map
            (fun tw => { tw with possible_stale := true })) ∧
    ∀ user ps, ∃ s1, work_validator_track_work_sent s user data ps = .ok s1 ∧
      g_hash_table_lookup s1.work_by_merkle_root (hex_chars data 72 136) =
        some ⟨user, data.take 8, (data.drop 136).take 8, [], ps⟩ := by
  have hk : work_data_get_merkle_root_hex data = hex_chars data 72 136 := by
    rw [hex_chars_eq]; rfl
  refine ⟨hk, ?_, ?_, ?_⟩
  · rw [hex_chars_eq]; simp [hlen]
  · rw [← hk]
    rcases get_tracked_cases s data with ⟨h1, h2, h3⟩ | ⟨tw, h1, h3⟩ | ⟨tw, h1, h2, h3⟩
    · simp [looked_up, h3, h1, h2]
    · simp [looked_up, h3, h1]
    · simp [looked_up, h3, h1, h2]
  · intro user ps
    refine ⟨{ s with
      work_by_merkle_root :=
        g_hash_table_insert s.work_by_merkle_root (work_data_get_merkle_root_hex data)
          ⟨user, data.take 8, (data.drop 136).take 8, [], ps⟩ },
      by simp [work_validator_track_work_sent, hlen], ?_⟩
    rw [← hk, lookup_insert]
    simp

theorem merkle_root_is_chars_72_136_witness :
    (sample_result alice "1d00ffff" "deadbeef").data.length = 256 ∧
    work_data_get_merkle_root_hex (sample_result alice "1d00ffff" "deadbeef").data =
      sample_merkle_root ∧
    (work_data_get_merkle_root_hex (sample_result alice "1d00ffff" "deadbeef").data =
        hex_chars (sample_result alice "1d00ffff" "deadbeef").data 72 136 ∧
      (hex_chars (sample_result alice "1d00ffff" "deadbeef").data 72 136).length = 64 ∧
      looked_up sample_state (sample_result alice "1d00ffff" "deadbeef").data =
        (match g_hash_table_lookup sample_state.work_by_merkle_root
            (hex_chars (sample_result alice "1d00ffff" "deadbeef").data 72 136) with
          | some tw => some tw
          | none =>
            (lookup_previous sample_state
                (hex_chars (sample_result alice "1d00ffff" "deadbeef").data 72 136)).map
              (fun tw => { tw with possible_stale := true })) ∧
      ∀ user ps, ∃ s1,
        work_validator_track_work_sent sample_state user
          (sample_result alice "1d00ffff" "deadbeef").data ps = .ok s1 ∧
        g_hash_table_lookup s1.work_by_merkle_root
            (hex_chars (sample_result alice "1d00ffff" "deadbeef").data 72 136) =
          some ⟨user, (sample_result alice "1d00ffff" "deadbeef").data.take 8,
            ((sample_result alice "1d00ffff" "deadbeef").data.drop 136).take 8, [], ps⟩) :=
  ⟨by decide, by decide,
    merkle_root_is_chars_72_136 sample_state (sample_result alice "1d00ffff" "deadbeef").data
      (by decide)⟩

/-- Phase 1 for a submission that reaches the last check: the nonce is
recorded and the result is that of the comparison of the previous-block
field. -/
theorem prevalidate_last_check (s s0 : WorkValidator) (wr : WorkResult)
    (ref : TableRef) (tw : TrackedWork)
    (hlen : wr.data.length = 256)
    (hg : get_tracked_work_by_data s wr.data = (s0, some (ref, tw)))
    (hver : tw.version = wr.data.take 8) (hts : tw.timestamp = (wr.data.drop 136).take 8)
    (hn : work_data_get_nonce wr.data ∉ tw.nonces)
    (hcount : tw.nonce_count < TRACK_NONCE_MAX) (huser : tw.user = wr.user) :
    prevalidate_work_result s wr =
      .ok (store_tracked_work s0 ref (work_data_get_merkle_root_hex wr.data)
          { tw with nonces := tw.nonces ++ [work_data_get_nonce wr.data] },
        marked wr tw,
        check_previous_block_hash_matches wr.data (reference_block_hash s tw)) := by
  have hbh : ∀ v, (store_tracked_work s0 ref (work_data_get_merkle_root_hex wr.data) v).block_hash
      = s.block_hash := by
    intro v
    rw [(store_frame s0 ref _ v).2.1]
    exact (get_tracked_evolved s s0 wr.data _ hg).1.2.1
  have hbp : ∀ v,
      (store_tracked_work s0 ref (work_data_get_merkle_root_hex wr.data) v).block_hash_prev
      = s.block_hash_prev := by
    intro v
    rw [(store_frame s0 ref _ v).2.2]
    exact (get_tracked_evolved s s0 wr.data _ hg).1.2.2.1
  simp only [prevalidate_work_result, hlen, hg, ne_eq, not_true_eq_false, if_false,
    check_merkle_root_and_nonce_is_unique, marked, hbh, hbp, reference_block_hash]
  by_cases hs : tw.possible_stale = true <;>
    simp [hver.symm, hts.symm, hn, hcount, huser, hs]

/-- The comparison of the previous-block field, with the field taken by
position. -/
theorem check_previous_eq (data : Hex) (bh : Option Hex) :
    check_previous_block_hash_matches data bh =
      if some (hex_chars data 8 72) = bh then none
      else some ⟨.INVALID, "Previous block hash mismatch"⟩ := by
  rw [hex_chars_eq]
  unfold check_previous_block_hash_matches
  by_cases h : some ((data.drop 8).take (72 - 8)) = bh
  · simp [h]
  · simp only [h, if_false]
    rw [if_pos]
    exact h

/-- C22 (as stated, fails). The sample submission reaches the last check of
phase 1 in the sample state and passes it, and is accepted; its characters
8..72 are the current block hash, its characters 16..80 are not. -/
theorem previous_hash_is_not_chars_16_80 :
    looked_up sample_state (sample_result alice "1d00ffff" "deadbeef").data =
      some sample_tracked ∧
    some (hex_chars (sample_result alice "1d00ffff" "deadbeef").data 16 80) ≠
      sample_state.block_hash ∧
    some (hex_chars (sample_result alice "1d00ffff" "deadbeef").data 8 72) =
      sample_state.block_hash ∧
    (prevalidate_work_result sample_state
        (sample_result alice "1d00ffff" "deadbeef")).toOption.map (fun r => r.2.2) =
      some none ∧
    (work_validator_validate zero_sha sample_state
        (sample_result alice "1d00ffff" "deadbeef")).toOption.map (fun r => outcome r.2) =
      some .SUCCESS := by
  decide

/-- C22 (as amended). For every submission reaching the last check of phase 1
(256 characters, tracked work found, matching version and timestamp, a new
nonce with room to record it, matching user), the previous-block field is
characters 8..72 of data; it is compared for equality with the current block
hash when the tracked work is not possibly stale and with the previous block
hash when it is; phase 1 sets no error when they are equal, and any mismatch
yields INVALID. -/
theorem previous_hash_is_chars_8_72 (H : Sha256) (s s0 : WorkValidator) (wr : WorkResult)
    (ref : TableRef) (tw : TrackedWork)
    (hlen : wr.data.length = 256)
    (hg : get_tracked_work_by_data s wr.data = (s0, some (ref, tw)))
    (hver : tw.version = wr.data.take 8) (hts : tw.timestamp = (wr.data.drop 136).take 8)
    (hn : work_data_get_nonce wr.data ∉ tw.nonces)
    (hcount : tw.nonce_count < TRACK_NONCE_MAX) (huser : tw.user = wr.user) :
    ∃ s1 wr1,
      prevalidate_work_result s wr =
        .ok (s1, wr1,
          if some (hex_chars wr.data 8 72) =
              (if tw.possible_stale then s.block_hash_prev else s.block_hash) then none
          else some ⟨.INVALID, "Previous block hash mismatch"⟩) ∧
      (some (hex_chars wr.data 8 72) ≠
          (if tw.possible_stale then s.block_hash_prev else s.block_hash) →
        work_validator_validate H s wr =
          .ok (s1, some ⟨.INVALID, "Previous block hash mismatch"⟩)) := by
  have hp := prevalidate_last_check s s0 wr ref tw hlen hg hver hts hn hcount huser
  rw [check_previous_eq] at hp
  refine ⟨_, _, hp, fun hne => ?_⟩
  unfold work_validator_validate
  rw [hp]
  simp only [reference_block_hash] at hne ⊢
  rw [if_neg hne]

theorem previous_hash_is_chars_8_72_witness :
    some (hex_chars (sample_result alice "1d00ffff" "deadbeef").data 8 72) =
      sample_state.block_hash ∧
    ∃ s1 wr1,
      prevalidate_work_result sample_state (sample_result alice "1d00ffff" "deadbeef") =
        .ok (s1, wr1,
          if some (hex_chars (sample_result alice "1d00ffff" "deadbeef").data 8 72) =
              (if sample_tracked.possible_stale then sample_state.block_hash_prev
                else sample_state.block_hash) then none
          else some ⟨.INVALID, "Previous block hash mismatch"⟩) ∧
      (some (hex_chars (sample_result alice "1d00ffff" "deadbeef").data 8 72) ≠
          (if sample_tracked.possible_stale then sample_state.block_hash_prev
            else sample_state.block_hash) →
        work_validator_validate zero_sha sample_state
            (sample_result alice "1d00ffff" "deadbeef") =
          .ok (s1, some ⟨.INVALID, "Previous block hash mismatch"⟩)) :=
  ⟨by decide,
    previous_hash_is_chars_8_72 zero_sha sample_state sample_state
      (sample_result alice "1d00ffff" "deadbeef") .current sample_tracked
      (by decide) (by decide) (by decide) (by decide) (by decide) (by decide) (by decide)⟩

theorem lookup_none_iff (t : Table) (k : Hex) :
    g_hash_table_lookup t k = none ↔ k ∉ t.map Prod.fst := by
  induction t with
  | nil => simp [g_hash_table_lookup]
  | cons p t ih =>
    obtain ⟨k0, v0⟩ := p
    by_cases h : k0 = k
    · subst h
      simp only [g_hash_table_lookup, if_true, List.map_cons, List.mem_cons, true_or,
        not_true_eq_false]
      exact ⟨fun hn => Option.noConfusion hn, fun hn => hn.elim⟩
    · simp only [g_hash_table_lookup, h, if_false, ih, List.map_cons, List.mem_cons, not_or]
      exact ⟨fun hn => ⟨fun hk => h hk.symm, hn⟩, fun hn => hn.2⟩

theorem insert_keys (t : Table) (k : Hex) (v : TrackedWork) :
    (g_hash_table_insert t k v).map Prod.fst =
      if k ∈ t.map Prod.fst then t.map Prod.fst else t.map Prod.fst ++ [k] := by
  induction t with
  | nil => simp [g_hash_table_insert]
  | cons p t ih =>
    obtain ⟨k0, v0⟩ := p
    by_cases h : k0 = k
    · subst h
      simp only [g_hash_table_insert, if_true, List.map_cons, List.mem_cons, true_or]
    · have h1 : ¬ k = k0 := fun hk => h hk.symm
      simp only [g_hash_table_insert, h, if_false, List.map_cons, ih, List.mem_cons, h1,
        false_or]
      split <;> simp

theorem insert_uniqueKeys (t : Table) (k : Hex) (v : TrackedWork) (h : UniqueKeys t) :
    UniqueKeys (g_hash_table_insert t k v) := by
  unfold UniqueKeys at h ⊢
  rw [insert_keys]
  split
  · exact h
  · rename_i hk
    rw [List.nodup_append]
    refine ⟨h, List.nodup_singleton k, ?_⟩
    intro a ha hb
    rw [List.mem_singleton] at hb
    exact hk (hb ▸ ha)

theorem write_keys (t : Table) (k : Hex) (v : TrackedWork) :
    (table_write t k v).map Prod.fst = t.map Prod.fst := by
  induction t with
  | nil => rfl
  | cons p t ih =>
    obtain ⟨k0, v0⟩ := p
    by_cases h : k0 = k <;> simp [table_write, h, ih]

theorem entries_insert_other (t : Table) (k : Hex) (v : TrackedWork) (key : Hex)
    (hne : key ≠ k) :
    entries_for (g_hash_table_insert t k v) key = entries_for t key := by
  induction t with
  | nil =>
    have h1 : ¬ k = key := fun h => hne h.symm
    simp [g_hash_table_insert, entries_for, h1]
  | cons p t ih =>
    obtain ⟨k0, v0⟩ := p
    unfold entries_for at ih ⊢
    by_cases h : k0 = k
    · subst h
      have h1 : ¬ k0 = key := fun hk => hne hk.symm
      simp only [g_hash_table_insert, if_true, List.filter_cons, h1, decide_False,
        Bool.false_eq_true, if_false]
    · simp only [g_hash_table_insert, h, if_false, List.filter_cons, ih]

theorem entries_insert_same (t : Table) (k : Hex) (v old : TrackedWork)
    (hu : UniqueKeys t) (hin : g_hash_table_lookup t k = some old) :
    entries_for (g_hash_table_insert t k v) k = [(k, v)] := by
  induction t with
  | nil => simp [g_hash_table_lookup] at hin
  | cons p t ih =>
    obtain ⟨k0, v0⟩ := p
    unfold UniqueKeys at hu
    rw [List.map_cons, List.nodup_cons] at hu
    by_cases h : k0 = k
    · subst h
      have hnone : ∀ q ∈ t, ¬ (q.1 = k0) := by
        intro q hq hk
        exact hu.1 (List.mem_map.mpr ⟨q, hq, hk⟩)
      have hf : t.filter (fun q => decide (q.1 = k0)) = [] := by
        rw [List.filter_eq_nil_iff]
        intro q hq
        simpa using hnone q hq
      simp [g_hash_table_insert, entries_for, List.filter_cons, hf]
    · have hin1 : g_hash_table_lookup t k = some old := by
        simpa [g_hash_table_lookup, h] using hin
      have := ih hu.2 hin1
      unfold entries_for at this ⊢
      simp [g_hash_table_insert, h, List.filter_cons, this]

/-- A validation keeps the keys of the current table. -/
theorem validate_keys (H : Sha256) (s s1 : WorkValidator) (wr : WorkResult)
    (e : Option GError) (hv : work_validator_validate H s wr = .ok (s1, e)) :
    s1.work_by_merkle_root.map Prod.fst = s.work_by_merkle_root.map Prod.fst := by
  have hstore : ∀ (s0 : WorkValidator) (ref : TableRef) (k : Hex) (v : TrackedWork),
      (store_tracked_work s0 ref k v).work_by_merkle_root.map Prod.fst =
        s0.work_by_merkle_root.map Prod.fst := by
    intro s0 ref k v
    cases ref
    · exact write_keys _ _ _
    · rfl
  by_cases hlen : wr.data.length = 256
  · rcases get_tracked_cases s wr.data with ⟨_, _, h3⟩ | ⟨tw, _, h3⟩ | ⟨tw, _, _, h3⟩
    · rw [validate_unknown H s s wr hlen h3] at hv
      cases hv; rfl
    · rw [validate_found H s s wr _ tw hlen h3] at hv
      split at hv
      · cases hv; rfl
      · split at hv
        · cases hv; rfl
        · split at hv
          · cases hv; rfl
          · split at hv
            · split at hv
              · cases hv; exact hstore _ _ _ _
              · split at hv <;> (cases hv; exact hstore _ _ _ _)
            · cases hv
    · rw [validate_found H s _ wr _ _ hlen h3] at hv
      split at hv
      · cases hv; rfl
      · split at hv
        · cases hv; rfl
        · split at hv
          · cases hv; rfl
          · split at hv
            · split at hv
              · cases hv; exact (hstore _ _ _ _).trans rfl
              · split at hv <;> (cases hv; exact (hstore _ _ _ _).trans rfl)
            · cases hv
  · rw [validate_bad_length H s wr hlen] at hv
    cases hv; rfl

theorem step_uniqueKeys (H : Sha256) (s s1 : WorkValidator) (ev : Event)
    (hu : UniqueKeys s.work_by_merkle_root) (hs : step H s ev = .ok s1) :
    UniqueKeys s1.work_by_merkle_root := by
  cases ev with
  | set_target target => cases hs; exact hu
  | track_work_sent user data ps =>
    simp only [step, work_validator_track_work_sent] at hs
    split at hs
    · cases hs
    · cases hs; exact insert_uniqueKeys _ _ _ hu
  | validate wr =>
    simp only [step] at hs
    cases hv : work_validator_validate H s wr with
    | error f => rw [hv] at hs; cases hs
    | ok r =>
      obtain ⟨s2, e⟩ := r
      rw [hv] at hs
      cases hs
      unfold UniqueKeys
      rw [validate_keys H s s1 wr e hv]
      exact hu
  | notify_new_block block =>
    simp only [step] at hs
    rw [notify_new_block_ok s s1 block hs]
    exact List.nodup_nil
  | on_block_hash result =>
    simp only [step, on_block_hash] at hs
    cases result with
    | none => cases hs; exact hu
    | some h =>
      simp only at hs
      split at hs
      · cases hs
      · cases hs; exact hu

/-- C23. In every state reached from `work_validator_new`, registering a
256-character template whose merkle root is already in the current table
replaces the entry: afterwards the table holds exactly one entry under that
merkle root, with the user, version and timestamp of this registration and no
nonce recorded; the entries under every other key, the previous table, the
block hashes and the target are unchanged. -/
theorem track_work_sent_replaces (H : Sha256) (evs : List Event) (s : WorkValidator)
    (user : Option Hex) (data : Hex) (ps : Bool) (old : TrackedWork)
    (hr : run H work_validator_new evs = .ok s) (hlen : data.length = 256)
    (hin : g_hash_table_lookup s.work_by_merkle_root (work_data_get_merkle_root_hex data) =
      some old) :
    ∃ s1, work_validator_track_work_sent s user data ps = .ok s1 ∧
      entries_for s1.work_by_merkle_root (work_data_get_merkle_root_hex data) =
        [(work_data_get_merkle_root_hex data,
          { user := user
            version := data.take 8
            timestamp := (data.drop 136).take 8
            nonces := []
            possible_stale := ps })] ∧
      (∀ key, key ≠ work_data_get_merkle_root_hex data →
        entries_for s1.work_by_merkle_root key = entries_for s.work_by_merkle_root key) ∧
      s1.work_by_merkle_root.map Prod.fst = s.work_by_merkle_root.map Prod.fst ∧
      s1.work_by_merkle_root_prev = s.work_by_merkle_root_prev ∧
      s1.block_hash = s.block_hash ∧ s1.block_hash_prev = s.block_hash_prev ∧
      s1.target = s.target := by
  have hu : UniqueKeys s.work_by_merkle_root :=
    run_induction H (fun st => UniqueKeys st.work_by_merkle_root) (fun _ => True)
      (fun st ev st1 hp _ hs => step_uniqueKeys H st st1 ev hp hs)
      evs work_validator_new s List.nodup_nil (fun _ _ => trivial) hr
  have hmem : work_data_get_merkle_root_hex data ∈ s.work_by_merkle_root.map Prod.fst := by
    by_contra hno
    rw [(lookup_none_iff _ _).mpr hno] at hin
    cases hin
  refine ⟨{ s with
    work_by_merkle_root :=
      g_hash_table_insert s.work_by_merkle_root (work_data_get_merkle_root_hex data)
        ⟨user, data.take 8, (data.drop 136).take 8, [], ps⟩ },
    by simp [work_validator_track_work_sent, hlen], ?_, ?_, ?_, rfl, rfl, rfl, rfl⟩
  · exact entries_insert_same _ _ _ old hu hin
  · intro key hne
    exact entries_insert_other _ _ _ key hne
  · show (g_hash_table_insert _ _ _).map Prod.fst = _
    rw [insert_keys, if_pos hmem]

theorem track_work_sent_replaces_witness :
    ∃ s1, work_validator_track_work_sent sample_state bob
        (sample_data "1d00ffff".data "00000000".data) true = .ok s1 ∧
      entries_for s1.work_by_merkle_root
          (work_data_get_merkle_root_hex (sample_data "1d00ffff".data "00000000".data)) =
        [(work_data_get_merkle_root_hex (sample_data "1d00ffff".data "00000000".data),
          { user := bob
            version := (sample_data "1d00ffff".data "00000000".data).take 8
            timestamp := ((sample_data "1d00ffff".data "00000000".data).drop 136).take 8
            nonces := []
            possible_stale := true })] ∧
      (∀ key, key ≠ work_data_get_merkle_root_hex (sample_data "1d00ffff".data "00000000".data) →
        entries_for s1.work_by_merkle_root key =
          entries_for sample_state.work_by_merkle_root key) ∧
      s1.work_by_merkle_root.map Prod.fst = sample_state.work_by_merkle_root.map Prod.fst ∧
      s1.work_by_merkle_root_prev = sample_state.work_by_merkle_root_prev ∧
      s1.block_hash = sample_state.block_hash ∧
      s1.block_hash_prev = sample_state.block_hash_prev ∧
      s1.target = sample_state.target :=
  track_work_sent_replaces zero_sha sample_events sample_state bob
    (sample_data "1d00ffff".data "00000000".data) true sample_tracked rfl (by decide)
    (by decide)

theorem step_in_gap (H : Sha256) (s s1 : WorkValidator) (ev : Event) (hq : InGap ev)
    (hs : step H s ev = .ok s1) :
    s1.block_hash = s.block_hash ∧ s1.block_hash_prev = s.block_hash_prev := by
  cases ev with
  | set_target target => cases hs; exact ⟨rfl, rfl⟩
  | track_work_sent user data ps =>
    simp only [step, work_validator_track_work_sent] at hs
    split at hs
    · cases hs
    · cases hs; exact ⟨rfl, rfl⟩
  | validate wr =>
    simp only [step] at hs
    cases hv : work_validator_validate H s wr with
    | error f => rw [hv] at hs; cases hs
    | ok r =>
      obtain ⟨s2, e⟩ := r
      rw [hv] at hs
      cases hs
      have he := validate_evolved H s s1 wr e hv
      exact ⟨he.2.1, he.2.2.1⟩
  | notify_new_block block => exact hq.elim
  | on_block_hash result =>
    cases result with
    | none => cases hs; exact ⟨rfl, rfl⟩
    | some h => exact hq.elim

/-- A second new block arrives before the hash of the first is stored: the
buffer of the current block hash is released while `block_hash` still points
to it. -/
theorem second_notification_in_gap_faults :
    run zero_sha sample_state [.notify_new_block 101, .notify_new_block 102] =
      .error .block_hash_freed ∧
    run zero_sha sample_state
      [.notify_new_block 101, .on_block_hash (some next_block_hash), .notify_new_block 102] =
      .ok (state_after zero_sha stale_state
        [.on_block_hash (some next_block_hash), .notify_new_block 102]) :=
  ⟨rfl, rfl⟩

/-- C24 (as stated, fails). Block 101 is announced after block 100 and its
hash is not stored yet: the current block hash is still the one of block 100.
A submission built on block 100, for a template handed out after the
announcement, passes the previous-block check at once and leaves phase 1
without error and without the stale mark; a submission built on block 101 is
rejected at once with a previous-block mismatch. -/
theorem pre_block_hash_is_current_in_gap :
    gap_state.block_num = 101 ∧
    gap_state.block_hash = some (block_hash_groups sample_block_hash 8) ∧
    gap_state.block_hash = sample_state.block_hash ∧
    looked_up gap_state (sample_result alice "1d00ffff" "deadbeef").data =
      some sample_tracked ∧
    some (hex_chars (sample_result alice "1d00ffff" "deadbeef").data 8 72) =
      gap_state.block_hash ∧
    (prevalidate_work_result gap_state
        (sample_result alice "1d00ffff" "deadbeef")).toOption.map
        (fun r => (r.2.2, r.2.1.stale)) = some (none, false) ∧
    hex_chars (next_result alice "1d00ffff" "deadbeef").data 8 72 =
      block_hash_groups next_block_hash 8 ∧
    (prevalidate_work_result gap_state
        (next_result alice "1d00ffff" "deadbeef")).toOption.map (fun r => r.2.2) =
      some (some ⟨.INVALID, "Previous block hash mismatch"⟩) := by
  decide

/-- C24 (as amended). After a `work_validator_notify_new_block` that returns
(none is still waiting for its hash, or no hash was stored yet) and until the
result of `getblockhash` is stored, the current block hash keeps the value it
had before the announcement and the previous block hash equals it. A
submission validated in the gap is neither delayed nor rejected for the gap:
when it reaches the previous-block check it is judged at once against that
earlier hash, goes on to phase 2 when its field equals it and is INVALID
otherwise. -/
theorem gap_keeps_earlier_block_hash (H : Sha256) (s sn : WorkValidator) (n : Nat)
    (evs : List Event) (s1 : WorkValidator)
    (hnb : work_validator_notify_new_block s n = .ok sn)
    (hq : ∀ ev ∈ evs, InGap ev)
    (hr : run H sn evs = .ok s1) :
    s1.block_hash = s.block_hash ∧ s1.block_hash_prev = s.block_hash ∧
    ∀ (s0 : WorkValidator) (wr : WorkResult) (ref : TableRef) (tw : TrackedWork),
      wr.data.length = 256 →
      get_tracked_work_by_data s1 wr.data = (s0, some (ref, tw)) →
      tw.version = wr.data.take 8 → tw.timestamp = (wr.data.drop 136).take 8 →
      work_data_get_nonce wr.data ∉ tw.nonces →
      tw.nonce_count < TRACK_NONCE_MAX → tw.user = wr.user →
      ∃ s2,
        prevalidate_work_result s1 wr =
          .ok (s2, marked wr tw,
            if some (hex_chars wr.data 8 72) = s.block_hash then none
            else some ⟨.INVALID, "Previous block hash mismatch"⟩) ∧
        work_validator_validate H s1 wr =
          .ok (s2,
            if some (hex_chars wr.data 8 72) = s.block_hash then
              validate_work_result_in_thread H s2 (marked wr tw)
            else some ⟨.INVALID, "Previous block hash mismatch"⟩) := by
  have hP := run_induction H
    (fun st => st.block_hash = s.block_hash ∧ st.block_hash_prev = s.block_hash) InGap
    (fun st ev st1 hp hq hs =>
      ⟨(step_in_gap H st st1 ev hq hs).1.trans hp.1, (step_in_gap H st st1 ev hq hs).2.trans hp.2⟩)
    evs sn s1 (by rw [notify_new_block_ok s sn n hnb]; exact ⟨rfl, rfl⟩) hq hr
  refine ⟨hP.1, hP.2, ?_⟩
  intro s0 wr ref tw hlen hg hver hts hn hcount huser
  have hp := prevalidate_last_check s1 s0 wr ref tw hlen hg hver hts hn hcount huser
  have href : reference_block_hash s1 tw = s.block_hash := by
    unfold reference_block_hash
    split
    · exact hP.2
    · exact hP.1
  rw [check_previous_eq, href] at hp
  refine ⟨_, hp, ?_⟩
  unfold work_validator_validate
  rw [hp]
  by_cases hc : some (hex_chars wr.data 8 72) = s.block_hash
  · simp only [hc, if_true]
  · simp only [hc, if_false]

theorem gap_keeps_earlier_block_hash_witness :
    work_validator_notify_new_block sample_state 101 = .ok stale_state ∧
    (∀ ev ∈
      [Event.track_work_sent alice (sample_data "1d00ffff".data "00000000".data) false,
        Event.track_work_sent alice (next_data "1d00ffff".data "00000000".data) false],
      InGap ev) ∧
    gap_state.block_hash = sample_state.block_hash ∧
    gap_state.block_hash_prev = sample_state.block_hash ∧
    ∀ (s0 : WorkValidator) (wr : WorkResult) (ref : TableRef) (tw : TrackedWork),
      wr.data.length = 256 →
      get_tracked_work_by_data gap_state wr.data = (s0, some (ref, tw)) →
      tw.version = wr.data.take 8 → tw.timestamp = (wr.data.drop 136).take 8 →
      work_data_get_nonce wr.data ∉ tw.nonces →
      tw.nonce_count < TRACK_NONCE_MAX → tw.user = wr.user →
      ∃ s2,
        prevalidate_work_result gap_state wr =
          .ok (s2, marked wr tw,
            if some (hex_chars wr.data 8 72) = sample_state.block_hash then none
            else some ⟨.INVALID, "Previous block hash mismatch"⟩) ∧
        work_validator_validate zero_sha gap_state wr =
          .ok (s2,
            if some (hex_chars wr.data 8 72) = sample_state.block_hash then
              validate_work_result_in_thread zero_sha s2 (marked wr tw)
            else some ⟨.INVALID, "Previous block hash mismatch"⟩) :=
  ⟨rfl, by decide,
    gap_keeps_earlier_block_hash zero_sha sample_state stale_state 101
      [.track_work_sent alice (sample_data "1d00ffff".data "00000000".data) false,
        .track_work_sent alice (next_data "1d00ffff".data "00000000".data) false]
      gap_state rfl (by decide) rfl⟩

/-- One exchange of `swap_hex_bytes2` on a string given character by character. -/
theorem swap_pair_cons (x : Char) (l : Hex) (a b : Nat) :
    swap_pair (x :: l) a b =
      ((((x :: l).set a ((x :: l).getD b '\x00')).set (a + 1)
        ((x :: l).getD (b + 1) '\x00')).set b ((x :: l).getD a '\x00')).set (b + 1)
        ((x :: l).getD (a + 1) '\x00') :=
  rfl

/-- A string of 64 characters, character by character. -/
theorem length_64_cases (h : Hex) (hl : h.length = 64) :
    ∃ a0 a1 a2 a3 a4 a5 a6 a7 a8 a9 a10 a11 a12 a13 a14 a15 a16 a17 a18 a19 a20 a21 a22 a23 a24
      a25 a26 a27 a28 a29 a30 a31 a32 a33 a34 a35 a36 a37 a38 a39 a40 a41 a42 a43 a44 a45 a46
      a47 a48 a49 a50 a51 a52 a53 a54 a55 a56 a57 a58 a59 a60 a61 a62 a63
      : Char,
      h =
        [a0, a1, a2, a3, a4, a5, a6, a7, a8, a9, a10, a11, a12, a13, a14, a15, a16, a17, a18,
          a19, a20, a21, a22, a23, a24, a25, a26, a27, a28, a29, a30, a31, a32, a33, a34, a35,
          a36, a37, a38, a39, a40, a41, a42, a43, a44, a45, a46, a47, a48, a49, a50, a51, a52,
          a53, a54, a55, a56, a57, a58, a59, a60, a61, a62, a63] := by
  rcases h with _ | ⟨a0, h⟩
  · simp at hl
  rcases h with _ | ⟨a1, h⟩
  · simp at hl
  rcases h with _ | ⟨a2, h⟩
  · simp at hl
  rcases h with _ | ⟨a3, h⟩
  · simp at hl
  rcases h with _ | ⟨a4, h⟩
  · simp at hl
  rcases h with _ | ⟨a5, h⟩
  · simp at hl
  rcases h with _ | ⟨a6, h⟩
  · simp at hl
  rcases h with _ | ⟨a7, h⟩
  · simp at hl
  rcases h with _ | ⟨a8, h⟩
  · simp at hl
  rcases h with _ | ⟨a9, h⟩
  · simp at hl
  rcases h with _ | ⟨a10, h⟩
  · simp at hl
  rcases h with _ | ⟨a11, h⟩
  · simp at hl
  rcases h with _ | ⟨a12, h⟩
  · simp at hl
  rcases h with _ | ⟨a13, h⟩
  · simp at hl
  rcases h with _ | ⟨a14, h⟩
  · simp at hl
  rcases h with _ | ⟨a15, h⟩
  · simp at hl
  rcases h with _ | ⟨a16, h⟩
  · simp at hl
  rcases h with _ | ⟨a17, h⟩
  · simp at hl
  rcases h with _ | ⟨a18, h⟩
  · simp at hl
  rcases h with _ | ⟨a19, h⟩
  · simp at hl
  rcases h with _ | ⟨a20, h⟩
  · simp at hl
  rcases h with _ | ⟨a21, h⟩
  · simp at hl
  rcases h with _ | ⟨a22, h⟩
  · simp at hl
  rcases h with _ | ⟨a23, h⟩
  · simp at hl
  rcases h with _ | ⟨a24, h⟩
  · simp at hl
  rcases h with _ | ⟨a25, h⟩
  · simp at hl
  rcases h with _ | ⟨a26, h⟩
  · simp at hl
  rcases h with _ | ⟨a27, h⟩
  · simp at hl
  rcases h with _ | ⟨a28, h⟩
  · simp at hl
  rcases h with _ | ⟨a29, h⟩
  · simp at hl
  rcases h with _ | ⟨a30, h⟩
  · simp at hl
  rcases h with _ | ⟨a31, h⟩
  · simp at hl
  rcases h with _ | ⟨a32, h⟩
  · simp at hl
  rcases h with _ | ⟨a33, h⟩
  · simp at hl
  rcases h with _ | ⟨a34, h⟩
  · simp at hl
  rcases h with _ | ⟨a35, h⟩
  · simp at hl
  rcases h with _ | ⟨a36, h⟩
  · simp at hl
  rcases h with _ | ⟨a37, h⟩
  · simp at hl
  rcases h with _ | ⟨a38, h⟩
  · simp at hl
  rcases h with _ | ⟨a39, h⟩
  · simp at hl
  rcases h with _ | ⟨a40, h⟩
  · simp at hl
  rcases h with _ | ⟨a41, h⟩
  · simp at hl
  rcases h with _ | ⟨a42, h⟩
  · simp at hl
  rcases h with _ | ⟨a43, h⟩
  · simp at hl
  rcases h with _ | ⟨a44, h⟩
  · simp at hl
  rcases h with _ | ⟨a45, h⟩
  · simp at hl
  rcases h with _ | ⟨a46, h⟩
  · simp at hl
  rcases h with _ | ⟨a47, h⟩
  · simp at hl
  rcases h with _ | ⟨a48, h⟩
  · simp at hl
  rcases h with _ | ⟨a49, h⟩
  · simp at hl
  rcases h with _ | ⟨a50, h⟩
  · simp at hl
  rcases h with _ | ⟨a51, h⟩
  · simp at hl
  rcases h with _ | ⟨a52, h⟩
  · simp at hl
  rcases h with _ | ⟨a53, h⟩
  · simp at hl
  rcases h with _ | ⟨a54, h⟩
  · simp at hl
  rcases h with _ | ⟨a55, h⟩
  · simp at hl
  rcases h with _ | ⟨a56, h⟩
  · simp at hl
  rcases h with _ | ⟨a57, h⟩
  · simp at hl
  rcases h with _ | ⟨a58, h⟩
  · simp at hl
  rcases h with _ | ⟨a59, h⟩
  · simp at hl
  rcases h with _ | ⟨a60, h⟩
  · simp at hl
  rcases h with _ | ⟨a61, h⟩
  · simp at hl
  rcases h with _ | ⟨a62, h⟩
  · simp at hl
  rcases h with _ | ⟨a63, h⟩
  · simp at hl
  rcases h with _ | ⟨b, h⟩
  · exact
      ⟨a0, a1, a2, a3, a4, a5, a6, a7, a8, a9, a10, a11, a12, a13, a14, a15, a16, a17, a18,
        a19, a20, a21, a22, a23, a24, a25, a26, a27, a28, a29, a30, a31, a32, a33, a34, a35,
        a36, a37, a38, a39, a40, a41, a42, a43, a44, a45, a46, a47, a48, a49, a50, a51, a52,
        a53, a54, a55, a56, a57, a58, a59, a60, a61, a62, a63, rfl⟩
  · simp at hl

/-- C25. For every block hash of 64 characters, the string `on_block_hash`
stores (the eight groups of 8 characters in reverse order) is the one obtained
by reversing all 32 bytes with `swap_hex_bytes2 (h, 0, 32)` and then reversing
the bytes of each of the eight 4-byte words with the loop of phase 2; it has
64 characters, and reordering it again gives the hash back. -/
theorem block_hash_reordering (self : WorkValidator) (h : Hex) (hl : h.length = 64) :
    on_block_hash self (some h) =
      .ok { self with
        block_hash := some (block_hash_groups h 8)
        block_hash_shared := false } ∧
    block_hash_groups h 8 = swap_words_loop 8 (swap_hex_bytes2 h 0 32) ∧
    (block_hash_groups h 8).length = 64 ∧
    block_hash_groups (block_hash_groups h 8) 8 = h := by
  refine ⟨by simp [on_block_hash, hl], ?_⟩
  obtain
    ⟨a0, a1, a2, a3, a4, a5, a6, a7, a8, a9, a10, a11, a12, a13, a14, a15, a16, a17, a18, a19,
      a20, a21, a22, a23, a24, a25, a26, a27, a28, a29, a30, a31, a32, a33, a34, a35, a36, a37,
      a38, a39, a40, a41, a42, a43, a44, a45, a46, a47, a48, a49, a50, a51, a52, a53, a54, a55,
      a56, a57, a58, a59, a60, a61, a62, a63, rfl⟩ :=
    length_64_cases h hl
  refine ⟨?_, ?_, ?_⟩
  · simp only [swap_words_loop, swap_hex_bytes2, swap_hex_bytes2_loop, Nat.reduceMul,
      Nat.reduceAdd, Nat.reduceSub, Nat.reduceDiv]
    simp only [swap_pair_cons, List.getD_cons_succ, List.getD_cons_zero, List.set_cons_succ,
      List.set_cons_zero, Nat.reduceAdd]
    rfl
  · rfl
  · simp only [block_hash_groups, Nat.reduceMul, Nat.reduceSub, List.drop_succ_cons,
      List.drop_zero, List.take_succ_cons, List.take_zero, List.nil_append, List.cons_append,
      List.append_nil]

theorem block_hash_reordering_witness :
    sample_block_hash.length = 64 ∧
    block_hash_groups sample_block_hash 8 =
      "f6071829b2c3d4e57e8f90a13a4b5c6df6071829b2c3d4e5000003a100000000".data ∧
    (on_block_hash work_validator_new (some sample_block_hash) =
        .ok { work_validator_new with
          block_hash := some (block_hash_groups sample_block_hash 8)
          block_hash_shared := false } ∧
      block_hash_groups sample_block_hash 8 =
        swap_words_loop 8 (swap_hex_bytes2 sample_block_hash 0 32) ∧
      (block_hash_groups sample_block_hash 8).length = 64 ∧
      block_hash_groups (block_hash_groups sample_block_hash 8) 8 = sample_block_hash) :=
  ⟨by decide, by decide, block_hash_reordering work_validator_new sample_block_hash (by decide)⟩

/-- A conversion that fills the whole array does not depend on what the
array held before. -/
theorem hex_to_bin_loop_indep (hex : Hex) (n : Nat) :
    ∀ (i : Nat) (bin bin1 : List Nat), bin.length = bin1.length → i + n = bin.length →
      (∀ j, j < i → bin[j]? = bin1[j]?) →
      (hex_to_bin_loop hex n i bin).1 = (hex_to_bin_loop hex n i bin1).1 ∧
      ((hex_to_bin_loop hex n i bin).1 = true →
        (hex_to_bin_loop hex n i bin).2 = (hex_to_bin_loop hex n i bin1).2) := by
  induction n with
  | zero =>
    intro i bin bin1 hl hi hj
    refine ⟨rfl, fun _ => ?_⟩
    show bin = bin1
    apply List.ext_getElem?
    intro j
    by_cases h : j < i
    · exact hj j h
    · rw [List.getElem?_eq_none (by omega), List.getElem?_eq_none (by omega)]
  | succ n ih =>
    intro i bin bin1 hl hi hj
    simp only [hex_to_bin_loop]
    by_cases hr : (strtoul16 ((hex.drop (i * 2)).take 2)).2 = 2
    · simp only [hr, ne_eq, not_true_eq_false, if_false]
      apply ih (i + 1)
      · simp [hl]
      · simp only [List.length_set]; omega
      · intro j hlt
        rw [List.getElem?_set, List.getElem?_set]
        by_cases hij : i = j
        · simp only [hij, if_true, ← hl]
        · simp only [hij, if_false]
          exact hj j (by omega)
    · simp [hr]

/-- The target array after `work_validator_set_target` with the pool target:
28 bytes `0xff`, then 4 bytes `0`. -/
theorem easy_target_bytes (self : WorkValidator) (ht : self.target.length = 32) :
    (work_validator_set_target self EASY_TARGET).target =
      List.replicate 28 255 ++ List.replicate 4 0 := by
  have h0 : hex_to_bin_loop EASY_TARGET 32 0 (List.replicate 32 0) =
      (true, List.replicate 28 255 ++ List.replicate 4 0) := by decide
  have hi := hex_to_bin_loop_indep EASY_TARGET 32 0 (List.replicate 32 0) self.target
    (by simp [ht]) (by simp) (fun j hj => absurd hj (Nat.not_lt_zero j))
  rw [h0] at hi
  simp only [work_validator_set_target, hex_to_bin, Nat.reduceDiv]
  exact (hi.2 rfl).symm

theorem hash_value_append (a b : List Nat) :
    hash_value (a ++ b) = hash_value a + 256 ^ a.length * hash_value b := by
  induction a with
  | nil => simp [hash_value]
  | cons x t ih =>
    show x + 256 * hash_value (t ++ b) = x + 256 * hash_value t + 256 ^ (t.length + 1) * hash_value b
    rw [ih]
    ring

theorem hash_value_eq_zero (l : List Nat) : hash_value l = 0 ↔ ∀ x ∈ l, x = 0 := by
  induction l with
  | nil => simp [hash_value]
  | cons x t ih =>
    simp only [hash_value, List.mem_cons, forall_eq_or_imp, ← ih]
    omega

/-- The last four bytes of an array of 32 bytes. -/
theorem drop_28_of_length_32 (h : List Nat) (hl : h.length = 32) :
    h.drop 28 = [h.getD 28 0, h.getD 29 0, h.getD 30 0, h.getD 31 0] := by
  apply List.ext_getElem?
  intro i
  rw [List.getElem?_drop]
  simp only [List.getD_eq_getElem?_getD]
  have h28 : h[28]? = some h[28] := List.getElem?_eq_getElem (by omega)
  have h29 : h[29]? = some h[29] := List.getElem?_eq_getElem (by omega)
  have h30 : h[30]? = some h[30] := List.getElem?_eq_getElem (by omega)
  have h31 : h[31]? = some h[31] := List.getElem?_eq_getElem (by omega)
  rcases i with _ | _ | _ | _ | i
  · simp [h28]
  · simp [h29]
  · simp [h30]
  · simp [h31]
  · rw [List.getElem?_eq_none (by omega)]
    simp

/-- C26. With the target set from the pool target of `main.c`, for every
32-byte digest the target check of phase 2 passes (`compare_inverted_hashes`
is not greater than 0) exactly when bytes 28, 29, 30 and 31 of the digest are
all zero. -/
theorem easy_target_check (self : WorkValidator) (h : List Nat)
    (ht : self.target.length = 32) (hl : h.length = 32) (hb : ∀ x ∈ h, x < 256) :
    ¬ (compare_inverted_hashes h (work_validator_set_target self EASY_TARGET).target > 0) ↔
      h.getD 28 0 = 0 ∧ h.getD 29 0 = 0 ∧ h.getD 30 0 = 0 ∧ h.getD 31 0 = 0 := by
  rw [easy_target_bytes self ht, gt_iff_lt, not_lt]
  unfold compare_inverted_hashes
  rw [compare_loop_le h _ hb (by decide) 32 (by omega) (by decide),
    List.take_of_length_le (by omega), List.take_of_length_le (by decide)]
  have htarget : hash_value (List.replicate 28 255 ++ List.replicate 4 0) = 256 ^ 28 - 1 := by
    decide
  have hsplit : hash_value h =
      hash_value (h.take 28) + 256 ^ 28 * hash_value (h.drop 28) := by
    conv_lhs => rw [← List.take_append_drop 28 h]
    rw [hash_value_append, List.length_take, hl]
    rfl
  have hlow : hash_value (h.take 28) < 256 ^ 28 := by
    have := hash_value_lt (h.take 28) (fun x hx => hb x (List.mem_of_mem_take hx))
    rwa [List.length_take, hl] at this
  have hzero : hash_value (h.drop 28) = 0 ↔
      h.getD 28 0 = 0 ∧ h.getD 29 0 = 0 ∧ h.getD 30 0 = 0 ∧ h.getD 31 0 = 0 := by
    rw [hash_value_eq_zero, drop_28_of_length_32 h hl]
    simp
  rw [htarget, hsplit, ← hzero]
  constructor
  · intro hle
    by_contra hne
    have hpos : 1 ≤ hash_value (h.drop 28) := Nat.one_le_iff_ne_zero.mpr hne
    have : 256 ^ 28 * 1 ≤ 256 ^ 28 * hash_value (h.drop 28) := Nat.mul_le_mul_left _ hpos
    omega
  · intro hz
    rw [hz]
    omega

theorem easy_target_check_witness :
    (work_validator_set_target work_validator_new EASY_TARGET).target =
      List.replicate 28 255 ++ List.replicate 4 0 ∧
    (¬ (compare_inverted_hashes (List.replicate 32 0)
          (work_validator_set_target work_validator_new EASY_TARGET).target > 0) ↔
      (List.replicate 32 0).getD 28 0 = 0 ∧ (List.replicate 32 0).getD 29 0 = 0 ∧
        (List.replicate 32 0).getD 30 0 = 0 ∧ (List.replicate 32 0).getD 31 0 = 0) :=
  ⟨by decide,
    easy_target_check work_validator_new (List.replicate 32 0) (by decide) (by decide)
      (by decide)⟩

/-- The entry a lookup returned is the one `find_tracked` finds afterwards. -/
theorem get_tracked_find (s s0 : WorkValidator) (data : Hex) (ref : TableRef)
    (tw : TrackedWork) (hg : get_tracked_work_by_data s data = (s0, some (ref, tw))) :
    lookup_ref s0 ref (work_data_get_merkle_root_hex data) = some tw ∧
    (ref = .previous →
      lookup_ref s0 .current (work_data_get_merkle_root_hex data) = none) := by
  refine ⟨(get_tracked_evolved s s0 data _ hg).2 ref tw rfl, fun hprev => ?_⟩
  rcases get_tracked_cases s data with ⟨_, _, h3⟩ | ⟨tw1, _, h3⟩ | ⟨tw1, h1, _, h3⟩
  · rw [h3] at hg; cases hg
  · rw [h3] at hg; cases hg; cases hprev
  · rw [h3] at hg
    cases hg
    exact h1

/-- C27. A submission that passes the nonce check and is then rejected for a
user mismatch or a previous-block-hash mismatch is INVALID, and its nonce
stays recorded in the tracked work (one nonce more than before); a later
submission with the same data, from whatever user, is DUPLICATED. -/
theorem rejected_nonce_stays_recorded (H : Sha256) (s s0 : WorkValidator) (wr : WorkResult)
    (ref : TableRef) (tw : TrackedWork)
    (hlen : wr.data.length = 256)
    (hg : get_tracked_work_by_data s wr.data = (s0, some (ref, tw)))
    (hver : tw.version = wr.data.take 8) (hts : tw.timestamp = (wr.data.drop 136).take 8)
    (hn : work_data_get_nonce wr.data ∉ tw.nonces)
    (hcount : tw.nonce_count < TRACK_NONCE_MAX)
    (hrej : tw.user ≠ wr.user ∨
      check_previous_block_hash_matches wr.data (reference_block_hash s tw) ≠ none) :
    ∃ s1 e, work_validator_validate H s wr = .ok (s1, some e) ∧ e.code = .INVALID ∧
      (e.message = "User mismatch" ∨ e.message = "Previous block hash mismatch") ∧
      lookup_ref s1 ref (work_data_get_merkle_root_hex wr.data) =
        some { tw with nonces := tw.nonces ++ [work_data_get_nonce wr.data] } ∧
      TrackedWork.nonce_count { tw with nonces := tw.nonces ++ [work_data_get_nonce wr.data] } =
        tw.nonce_count + 1 ∧
      ∀ wr2 : WorkResult, wr2.data = wr.data →
        ∃ s2, work_validator_validate H s1 wr2 =
          .ok (s2, some ⟨.DUPLICATED, "Duplicate work result"⟩) := by
  obtain ⟨hl0, hcur⟩ := get_tracked_find s s0 wr.data ref tw hg
  have href : reference_block_hash s tw = reference_block_hash s0 tw := by
    have he := (get_tracked_evolved s s0 wr.data _ hg).1
    unfold reference_block_hash
    rw [he.2.1, he.2.2.1]
  rw [href] at hrej
  have hstore : lookup_ref
      (store_tracked_work s0 ref (work_data_get_merkle_root_hex wr.data)
        { tw with nonces := tw.nonces ++ [work_data_get_nonce wr.data] })
      ref (work_data_get_merkle_root_hex wr.data) =
      some { tw with nonces := tw.nonces ++ [work_data_get_nonce wr.data] } := by
    rw [lookup_ref_store, if_pos ⟨rfl, rfl⟩, hl0]
    rfl
  have hfind : find_tracked
      (store_tracked_work s0 ref (work_data_get_merkle_root_hex wr.data)
        { tw with nonces := tw.nonces ++ [work_data_get_nonce wr.data] })
      (work_data_get_merkle_root_hex wr.data) =
      some { tw with nonces := tw.nonces ++ [work_data_get_nonce wr.data] } := by
    rw [find_tracked_eq]
    cases ref with
    | current => rw [hstore]
    | previous =>
      have hc : lookup_ref
          (store_tracked_work s0 .previous (work_data_get_merkle_root_hex wr.data)
            { tw with nonces := tw.nonces ++ [work_data_get_nonce wr.data] })
          .current (work_data_get_merkle_root_hex wr.data) = none := by
        rw [lookup_ref_store, if_neg (by simp), hcur rfl]
      rw [hc, hstore]
  have hdup : ∀ wr2 : WorkResult, wr2.data = wr.data →
      ∃ s2, work_validator_validate H
          (store_tracked_work s0 ref (work_data_get_merkle_root_hex wr.data)
            { tw with nonces := tw.nonces ++ [work_data_get_nonce wr.data] }) wr2 =
        .ok (s2, some ⟨.DUPLICATED, "Duplicate work result"⟩) := by
    intro wr2 hd
    refine validate_duplicate H _ wr2 _ (by rw [hd]; exact hlen) (by rw [hd]; exact hfind)
      (by rw [hd]; exact hver) (by rw [hd]; exact hts) (by rw [hd]; simp)
  have hv := validate_found H s s0 wr ref tw hlen hg
  rw [if_neg (not_not.mpr hver), if_neg (not_not.mpr hts), if_neg hn, if_pos hcount] at hv
  have hcnt : TrackedWork.nonce_count
      { tw with nonces := tw.nonces ++ [work_data_get_nonce wr.data] } = tw.nonce_count + 1 := by
    simp [TrackedWork.nonce_count]
  by_cases hu : tw.user = wr.user
  · rw [if_neg (not_not.mpr hu)] at hv
    have hne : check_previous_block_hash_matches wr.data (reference_block_hash s0 tw) ≠ none :=
      hrej.resolve_left (not_not.mpr hu)
    cases hcp : check_previous_block_hash_matches wr.data (reference_block_hash s0 tw) with
    | none => exact absurd hcp hne
    | some e =>
      rw [hcp] at hv
      refine ⟨_, e, hv, check_previous_code _ _ e hcp, Or.inr ?_, hstore, hcnt, hdup⟩
      rw [check_previous_eq] at hcp
      split at hcp
      · cases hcp
      · cases hcp; rfl
  · rw [if_pos hu] at hv
    exact ⟨_, _, hv, rfl, Or.inl rfl, hstore, hcnt, hdup⟩

theorem rejected_nonce_stays_recorded_witness :
    ∃ s1 e, work_validator_validate zero_sha sample_state
        (sample_result bob "1d00ffff" "deadbeef") = .ok (s1, some e) ∧ e.code = .INVALID ∧
      (e.message = "User mismatch" ∨ e.message = "Previous block hash mismatch") ∧
      lookup_ref s1 .current
          (work_data_get_merkle_root_hex (sample_result bob "1d00ffff" "deadbeef").data) =
        some { sample_tracked with
          nonces := sample_tracked.nonces ++
            [work_data_get_nonce (sample_result bob "1d00ffff" "deadbeef").data] } ∧
      TrackedWork.nonce_count
          { sample_tracked with
            nonces := sample_tracked.nonces ++
              [work_data_get_nonce (sample_result bob "1d00ffff" "deadbeef").data] } =
        sample_tracked.nonce_count + 1 ∧
      ∀ wr2 : WorkResult, wr2.data = (sample_result bob "1d00ffff" "deadbeef").data →
        ∃ s2, work_validator_validate zero_sha s1 wr2 =
          .ok (s2, some ⟨.DUPLICATED, "Duplicate work result"⟩) :=
  rejected_nonce_stays_recorded zero_sha sample_state sample_state
    (sample_result bob "1d00ffff" "deadbeef") .current sample_tracked
    (by decide) (by decide) (by decide) (by decide) (by decide) (by decide)
    (Or.inl (by decide))

theorem write_all_stuck (content : Bytes) (w : LoggerWorld) (h : Stuck content w) :
    write_all w = w := by
  obtain ⟨ha, hp, hs, _, _, _⟩ := h
  simp [write_all, ha, hp, hs]

theorem file_logger_log_stuck (content : Bytes) (w : LoggerWorld) (entry : Bytes)
    (h : Stuck content w) : Stuck content (file_logger_log w entry) := by
  obtain ⟨ha, hp, hs, ht, hd, hr⟩ := h
  unfold file_logger_log
  simp only
  split
  · rename_i hc
    simp [ha] at hc
  · exact ⟨ha, hp, hs, ht, hd, hr⟩

theorem complete_truncate_false_stuck (content : Bytes) (w : LoggerWorld)
    (callback : TruncateCallback) (now : Nat) (h : Stuck content w) :
    Stuck content (complete_truncate w callback false now) := by
  obtain ⟨ha, hp, hs, ht, hd, hr⟩ := h
  have h1 : Stuck content
      { w with reports := w.reports ++ [.copy_and_truncate_finished false] } :=
    ⟨ha, hp, hs, ht, hd, by simpa using hr⟩
  cases callback <;> simpa [complete_truncate] using h1

theorem complete_flush_false_stuck (content : Bytes) (w : LoggerWorld)
    (callback : FlushCallback) (now : Nat) (h : Stuck content w) :
    Stuck content (complete_flush w callback false now) := by
  cases callback with
  | other =>
    obtain ⟨ha, hp, hs, ht, hd, hr⟩ := h
    exact ⟨ha, hp, hs, ht, hd, by simpa [complete_flush] using hr⟩
  | copy_and_truncate_on_logger_flushed data =>
    simpa [complete_flush, copy_and_truncate_on_logger_flushed] using
      complete_truncate_false_stuck content w data.callback now h

theorem file_logger_flush_stuck (content : Bytes) (w : LoggerWorld) (callback : FlushCallback)
    (h : Stuck content w) : Stuck content (file_logger_flush w callback) := by
  obtain ⟨ha, hp, hs, ht, hd, hr⟩ := h
  unfold file_logger_flush
  split
  · exact ⟨ha, hp, hs, ht, hd, hr⟩
  · rename_i hc
    simp [ha] at hc

theorem file_logger_copy_and_truncate_stuck (content : Bytes) (w : LoggerWorld) (name : Bytes)
    (t : Nat) (callback : TruncateCallback) (h : Stuck content w) :
    Stuck content (file_logger_copy_and_truncate w name t callback) := by
  unfold file_logger_copy_and_truncate
  split
  · obtain ⟨ha, hp, hs, ht, hd, hr⟩ := h
    exact ⟨ha, hp, hs, ht, hd, hr⟩
  · apply file_logger_flush_stuck
    obtain ⟨ha, hp, hs, ht, hd, hr⟩ := h
    exact ⟨ha, hp, hs, ht, hd, hr⟩

/-- Once a flush is registered with nothing under way, no event changes
that. -/
theorem logger_step_stuck (content : Bytes) (w w1 : LoggerWorld) (ev : LoggerEvent)
    (h : Stuck content w) (hs : logger_step w ev = some w1) : Stuck content w1 := by
  cases ev with
  | log entry => cases hs; exact file_logger_log_stuck content w entry h
  | freeze =>
    cases hs
    obtain ⟨ha, hp, hs, ht, hd, hr⟩ := h
    exact ⟨ha, hp, hs, ht, hd, hr⟩
  | thaw =>
    cases hs
    have h1 : Stuck content { w with self := { w.self with frozen := false } } := by
      obtain ⟨ha, hp, hs, ht, hd, hr⟩ := h
      exact ⟨ha, hp, hs, ht, hd, hr⟩
    unfold file_logger_thaw
    simp only
    split
    · rw [write_all_stuck content _ h1]; exact h1
    · exact h1
  | flush => cases hs; exact file_logger_flush_stuck content w _ h
  | copy_and_truncate name t =>
    cases hs; exact file_logger_copy_and_truncate_stuck content w name t _ h
  | work_validated code user passw now =>
    cases hs; exact file_logger_log_stuck content w _ h
  | block_found name block user passw now =>
    cases hs
    exact file_logger_copy_and_truncate_stuck content _ _ _ _
      (file_logger_log_stuck content w _ h)
  | written size =>
    simp only [logger_step, h.2.1] at hs
    simp at hs
  | flushed flush_ok now =>
    simp only [logger_step, h.2.1] at hs
    simp at hs
  | timeout copy_ok truncate_ok now =>
    simp only [logger_step, h.2.2.2.1] at hs
    cases hs
  | idle now =>
    simp only [logger_step] at hs
    split at hs
    · cases hs
    · cases hs
      apply complete_flush_false_stuck
      obtain ⟨ha, hp, hs, ht, hd, hr⟩ := h
      exact ⟨ha, hp, hs, ht, hd, hr⟩
    · cases hs
      apply complete_truncate_false_stuck
      obtain ⟨ha, hp, hs, ht, hd, hr⟩ := h
      exact ⟨ha, hp, hs, ht, hd, hr⟩

theorem logger_run_stuck (content : Bytes) (evs : List LoggerEvent) (w w1 : LoggerWorld)
    (h : Stuck content w) (hr : logger_run w evs = some w1) : Stuck content w1 := by
  induction evs generalizing w with
  | nil => cases hr; exact h
  | cons ev evs ih =>
    simp only [logger_run] at hr
    cases hs : logger_step w ev with
    | none => simp [hs] at hr
    | some w2 =>
      simp only [hs] at hr
      exact ih w2 (logger_step_stuck content w w2 ev h hs) hr

/-- C28 (the code fails it). After `file_logger_flush` on a new logger (no
write pending, nothing to write) the flush is registered and no operation is
outstanding on the stream; whatever happens afterwards, the flush stays
registered, nothing is outstanding, nothing reaches the file and no flush is
reported as successful. -/
theorem idle_flush_never_completes (file : Bool) (content : Bytes) (evs : List LoggerEvent)
    (w : LoggerWorld) (hr : logger_run (new_logger file content) (.flush :: evs) = some w) :
    (file_logger_flush (new_logger file content) .other).self.async_result = some .other ∧
    (file_logger_flush (new_logger file content) .other).pending = none ∧
    w.self.async_result = some .other ∧ w.pending = none ∧ w.disk = content ∧
    Report.flush_finished true ∉ w.reports := by
  have h0 : Stuck content (file_logger_flush (new_logger file content) .other) := by
    simp [Stuck, file_logger_flush, new_logger, write_all]
  have h1 := logger_run_stuck content evs _ w h0 hr
  exact ⟨h0.1, h0.2.1, h1.1, h1.2.1, h1.2.2.2.2.1, h1.2.2.2.2.2⟩

theorem idle_flush_never_completes_witness :
    (logger_run (new_logger true [])
        [.flush, .log "A".data, .thaw, .flush, .idle 0]).map
      (fun w => (w.self.async_result, w.pending, w.disk, w.self.queue, w.reports)) =
      some (some .other, none, [], ["A\n".data], [.flush_finished false]) ∧
    ((file_logger_flush (new_logger true []) .other).self.async_result = some .other ∧
      (file_logger_flush (new_logger true []) .other).pending = none ∧
      idle_flush_world.self.async_result = some .other ∧ idle_flush_world.pending = none ∧
      idle_flush_world.disk = [] ∧ Report.flush_finished true ∉ idle_flush_world.reports) :=
  ⟨rfl,
    idle_flush_never_completes true [] [.log "A".data, .thaw, .flush, .idle 0] idle_flush_world
      (by decide)⟩

/-- C29 (the code fails it). After start, stop and start, with the first
`getblockcount` call still in flight, two calls are in flight; when both have
completed two timeout sources are armed, and when both have expired two calls
are in flight again. -/
theorem two_polls_after_restart :
    (monitor_run (block_monitor_new 0) restart_events).map
        (fun m => (m.timers.length, m.calls)) = some (0, 2) ∧
    (monitor_run (block_monitor_new 0)
        (restart_events ++ [.response (some 5), .response (some 5)])).map
        (fun m => (m.timers, m.calls, m.self.src_id)) = some ([1, 2], 0, 2) ∧
    (monitor_run (block_monitor_new 0)
        (restart_events ++ [.response (some 5), .response (some 5), .timer 1, .timer 2])).map
        (fun m => (m.timers.length, m.calls)) = some (0, 2) := by
  decide

/-- C30 (the code fails it). A copy-and-truncate whose inner flush is refused,
because a flush is already registered, completes with an error and leaves the
logger frozen: the entry logged afterwards stays in the queue with nothing
outstanding. When instead the copy fails at the timeout, the logger is thawed
and the entry logged afterwards is handed to the stream. -/
theorem refused_truncate_leaves_frozen :
    (logger_run (new_logger true []) refused_truncate_events).map
        (fun w => (w.reports, w.self.frozen, w.self.queue, w.self.write_all_string, w.pending,
          w.disk)) =
      some ([.copy_and_truncate_finished false, .flush_finished true], true, ["B\n".data], [],
        none, "A\n".data) ∧
    (logger_run (new_logger true []) failed_copy_events).map
        (fun w => (w.reports, w.self.frozen, w.self.queue, w.self.write_all_string, w.pending,
          w.disk)) =
      some ([.copy_and_truncate_finished false], false, [], "B\n".data, some .write,
        "A\n".data) :=
  ⟨rfl, rfl⟩

end PoolDance
